import Mathlib

/-!
# Three-address-code lowering of drewno_mars (`3ac_output.cpp`)

A shallow embedding of the AST-to-3AC lowering pass.  The per-node virtual
methods `flatten` and `to3AC` of the source become recursive functions over a
closed AST; the mutable `Procedure` / `IRProgram` builders become an explicit
state that is threaded through them; a failing `assert` (assertions are
enabled) and `throw new InternalError(..)` become the error side of `Except`,
which records the failure together with the builders as they are at that
point, so that what was appended or registered before the abort can be read
off.

The builder classes are not part of the lowering source; their operations are
modelled from the specification and marked as such.
-/

namespace DrewnoMars

/-! ## Operands, labels and quads -/

/-- A resolved symbol record.  `uid` stands for the identity of the
`SemSymbol *` pointer, `isVoid` for `getDataType()->isVoid()`. -/
structure SemSymbol where
  uid : Nat
  name : String
  isVoid : Bool
deriving DecidableEq, Repr

/-- A jump target, identified by its number. -/
structure Label where
  id : Nat
deriving DecidableEq, Repr

/-- Operands: symbol operands, literals, numbered temporaries and references
to a pooled string. -/
inductive Opd where
  | SymOpd (sym : SemSymbol) (width : Nat)
  | LitOpd (val : String) (width : Nat)
  | AuxOpd (id : Nat) (width : Nat)
  | StrOpd (id : Nat) (width : Nat)
deriving DecidableEq, Repr

inductive BinOp where
  | ADD64 | SUB64 | DIV64 | MULT64 | OR64 | AND64
  | EQ64 | NEQ64 | LT64 | GT64 | LTE64 | GTE64
deriving DecidableEq, Repr

inductive UnaryOp where
  | NEG64 | NOT64
deriving DecidableEq, Repr

/-- The instruction kinds built by the lowering.  Operand slots hold an
`Opd *` in the source, which is null when it comes from a void call, hence
`Option Opd`. -/
inductive QuadKind where
  | AssignQuad (dst src : Option Opd)
  | UnaryOpQuad (dst : Option Opd) (op : UnaryOp) (src : Option Opd)
  | BinOpQuad (dst : Option Opd) (op : BinOp) (src1 src2 : Option Opd)
  | GotoQuad (tgt : Label)
  | IfzQuad (cnd : Option Opd) (tgt : Label)
  | SetArgQuad (index : Nat) (opd : Option Opd)
  | GetArgQuad (index : Nat) (opd : Option Opd)
  | CallQuad (callee : SemSymbol)
  | SetRetQuad (opd : Option Opd)
  | GetRetQuad (opd : Option Opd)
  | WriteQuad (src : Option Opd)
  | ReadQuad (dst : Option Opd)
  | NopQuad
deriving DecidableEq, Repr

/-- An instruction together with the labels attached to it. -/
structure Quad where
  labels : List Label
  kind : QuadKind
deriving DecidableEq, Repr

/-- A freshly constructed quad carries no label (`new XQuad(..)`). -/
def Quad.new (k : QuadKind) : Quad := ⟨[], k⟩

/-- Attach a label to a quad (`quad->addLabel(l)`). -/
def Quad.addLabel (q : Quad) (l : Label) : Quad := { q with labels := q.labels ++ [l] }

/-! ## The builders -/

/-- Modelled from the spec: the `Procedure` class (its definition is not part
of the lowering source).  It owns the ordered instruction sequence, the
symbol-to-operand cache, the formals and locals in declaration order, the
temporary and label counters and the leave label. -/
structure Procedure where
  name : String
  quads : List Quad
  symOpds : List (SemSymbol × Opd)
  formals : List SemSymbol
  locals : List SemSymbol
  maxTmp : Nat
  maxLabel : Nat
  leave : Label
deriving DecidableEq, Repr

/-- Modelled from the spec: the `IRProgram` class (the module builder).  It
owns the procedures in creation order, the global symbol set and the
deduplicated string pool (the pooled id of a text is its position). -/
structure IRProgram where
  procs : List Procedure
  globals : List SemSymbol
  strings : List String
deriving DecidableEq, Repr

/-- Modelled from the spec: `newProcedure(name)`.  The leave label is created
once at procedure-build start, from the procedure's own label counter. -/
def Procedure.create (name : String) : Procedure :=
  { name := name, quads := [], symOpds := [], formals := [], locals := [],
    maxTmp := 0, maxLabel := 1, leave := ⟨0⟩ }

/-- Modelled from the spec: `appendInstruction(instr)`. -/
def Procedure.addQuad (p : Procedure) (q : Quad) : Procedure :=
  { p with quads := p.quads ++ [q] }

/-- Modelled from the spec: `popLastInstruction()` removes the most recently
appended instruction. -/
def Procedure.popQuad (p : Procedure) : Procedure :=
  { p with quads := p.quads.dropLast }

/-- Modelled from the spec: `newLabel()`, numbered by a monotonically
increasing counter. -/
def Procedure.makeLabel (p : Procedure) : Label × Procedure :=
  (⟨p.maxLabel⟩, { p with maxLabel := p.maxLabel + 1 })

/-- Modelled from the spec: `newTemporary(width)`, uniquely numbered, never
reused. -/
def Procedure.makeTmp (p : Procedure) (width : Nat) : Opd × Procedure :=
  (Opd.AuxOpd p.maxTmp width, { p with maxTmp := p.maxTmp + 1 })

/-- Modelled from the spec: `symbolOperand(symbol)` returns the cached operand
for the symbol, creating and caching one on first use. -/
def Procedure.getSymOpd (p : Procedure) (sym : SemSymbol) : Opd × Procedure :=
  match p.symOpds.lookup sym with
  | some opd => (opd, p)
  | none =>
    let opd := Opd.SymOpd sym 8
    (opd, { p with symOpds := p.symOpds ++ [(sym, opd)] })

/-- Modelled from the spec: `registerFormal(symbol)`. -/
def Procedure.gatherFormal (p : Procedure) (sym : SemSymbol) : Procedure :=
  { p with formals := p.formals ++ [sym] }

/-- Modelled from the spec: `registerLocal(symbol)`. -/
def Procedure.gatherLocal (p : Procedure) (sym : SemSymbol) : Procedure :=
  { p with locals := p.locals ++ [sym] }

/-- Modelled from the spec: `leaveLabel()`. -/
def Procedure.getLeaveLabel (p : Procedure) : Label := p.leave

/-- Modelled from the spec: the module builder as created for one
compilation (`new IRProgram(ta)`). -/
def IRProgram.create : IRProgram := { procs := [], globals := [], strings := [] }

/-- Modelled from the spec: recording a symbol in the global symbol set. -/
def IRProgram.gatherGlobal (g : IRProgram) (sym : SemSymbol) : IRProgram :=
  if sym ∈ g.globals then g else { g with globals := g.globals ++ [sym] }

/-- Modelled from the spec: `internString(text)`, deduplicating by exact text
match; the operand refers to the pooled entry. -/
def IRProgram.makeString (g : IRProgram) (text : String) : Opd × IRProgram :=
  if text ∈ g.strings then (Opd.StrOpd (g.strings.indexOf text) 8, g)
  else (Opd.StrOpd g.strings.length 8, { g with strings := g.strings ++ [text] })

/-- The lowering context of a function body: the `Procedure *proc` being
filled together with the module `proc->getProg()` it belongs to. -/
structure Ctx where
  proc : Procedure
  prog : IRProgram
deriving DecidableEq, Repr

/-- The two ways the lowering aborts. -/
inductive LowerError where
  | InternalError (msg : String)
  | AssertFailed (cond : String)
deriving DecidableEq, Repr

/-- An aborted lowering: the error, together with the builders as they are at
the moment the exception is thrown or the assertion fails: the procedure that
is being filled, if there is one, and the module. -/
structure Failure where
  error : LowerError
  proc : Option Procedure
  prog : IRProgram
deriving DecidableEq, Repr

/-- Aborting inside a procedure, in the given lowering context. -/
def Ctx.fail (c : Ctx) (e : LowerError) : Failure := ⟨e, some c.proc, c.prog⟩

/-- Aborting at module scope, with no procedure being filled. -/
def IRProgram.fail (g : IRProgram) (e : LowerError) : Failure := ⟨e, none, g⟩

/-- `proc->addQuad(q)` in a lowering context. -/
def Ctx.addQuad (c : Ctx) (q : Quad) : Ctx := { c with proc := c.proc.addQuad q }

/-- `proc->popQuad()` in a lowering context. -/
def Ctx.popQuad (c : Ctx) : Ctx := { c with proc := c.proc.popQuad }

/-- `proc->makeLabel()` in a lowering context. -/
def Ctx.makeLabel (c : Ctx) : Label × Ctx :=
  (c.proc.makeLabel.fst, { c with proc := c.proc.makeLabel.snd })

/-- `proc->makeTmp(width)` in a lowering context. -/
def Ctx.makeTmp (c : Ctx) (width : Nat) : Opd × Ctx :=
  ((c.proc.makeTmp width).fst, { c with proc := (c.proc.makeTmp width).snd })

/-- `proc->getSymOpd(sym)` in a lowering context. -/
def Ctx.getSymOpd (c : Ctx) (sym : SemSymbol) : Opd × Ctx :=
  ((c.proc.getSymOpd sym).fst, { c with proc := (c.proc.getSymOpd sym).snd })

/-- `proc->gatherFormal(sym)` in a lowering context. -/
def Ctx.gatherFormal (c : Ctx) (sym : SemSymbol) : Ctx :=
  { c with proc := c.proc.gatherFormal sym }

/-- `proc->gatherLocal(sym)` in a lowering context. -/
def Ctx.gatherLocal (c : Ctx) (sym : SemSymbol) : Ctx :=
  { c with proc := c.proc.gatherLocal sym }

/-- `proc->getLeaveLabel()` in a lowering context. -/
def Ctx.getLeaveLabel (c : Ctx) : Label := c.proc.getLeaveLabel

/-- `proc->getProg()->makeString(text)` in a lowering context. -/
def Ctx.makeString (c : Ctx) (text : String) : Opd × Ctx :=
  ((c.prog.makeString text).fst, { c with prog := (c.prog.makeString text).snd })

/-! ## The AST -/

/-- The twelve binary expression node classes. -/
inductive BinaryKind where
  | PlusNode | MinusNode | TimesNode | DivideNode | AndNode | OrNode
  | EqualsNode | NotEqualsNode | LessNode | GreaterNode | LessEqNode | GreaterEqNode
deriving DecidableEq, Repr

/-- The two unary expression node classes. -/
inductive UnaryKind where
  | NegNode | NotNode
deriving DecidableEq, Repr

/-- Expression nodes.  An identifier carries the result of `getSymbol()`,
which is null when the name was not resolved. -/
inductive ExpNode where
  | IntLitNode (myNum : Int)
  | StrLitNode (myStr : String)
  | TrueNode
  | FalseNode
  | IDNode (symbol : Option SemSymbol)
  | CallExpNode (myCallee : SemSymbol) (myArgs : List ExpNode)
  | UnaryExpNode (k : UnaryKind) (myExp : ExpNode)
  | BinaryExpNode (k : BinaryKind) (myExp1 myExp2 : ExpNode)
deriving Repr

/-- Location nodes: the assignable expressions.  `IDNode` is the only
location class with a `flatten` in the lowering source. -/
inductive LocNode where
  | IDNode (symbol : Option SemSymbol)
deriving DecidableEq, Repr

/-- A location read as an expression node. -/
def LocNode.toExp : LocNode → ExpNode
  | .IDNode symbol => .IDNode symbol

/-- Statement nodes.  Declarations are statements too; each formal of a
function declaration is given by the result of `ID()->getSymbol()`.  A call
statement owns a `CallExpNode`, given by its callee and arguments. -/
inductive StmtNode where
  | AssignStmtNode (myDst : LocNode) (mySrc : ExpNode)
  | PostIncStmtNode (myLoc : LocNode)
  | PostDecStmtNode (myLoc : LocNode)
  | GiveStmtNode (mySrc : ExpNode)
  | TakeStmtNode (myDst : LocNode)
  | IfStmtNode (myCond : ExpNode) (myBody : List StmtNode)
  | IfElseStmtNode (myCond : ExpNode) (myBodyTrue myBodyFalse : List StmtNode)
  | WhileStmtNode (myCond : ExpNode) (myBody : List StmtNode)
  | CallStmtNode (myCallee : SemSymbol) (myArgs : List ExpNode)
  | ReturnStmtNode (myExp : Option ExpNode)
  | ExitStmtNode
  | VarDeclNode (symbol : Option SemSymbol)
  | FormalDeclNode (symbol : Option SemSymbol)
  | FnDeclNode (symbol : SemSymbol) (myFormals : List (Option SemSymbol))
      (myBody : List StmtNode)
deriving Repr

/-- Top-level declaration nodes, the elements of `myGlobals`. -/
inductive DeclNode where
  | FnDeclNode (symbol : SemSymbol) (myFormals : List (Option SemSymbol))
      (myBody : List StmtNode)
  | VarDeclNode (symbol : Option SemSymbol)
  | FormalDeclNode (symbol : Option SemSymbol)
deriving Repr

/-- The opcode each binary node class passes to `BinOpQuad`. -/
def BinaryKind.opcode : BinaryKind → BinOp
  | .PlusNode => .ADD64
  | .MinusNode => .SUB64
  | .TimesNode => .MULT64
  | .DivideNode => .DIV64
  | .AndNode => .AND64
  | .OrNode => .OR64
  | .EqualsNode => .EQ64
  | .NotEqualsNode => .NEQ64
  | .LessNode => .LT64
  | .GreaterNode => .GT64
  | .LessEqNode => .LTE64
  | .GreaterEqNode => .GTE64

/-- The opcode each unary node class passes to `UnaryOpQuad`. -/
def UnaryKind.opcode : UnaryKind → UnaryOp
  | .NegNode => .NEG64
  | .NotNode => .NOT64

/-! ## Expression flattening -/

mutual
/-- The `flatten` methods of the expression nodes. -/
def ExpNode.flatten : ExpNode → Ctx → Except Failure (Option Opd × Ctx)
  | .IntLitNode myNum, c => .ok (some (Opd.LitOpd (toString myNum) 8), c)
  | .StrLitNode myStr, c =>
    let res := c.makeString myStr
    .ok (some res.fst, res.snd)
  | .TrueNode, c => .ok (some (Opd.LitOpd "1" 8), c)
  | .FalseNode, c => .ok (some (Opd.LitOpd "0" 8), c)
  | .IDNode none, c => .error (c.fail (.AssertFailed "symbol != nullptr"))
  | .IDNode (some symbol), c =>
    let res := c.getSymOpd symbol
    .ok (some res.fst, res.snd)
  | .CallExpNode symbol myArgs, c =>
    match ExpNode.flattenArgs myArgs 1 c with
    | .error e => .error e
    | .ok c1 =>
      let c2 := c1.addQuad (Quad.new (.CallQuad symbol))
      if symbol.isVoid then .ok (none, c2)
      else
        let returnValue := c2.makeTmp 8
        .ok (some returnValue.fst,
          returnValue.snd.addQuad (Quad.new (.GetRetQuad (some returnValue.fst))))
  | .UnaryExpNode k myExp, c =>
    match ExpNode.flatten myExp c with
    | .error e => .error e
    | .ok (src, c1) =>
      let dst := c1.makeTmp 8
      .ok (some dst.fst, dst.snd.addQuad (Quad.new (.UnaryOpQuad (some dst.fst) k.opcode src)))
  | .BinaryExpNode k myExp1 myExp2, c =>
    match ExpNode.flatten myExp1 c with
    | .error e => .error e
    | .ok (src1, c1) =>
      match ExpNode.flatten myExp2 c1 with
      | .error e => .error e
      | .ok (src2, c2) =>
        let dst := c2.makeTmp 8
        .ok (some dst.fst,
          dst.snd.addQuad (Quad.new (.BinOpQuad (some dst.fst) k.opcode src1 src2)))
/-- The argument loop of `CallExpNode::flatten`, started at `index`. -/
def ExpNode.flattenArgs : List ExpNode → Nat → Ctx → Except Failure Ctx
  | [], _, c => .ok c
  | arg :: rest, index, c =>
    match ExpNode.flatten arg c with
    | .error e => .error e
    | .ok (exp, c1) =>
      ExpNode.flattenArgs rest (index + 1) (c1.addQuad (Quad.new (.SetArgQuad index exp)))
end

/-- The `flatten` of a location node. -/
def LocNode.flatten (l : LocNode) (c : Ctx) : Except Failure (Option Opd × Ctx) :=
  l.toExp.flatten c

/-! ## Statement lowering -/

/-- The last two lines of `AssignStmtNode::to3AC`, on the operands the two
sides were flattened to:
`assert(dst != nullptr); proc->addQuad(new AssignQuad(dst, src));`. -/
def AssignStmtNode.emit (dst src : Option Opd) (c : Ctx) : Except Failure Ctx :=
  match dst with
  | none => .error (c.fail (.AssertFailed "dst != nullptr"))
  | some d => .ok (c.addQuad (Quad.new (.AssignQuad (some d) src)))

mutual
/-- The procedure-scope `to3AC` methods of the statement nodes. -/
def StmtNode.to3AC : StmtNode → Ctx → Except Failure Ctx
  | .AssignStmtNode myDst mySrc, c =>
    match mySrc.flatten c with
    | .error e => .error e
    | .ok (src, c1) =>
      match myDst.flatten c1 with
      | .error e => .error e
      | .ok (dst, c2) => AssignStmtNode.emit dst src c2
  | .PostIncStmtNode myLoc, c =>
    match myLoc.flatten c with
    | .error e => .error e
    | .ok (dst, c1) =>
      .ok (c1.addQuad (Quad.new (.BinOpQuad dst .ADD64 dst (some (Opd.LitOpd "1" 8)))))
  | .PostDecStmtNode myLoc, c =>
    match myLoc.flatten c with
    | .error e => .error e
    | .ok (dst, c1) =>
      .ok (c1.addQuad (Quad.new (.BinOpQuad dst .SUB64 dst (some (Opd.LitOpd "1" 8)))))
  | .GiveStmtNode mySrc, c =>
    match mySrc.flatten c with
    | .error e => .error e
    | .ok (src, c1) => .ok (c1.addQuad (Quad.new (.WriteQuad src)))
  | .TakeStmtNode myDst, c =>
    match myDst.flatten c with
    | .error e => .error e
    | .ok (dst, c1) => .ok (c1.addQuad (Quad.new (.ReadQuad dst)))
  | .IfStmtNode myCond myBody, c =>
    match myCond.flatten c with
    | .error e => .error e
    | .ok (exp, c1) =>
      let tgt := c1.makeLabel
      let c2 := tgt.snd.addQuad (Quad.new (.IfzQuad exp tgt.fst))
      match StmtNode.to3ACList myBody c2 with
      | .error e => .error e
      | .ok c3 => .ok (c3.addQuad ((Quad.new .NopQuad).addLabel tgt.fst))
  | .IfElseStmtNode myCond myBodyTrue myBodyFalse, c =>
    match myCond.flatten c with
    | .error e => .error e
    | .ok (exp, c1) =>
      let elseStmt := c1.makeLabel
      let tgt := elseStmt.snd.makeLabel
      let c2 := tgt.snd.addQuad (Quad.new (.IfzQuad exp elseStmt.fst))
      match StmtNode.to3ACList myBodyTrue c2 with
      | .error e => .error e
      | .ok c3 =>
        let c4 := c3.addQuad (Quad.new (.GotoQuad tgt.fst))
        let c5 := c4.addQuad ((Quad.new .NopQuad).addLabel elseStmt.fst)
        match StmtNode.to3ACList myBodyFalse c5 with
        | .error e => .error e
        | .ok c6 => .ok (c6.addQuad ((Quad.new .NopQuad).addLabel tgt.fst))
  | .WhileStmtNode myCond myBody, c =>
    let head := c.makeLabel
    let endLabel := head.snd.makeLabel
    let c1 := endLabel.snd.addQuad ((Quad.new .NopQuad).addLabel head.fst)
    match myCond.flatten c1 with
    | .error e => .error e
    | .ok (exp, c2) =>
      let c3 := c2.addQuad (Quad.new (.IfzQuad exp endLabel.fst))
      match StmtNode.to3ACList myBody c3 with
      | .error e => .error e
      | .ok c4 =>
        let c5 := c4.addQuad (Quad.new (.GotoQuad head.fst))
        .ok (c5.addQuad ((Quad.new .NopQuad).addLabel endLabel.fst))
  | .CallStmtNode myCallee myArgs, c =>
    match (ExpNode.CallExpNode myCallee myArgs).flatten c with
    | .error e => .error e
    | .ok (none, c1) => .error (c1.fail (.AssertFailed "callExp != nullptr"))
    | .ok (some _, c1) => .ok c1.popQuad
  | .ReturnStmtNode none, c =>
    let returnLabel := c.getLeaveLabel
    .ok (c.addQuad (Quad.new (.GotoQuad returnLabel)))
  | .ReturnStmtNode (some myExp), c =>
    match myExp.flatten c with
    | .error e => .error e
    | .ok (exp, c1) =>
      let c2 := c1.addQuad (Quad.new (.SetRetQuad exp))
      let returnLabel := c2.getLeaveLabel
      .ok (c2.addQuad (Quad.new (.GotoQuad returnLabel)))
  | .ExitStmtNode, c => .ok c
  | .VarDeclNode none, c => .error (c.fail (.AssertFailed "sym != nullptr"))
  | .VarDeclNode (some sym), c => .ok (c.gatherLocal sym)
  | .FormalDeclNode none, c => .error (c.fail (.AssertFailed "symbol != nullptr"))
  | .FormalDeclNode (some symbol), c => .ok (c.gatherFormal symbol)
  | .FnDeclNode _ _ _, c => .error (c.fail (.InternalError "FnDecl at a local scope"))
/-- The loops `for (auto stmt : *body) stmt->to3AC(proc)`. -/
def StmtNode.to3ACList : List StmtNode → Ctx → Except Failure Ctx
  | [], c => .ok c
  | stmt :: rest, c =>
    match StmtNode.to3AC stmt c with
    | .error e => .error e
    | .ok c1 => StmtNode.to3ACList rest c1
end

/-! ## Module-scope lowering -/

/-- Modelled from the spec: `newProcedure(name)` as offered by the module
(`prog->makeProc(name)`): a fresh procedure owned by the module.  While it is
being filled it is carried in the lowering context; `IRProgram.addProc` puts
the filled procedure in the module, after the procedures created before it. -/
def IRProgram.makeProc (g : IRProgram) (name : String) : Ctx :=
  { proc := Procedure.create name, prog := g }

/-- Modelled from the spec: the module owns its procedures in creation order. -/
def IRProgram.addProc (g : IRProgram) (p : Procedure) : IRProgram :=
  { g with procs := g.procs ++ [p] }

/-- The first loop of `FnDeclNode::to3AC(IRProgram *)`:
`formal->to3AC(proc)` for every formal. -/
def FnDeclNode.formalsTo3AC : List (Option SemSymbol) → Ctx → Except Failure Ctx
  | [], c => .ok c
  | formal :: rest, c =>
    match (StmtNode.FormalDeclNode formal).to3AC c with
    | .error e => .error e
    | .ok c1 => FnDeclNode.formalsTo3AC rest c1

/-- The second loop of `FnDeclNode::to3AC(IRProgram *)`: one `GetArgQuad` per
formal, numbered from `index`.  A formal without symbol cannot reach this loop,
the first loop asserts on it. -/
def FnDeclNode.getArgQuads : List (Option SemSymbol) → Nat → Ctx → Except Failure Ctx
  | [], _, c => .ok c
  | none :: _, _, c => .error (c.fail (.AssertFailed "symbol != nullptr"))
  | some sym :: rest, index, c =>
    let opd := c.getSymOpd sym
    FnDeclNode.getArgQuads rest (index + 1)
      (opd.snd.addQuad (Quad.new (.GetArgQuad index (some opd.fst))))

/-- The module-scope `to3AC` methods of the declaration nodes. -/
def DeclNode.to3AC : DeclNode → IRProgram → Except Failure IRProgram
  | .FnDeclNode symbol myFormals myBody, prog =>
    let c := prog.makeProc symbol.name
    match FnDeclNode.formalsTo3AC myFormals c with
    | .error e => .error e
    | .ok c1 =>
      match FnDeclNode.getArgQuads myFormals 1 c1 with
      | .error e => .error e
      | .ok c2 =>
        match StmtNode.to3ACList myBody c2 with
        | .error e => .error e
        | .ok c3 => .ok ((c3.prog.addProc c3.proc).gatherGlobal symbol)
  | .VarDeclNode none, prog => .error (prog.fail (.AssertFailed "sym != nullptr"))
  | .VarDeclNode (some sym), prog => .ok (prog.gatherGlobal sym)
  | .FormalDeclNode _, prog => .error (prog.fail (.InternalError "Formal at a global scope"))

/-- The loop of `ProgramNode::to3AC` over `myGlobals`. -/
def ProgramNode.globalsTo3AC : List DeclNode → IRProgram → Except Failure IRProgram
  | [], prog => .ok prog
  | global :: rest, prog =>
    match global.to3AC prog with
    | .error e => .error e
    | .ok prog1 => ProgramNode.globalsTo3AC rest prog1

/-- `ProgramNode::to3AC`. -/
def ProgramNode.to3AC (myGlobals : List DeclNode) : Except Failure IRProgram :=
  ProgramNode.globalsTo3AC myGlobals IRProgram.create

/-! ## Labels and frames -/

/-- The jump targets an instruction refers to. -/
def Quad.targets (q : Quad) : List Label :=
  match q.kind with
  | .GotoQuad tgt => [tgt]
  | .IfzQuad _ tgt => [tgt]
  | _ => []

/-- All labels attached to the instructions of a sequence, in order. -/
def labelsOf : List Quad → List Label
  | [] => []
  | q :: qs => q.labels ++ labelsOf qs

/-- All labels referred to by the jumps of a sequence, in order. -/
def targetsOf : List Quad → List Label
  | [] => []
  | q :: qs => q.targets ++ targetsOf qs

/-- What flattening an expression may change: it only appends label-free,
jump-free instructions and allocates temporaries. -/
structure ExpFrame (c c' : Ctx) (qs : List Quad) : Prop where
  quads : c'.proc.quads = c.proc.quads ++ qs
  leave : c'.proc.leave = c.proc.leave
  name : c'.proc.name = c.proc.name
  maxLabel : c'.proc.maxLabel = c.proc.maxLabel
  maxTmp : c.proc.maxTmp ≤ c'.proc.maxTmp
  labels : labelsOf qs = []
  targets : targetsOf qs = []
  procs : c'.prog.procs = c.prog.procs
  globals : c'.prog.globals = c.prog.globals

/-- What lowering a statement may change: it only appends instructions,
attaches fresh labels, each once and to a `Nop`, and jumps only to labels it
attaches or to the leave label. -/
structure StmtFrame (c c' : Ctx) (qs : List Quad) : Prop where
  quads : c'.proc.quads = c.proc.quads ++ qs
  leave : c'.proc.leave = c.proc.leave
  name : c'.proc.name = c.proc.name
  procs : c'.prog.procs = c.prog.procs
  globals : c'.prog.globals = c.prog.globals
  maxLabel : c.proc.maxLabel ≤ c'.proc.maxLabel
  maxTmp : c.proc.maxTmp ≤ c'.proc.maxTmp
  labels_lo : ∀ l ∈ labelsOf qs, c.proc.maxLabel ≤ l.id
  labels_hi : ∀ l ∈ labelsOf qs, l.id < c'.proc.maxLabel
  nodup : (labelsOf qs).Nodup
  targets : ∀ l ∈ targetsOf qs, l = c.proc.leave ∨ l ∈ labelsOf qs
  nops : ∀ q ∈ qs, q.labels ≠ [] → q.kind = .NopQuad

/-! ## Scenario programs and example contexts -/

/-- The statement `if (x == 1) { give x; } else { give 0; }`. -/
def Scenario.ifElse (x : SemSymbol) : StmtNode :=
  .IfElseStmtNode (.BinaryExpNode .EqualsNode (.IDNode (some x)) (.IntLitNode 1))
    [.GiveStmtNode (.IDNode (some x))] [.GiveStmtNode (.IntLitNode 0)]

/-- The statement `while (n) { n--; }`. -/
def Scenario.whileLoop (n : SemSymbol) : StmtNode :=
  .WhileStmtNode (.IDNode (some n)) [.PostDecStmtNode (.IDNode (some n))]

/-- The statement `foo(a, b);`. -/
def Scenario.callStmt (foo a b : SemSymbol) : StmtNode :=
  .CallStmtNode foo [.IDNode (some a), .IDNode (some b)]

/-- An integer variable used in examples. -/
def Example.x : SemSymbol := ⟨1, "x", false⟩

/-- A second integer variable used in examples. -/
def Example.y : SemSymbol := ⟨2, "y", false⟩

/-- A function returning a value, used in examples. -/
def Example.foo : SemSymbol := ⟨3, "foo", false⟩

/-- A void function, used in examples. -/
def Example.bar : SemSymbol := ⟨4, "bar", true⟩

/-- The context of a procedure `main` that was just created in an empty module. -/
def Example.fresh : Ctx := IRProgram.create.makeProc "main"

/-! ## Properties stated in the specification's words -/

/-- The emission pattern of a call's argument list, in the spec's words: for
each argument in order, the instructions of flattening it followed by
`SetArg(index, value)`, the index counting up from the given one. -/
inductive ArgsEmit : List ExpNode → Nat → Ctx → Ctx → List Quad → Prop where
  | nil (index : Nat) (c : Ctx) : ArgsEmit [] index c c []
  | cons {arg : ExpNode} {rest : List ExpNode} {index : Nat} {c c1 c' : Ctx}
      {v : Option Opd} {qa qs : List Quad} :
      arg.flatten c = .ok (v, c1) →
      c1.proc.quads = c.proc.quads ++ qa →
      ArgsEmit rest (index + 1) (c1.addQuad (Quad.new (.SetArgQuad index v))) c' qs →
      ArgsEmit (arg :: rest) index c c' (qa ++ [Quad.new (.SetArgQuad index v)] ++ qs)

/-- The instructions `SetArg(index, v1), SetArg(index + 1, v2), ...`. -/
def setArgQuads : Nat → List (Option Opd) → List Quad
  | _, [] => []
  | index, v :: vs => Quad.new (.SetArgQuad index v) :: setArgQuads (index + 1) vs

/-- The operands produced by flattening the arguments of a call, each in the
context in which `CallExpNode::flatten` flattens it. -/
def ExpNode.argOpds : List ExpNode → Nat → Ctx → Except Failure (List (Option Opd))
  | [], _, _ => .ok []
  | arg :: rest, index, c =>
    match arg.flatten c with
    | .error e => .error e
    | .ok (exp, c1) =>
      match ExpNode.argOpds rest (index + 1)
          (c1.addQuad (Quad.new (.SetArgQuad index exp))) with
      | .error e => .error e
      | .ok vs => .ok (exp :: vs)

/-- Literals and identifiers: the expressions whose flattening emits nothing. -/
def ExpNode.isLeaf : ExpNode → Bool
  | .IntLitNode _ => true
  | .StrLitNode _ => true
  | .TrueNode => true
  | .FalseNode => true
  | .IDNode _ => true
  | _ => false

/-- The claim that the `n` instructions right before the `Call` of a call
expression are `SetArg(1, v1), ..., SetArg(n, vn)`: the emitted sequence ends
with these, the `Call` and at most the `GetReturn`. -/
def SetArgsRightBeforeCall (callee : SemSymbol) (args : List ExpNode) (c : Ctx) : Prop :=
  ∀ r c' vs, (ExpNode.CallExpNode callee args).flatten c = .ok (r, c') →
    ExpNode.argOpds args 1 c = .ok vs →
    ∃ pre tail, (tail = [] ∨ ∃ t, tail = [Quad.new (.GetRetQuad t)]) ∧
      c'.proc.quads =
        c.proc.quads ++ (pre ++ setArgQuads 1 vs ++ [Quad.new (.CallQuad callee)] ++ tail)

/-- The label discipline of a procedure's instruction sequence: every label a
jump refers to is the leave label or is attached exactly once, to a `Nop`; no
label is attached twice; the leave label is attached to none of them. -/
def Procedure.LabelsResolved (p : Procedure) : Prop :=
  (∀ l ∈ targetsOf p.quads, l = p.leave ∨
    ((labelsOf p.quads).count l = 1 ∧ ∀ q ∈ p.quads, l ∈ q.labels → q.kind = .NopQuad)) ∧
  (labelsOf p.quads).Nodup ∧
  p.leave ∉ labelsOf p.quads

/-- The name of the procedure a top-level declaration creates, if any. -/
def DeclNode.procName : DeclNode → Option String
  | .FnDeclNode symbol _ _ => some symbol.name
  | _ => none

/-- The symbol a top-level function or variable declaration declares. -/
def DeclNode.declSymbol : DeclNode → Option SemSymbol
  | .FnDeclNode symbol _ _ => some symbol
  | .VarDeclNode symbol => symbol
  | .FormalDeclNode _ => none

/-- The body `while (x) { if (x == 1) { return; } else { x--; } } return x;`. -/
def Example.loopBody : List StmtNode :=
  [.WhileStmtNode (.IDNode (some Example.x))
    [.IfElseStmtNode (.BinaryExpNode .EqualsNode (.IDNode (some Example.x)) (.IntLitNode 1))
      [.ReturnStmtNode none] [.PostDecStmtNode (.IDNode (some Example.x))]],
   .ReturnStmtNode (some (.IDNode (some Example.x)))]

/-- The function `foo(x)` with that body. -/
def Example.loopFn : DeclNode := .FnDeclNode Example.foo [some Example.x] Example.loopBody

/-- A global variable declaration `y`. -/
def Example.globalY : DeclNode := .VarDeclNode (some Example.y)

mutual
/-- Whether a function declaration occurs in a statement, at any depth. -/
def StmtNode.hasFnDecl : StmtNode → Bool
  | .FnDeclNode _ _ _ => true
  | .IfStmtNode _ myBody => StmtNode.hasFnDeclList myBody
  | .IfElseStmtNode _ myBodyTrue myBodyFalse =>
    StmtNode.hasFnDeclList myBodyTrue || StmtNode.hasFnDeclList myBodyFalse
  | .WhileStmtNode _ myBody => StmtNode.hasFnDeclList myBody
  | _ => false
/-- Whether a function declaration occurs in a statement list, at any depth. -/
def StmtNode.hasFnDeclList : List StmtNode → Bool
  | [] => false
  | stmt :: rest => StmtNode.hasFnDecl stmt || StmtNode.hasFnDeclList rest
end

/-- The function `foo(x) { while (x) { bar() { } } }`, with a function
declaration inside the loop body. -/
def Example.nestedFn : DeclNode :=
  .FnDeclNode Example.foo [some Example.x]
    [.WhileStmtNode (.IDNode (some Example.x)) [.FnDeclNode Example.bar [] []]]

/-- The typing of the symbol operand cache: `getSymOpd` hands out `SymOpd *`
values, so every cached operand is the symbol operand of its symbol, of
width 8. -/
def Procedure.CacheWF (p : Procedure) : Prop :=
  ∀ e ∈ p.symOpds, e.2 = Opd.SymOpd e.1 8

/-- What any lowering may do to the caches and registries of its context:
bindings of the symbol operand cache stay, the string pool and the formals
only grow at the end, and the pool stays free of duplicates. -/
structure StateFrame (c c' : Ctx) : Prop where
  cache : ∀ s o, c.proc.symOpds.lookup s = some o → c'.proc.symOpds.lookup s = some o
  cacheWF : c.proc.CacheWF → c'.proc.CacheWF
  strings : ∃ ext, c'.prog.strings = c.prog.strings ++ ext
  stringsNodup : c.prog.strings.Nodup → c'.prog.strings.Nodup
  formals : ∃ ext, c'.proc.formals = c.proc.formals ++ ext

/-- The function `foo() { give "hi"; }`. -/
def Example.hiFoo : DeclNode :=
  .FnDeclNode Example.foo [] [.GiveStmtNode (.StrLitNode "hi")]

/-- The function `bar() { give "hi"; }`. -/
def Example.hiBar : DeclNode :=
  .FnDeclNode Example.bar [] [.GiveStmtNode (.StrLitNode "hi")]

/-- The instructions `GetArg(index, opd(f1)), GetArg(index + 1, opd(f2)), ...`
for formals `f1, f2, ...`, each with its symbol operand. -/
def getArgQuadsOf : Nat → List SemSymbol → List Quad
  | _, [] => []
  | index, f :: fs =>
    Quad.new (.GetArgQuad index (some (Opd.SymOpd f 8))) :: getArgQuadsOf (index + 1) fs

/-- The function `foo(x, y) { give x; }`. -/
def Example.twoFormals : DeclNode :=
  .FnDeclNode Example.foo [some Example.x, some Example.y]
    [.GiveStmtNode (.IDNode (some Example.x))]

/-- The byte-width an operand is annotated with. -/
def Opd.width : Opd → Nat
  | .SymOpd _ w => w
  | .LitOpd _ w => w
  | .AuxOpd _ w => w
  | .StrOpd _ w => w

/-- The number of the temporary in an operand slot, if it holds one. -/
def Opd.tmps : Option Opd → List Nat
  | some (.AuxOpd id _) => [id]
  | _ => []

/-- The temporaries an instruction reads. -/
def Quad.srcTmps (q : Quad) : List Nat :=
  match q.kind with
  | .AssignQuad _ src => Opd.tmps src
  | .UnaryOpQuad _ _ src => Opd.tmps src
  | .BinOpQuad _ _ src1 src2 => Opd.tmps src1 ++ Opd.tmps src2
  | .IfzQuad cnd _ => Opd.tmps cnd
  | .SetArgQuad _ opd => Opd.tmps opd
  | .SetRetQuad opd => Opd.tmps opd
  | .WriteQuad src => Opd.tmps src
  | _ => []

/-- The temporaries an instruction writes. -/
def Quad.dstTmps (q : Quad) : List Nat :=
  match q.kind with
  | .AssignQuad dst _ => Opd.tmps dst
  | .UnaryOpQuad dst _ _ => Opd.tmps dst
  | .BinOpQuad dst _ _ _ => Opd.tmps dst
  | .GetArgQuad _ opd => Opd.tmps opd
  | .GetRetQuad opd => Opd.tmps opd
  | .ReadQuad dst => Opd.tmps dst
  | _ => []

/-- All operand slots of an instruction. -/
def Quad.opds (q : Quad) : List (Option Opd) :=
  match q.kind with
  | .AssignQuad dst src => [dst, src]
  | .UnaryOpQuad dst _ src => [dst, src]
  | .BinOpQuad dst _ src1 src2 => [dst, src1, src2]
  | .IfzQuad cnd _ => [cnd]
  | .SetArgQuad _ opd => [opd]
  | .GetArgQuad _ opd => [opd]
  | .SetRetQuad opd => [opd]
  | .GetRetQuad opd => [opd]
  | .WriteQuad src => [src]
  | .ReadQuad dst => [dst]
  | _ => []

/-- The temporaries read by the instructions of a sequence. -/
def srcTmpsOf : List Quad → List Nat
  | [] => []
  | q :: qs => q.srcTmps ++ srcTmpsOf qs

/-- The temporaries written by the instructions of a sequence. -/
def dstTmpsOf : List Quad → List Nat
  | [] => []
  | q :: qs => q.dstTmps ++ dstTmpsOf qs

/-- Every operand of every instruction of the sequence has width 8. -/
def WidthsOK (qs : List Quad) : Prop :=
  ∀ q ∈ qs, ∀ x, some x ∈ q.opds → x.width = 8

/-- Every temporary an instruction of the sequence reads is among `avail` or
was written by an earlier instruction of the sequence. -/
def Scoped : List Nat → List Quad → Prop
  | _, [] => True
  | avail, q :: qs => (∀ t ∈ q.srcTmps, t ∈ avail) ∧ Scoped (avail ++ q.dstTmps) qs

/-- What a lowering step emits, as far as operands go: operands of width 8,
temporaries read only after they were written inside the same emission, and
temporaries written once each, numbered from `lo` up to below `hi`. -/
structure OpdFrame (lo hi : Nat) (qs : List Quad) : Prop where
  le : lo ≤ hi
  widths : WidthsOK qs
  inScope : Scoped [] qs
  dst_lo : ∀ t ∈ dstTmpsOf qs, lo ≤ t
  dst_hi : ∀ t ∈ dstTmpsOf qs, t < hi
  nodup : (dstTmpsOf qs).Nodup

/-- Temporaries are defined once and before use: every temporary an
instruction of the sequence reads is written by an instruction strictly
earlier in the sequence, and is written exactly once in the sequence. -/
def TmpsDefinedBeforeUse (qs : List Quad) : Prop :=
  ∀ pre q post, qs = pre ++ q :: post →
    ∀ t ∈ q.srcTmps, t ∈ dstTmpsOf pre ∧ (dstTmpsOf qs).count t = 1

mutual
/-- The temporaries whose defining instruction a statement retracts when it is
lowered in the given context: the temporaries written by the instruction that
`proc->popQuad()` removes in a call statement, for the call statements at any
depth of the statement.  The parts of the statement are visited in the
contexts in which `StmtNode.to3AC` lowers them. -/
def StmtNode.retracted : StmtNode → Ctx → List Nat
  | .CallStmtNode myCallee myArgs, c =>
    match (ExpNode.CallExpNode myCallee myArgs).flatten c with
    | .ok (some _, c1) =>
      match c1.proc.quads.getLast? with
      | some q => q.dstTmps
      | none => []
    | _ => []
  | .IfStmtNode myCond myBody, c =>
    match myCond.flatten c with
    | .error _ => []
    | .ok (exp, c1) =>
      let tgt := c1.makeLabel
      let c2 := tgt.snd.addQuad (Quad.new (.IfzQuad exp tgt.fst))
      StmtNode.retractedList myBody c2
  | .IfElseStmtNode myCond myBodyTrue myBodyFalse, c =>
    match myCond.flatten c with
    | .error _ => []
    | .ok (exp, c1) =>
      let elseStmt := c1.makeLabel
      let tgt := elseStmt.snd.makeLabel
      let c2 := tgt.snd.addQuad (Quad.new (.IfzQuad exp elseStmt.fst))
      StmtNode.retractedList myBodyTrue c2 ++
        match StmtNode.to3ACList myBodyTrue c2 with
        | .error _ => []
        | .ok c3 =>
          let c4 := c3.addQuad (Quad.new (.GotoQuad tgt.fst))
          let c5 := c4.addQuad ((Quad.new .NopQuad).addLabel elseStmt.fst)
          StmtNode.retractedList myBodyFalse c5
  | .WhileStmtNode myCond myBody, c =>
    let head := c.makeLabel
    let endLabel := head.snd.makeLabel
    let c1 := endLabel.snd.addQuad ((Quad.new .NopQuad).addLabel head.fst)
    match myCond.flatten c1 with
    | .error _ => []
    | .ok (exp, c2) =>
      let c3 := c2.addQuad (Quad.new (.IfzQuad exp endLabel.fst))
      StmtNode.retractedList myBody c3
  | .AssignStmtNode _ _, _ => []
  | .PostIncStmtNode _, _ => []
  | .PostDecStmtNode _, _ => []
  | .GiveStmtNode _, _ => []
  | .TakeStmtNode _, _ => []
  | .ReturnStmtNode _, _ => []
  | .ExitStmtNode, _ => []
  | .VarDeclNode _, _ => []
  | .FormalDeclNode _, _ => []
  | .FnDeclNode _ _ _, _ => []
/-- The temporaries retracted by the statements of a list, each statement
visited in the context the loop `for (auto stmt : *body) stmt->to3AC(proc)`
lowers it in. -/
def StmtNode.retractedList : List StmtNode → Ctx → List Nat
  | [], _ => []
  | stmt :: rest, c =>
    StmtNode.retracted stmt c ++
      match StmtNode.to3AC stmt c with
      | .error _ => []
      | .ok c1 => StmtNode.retractedList rest c1
end

/-- Temporary `n` was allocated between the counter values `lo` and `hi` and,
unless the sequence `pre` already wrote it, the sequence `post` does not
write it. -/
def Dropped (lo hi : Nat) (pre post : List Quad) (n : Nat) : Prop :=
  lo ≤ n ∧ n < hi ∧ (n ∉ dstTmpsOf pre → n ∉ dstTmpsOf post)

/-- The statements `while (x) { if (y) { foo(x, y); } } give x + y;`: the call
statement sits two levels deep. -/
def Example.nestedCall : List StmtNode :=
  [.WhileStmtNode (.IDNode (some Example.x))
     [.IfStmtNode (.IDNode (some Example.y))
        [Scenario.callStmt Example.foo Example.x Example.y]],
   .GiveStmtNode (.BinaryExpNode .PlusNode (.IDNode (some Example.x))
     (.IDNode (some Example.y)))]

/-! ## Frame lemmas -/

@[simp] theorem labelsOf_nil : labelsOf [] = [] := rfl

@[simp] theorem labelsOf_cons (q : Quad) (qs : List Quad) :
    labelsOf (q :: qs) = q.labels ++ labelsOf qs := rfl

@[simp] theorem targetsOf_nil : targetsOf [] = [] := rfl

@[simp] theorem targetsOf_cons (q : Quad) (qs : List Quad) :
    targetsOf (q :: qs) = q.targets ++ targetsOf qs := rfl

@[simp] theorem Quad.new_labels (k : QuadKind) : (Quad.new k).labels = [] := rfl

@[simp] theorem Quad.new_kind (k : QuadKind) : (Quad.new k).kind = k := rfl

@[simp] theorem Quad.addLabel_labels (q : Quad) (l : Label) :
    (q.addLabel l).labels = q.labels ++ [l] := rfl

@[simp] theorem Quad.addLabel_kind (q : Quad) (l : Label) : (q.addLabel l).kind = q.kind := rfl

@[simp] theorem Quad.addLabel_targets (q : Quad) (l : Label) :
    (q.addLabel l).targets = q.targets := rfl

@[simp] theorem Quad.targets_goto (t : Label) : (Quad.new (.GotoQuad t)).targets = [t] := rfl

@[simp] theorem Quad.targets_ifz (o : Option Opd) (t : Label) :
    (Quad.new (.IfzQuad o t)).targets = [t] := rfl

@[simp] theorem Quad.targets_nop : (Quad.new .NopQuad).targets = [] := rfl

@[simp] theorem labelsOf_append (xs ys : List Quad) : labelsOf (xs ++ ys) = labelsOf xs ++ labelsOf ys := by
  induction xs with
  | nil => rfl
  | cons q qs ih => simp [labelsOf, ih]

@[simp] theorem targetsOf_append (xs ys : List Quad) :
    targetsOf (xs ++ ys) = targetsOf xs ++ targetsOf ys := by
  induction xs with
  | nil => rfl
  | cons q qs ih => simp [targetsOf, ih]

/-! ### Projections of the context operations -/

@[simp] theorem Ctx.addQuad_quads (c : Ctx) (q : Quad) :
    (c.addQuad q).proc.quads = c.proc.quads ++ [q] := rfl
@[simp] theorem Ctx.addQuad_leave (c : Ctx) (q : Quad) :
    (c.addQuad q).proc.leave = c.proc.leave := rfl
@[simp] theorem Ctx.addQuad_name (c : Ctx) (q : Quad) :
    (c.addQuad q).proc.name = c.proc.name := rfl
@[simp] theorem Ctx.addQuad_maxLabel (c : Ctx) (q : Quad) :
    (c.addQuad q).proc.maxLabel = c.proc.maxLabel := rfl
@[simp] theorem Ctx.addQuad_maxTmp (c : Ctx) (q : Quad) :
    (c.addQuad q).proc.maxTmp = c.proc.maxTmp := rfl
@[simp] theorem Ctx.addQuad_prog (c : Ctx) (q : Quad) : (c.addQuad q).prog = c.prog := rfl
@[simp] theorem Ctx.makeLabel_fst (c : Ctx) : c.makeLabel.fst = ⟨c.proc.maxLabel⟩ := rfl
@[simp] theorem Ctx.makeLabel_quads (c : Ctx) :
    c.makeLabel.snd.proc.quads = c.proc.quads := rfl
@[simp] theorem Ctx.makeLabel_leave (c : Ctx) :
    c.makeLabel.snd.proc.leave = c.proc.leave := rfl
@[simp] theorem Ctx.makeLabel_name (c : Ctx) : c.makeLabel.snd.proc.name = c.proc.name := rfl
@[simp] theorem Ctx.makeLabel_maxLabel (c : Ctx) :
    c.makeLabel.snd.proc.maxLabel = c.proc.maxLabel + 1 := rfl
@[simp] theorem Ctx.makeLabel_maxTmp (c : Ctx) :
    c.makeLabel.snd.proc.maxTmp = c.proc.maxTmp := rfl
@[simp] theorem Ctx.makeLabel_prog (c : Ctx) : c.makeLabel.snd.prog = c.prog := rfl
@[simp] theorem Ctx.makeTmp_fst (c : Ctx) (w : Nat) :
    (c.makeTmp w).fst = Opd.AuxOpd c.proc.maxTmp w := rfl
@[simp] theorem Ctx.makeTmp_quads (c : Ctx) (w : Nat) :
    (c.makeTmp w).snd.proc.quads = c.proc.quads := rfl
@[simp] theorem Ctx.makeTmp_leave (c : Ctx) (w : Nat) :
    (c.makeTmp w).snd.proc.leave = c.proc.leave := rfl
@[simp] theorem Ctx.makeTmp_name (c : Ctx) (w : Nat) :
    (c.makeTmp w).snd.proc.name = c.proc.name := rfl
@[simp] theorem Ctx.makeTmp_maxLabel (c : Ctx) (w : Nat) :
    (c.makeTmp w).snd.proc.maxLabel = c.proc.maxLabel := rfl
@[simp] theorem Ctx.makeTmp_maxTmp (c : Ctx) (w : Nat) :
    (c.makeTmp w).snd.proc.maxTmp = c.proc.maxTmp + 1 := rfl
@[simp] theorem Ctx.makeTmp_prog (c : Ctx) (w : Nat) : (c.makeTmp w).snd.prog = c.prog := rfl

theorem ExpFrame.nil (c : Ctx) : ExpFrame c c [] :=
  ⟨by simp, rfl, rfl, rfl, le_refl _, rfl, rfl, rfl, rfl⟩

theorem ExpFrame.append {a b c : Ctx} {q1 q2 : List Quad}
    (h1 : ExpFrame a b q1) (h2 : ExpFrame b c q2) : ExpFrame a c (q1 ++ q2) where
  quads := by rw [h2.quads, h1.quads, List.append_assoc]
  leave := h2.leave.trans h1.leave
  name := h2.name.trans h1.name
  maxLabel := h2.maxLabel.trans h1.maxLabel
  maxTmp := le_trans h1.maxTmp h2.maxTmp
  labels := by rw [labelsOf_append, h1.labels, h2.labels]; rfl
  targets := by rw [targetsOf_append, h1.targets, h2.targets]; rfl
  procs := h2.procs.trans h1.procs
  globals := h2.globals.trans h1.globals

/-- Appending one label-free, jump-free instruction. -/
theorem ExpFrame.addQuad (c : Ctx) (k : QuadKind) (hk : (Quad.new k).targets = []) :
    ExpFrame c (c.addQuad (Quad.new k)) [Quad.new k] where
  quads := rfl
  leave := rfl
  name := rfl
  maxLabel := rfl
  maxTmp := le_refl _
  labels := rfl
  targets := by simp [targetsOf, hk]
  procs := rfl
  globals := rfl

/-- Allocating a temporary and appending one label-free, jump-free
instruction that may mention it. -/
theorem ExpFrame.tmpQuad (c : Ctx) (k : QuadKind) (hk : (Quad.new k).targets = []) :
    ExpFrame c ((c.makeTmp 8).snd.addQuad (Quad.new k)) [Quad.new k] where
  quads := rfl
  leave := rfl
  name := rfl
  maxLabel := rfl
  maxTmp := Nat.le_succ _
  labels := rfl
  targets := by simp [targetsOf, hk]
  procs := rfl
  globals := rfl

mutual
theorem ExpNode.flatten_frame : ∀ (e : ExpNode) (c : Ctx) (r : Option Opd) (c' : Ctx),
    e.flatten c = .ok (r, c') → ∃ qs, ExpFrame c c' qs
  | .IntLitNode _, c, r, c', h => by
    simp only [ExpNode.flatten, Except.ok.injEq, Prod.mk.injEq] at h
    obtain ⟨-, rfl⟩ := h
    exact ⟨[], ExpFrame.nil _⟩
  | .StrLitNode _, c, r, c', h => by
    simp only [ExpNode.flatten, Except.ok.injEq, Prod.mk.injEq] at h
    obtain ⟨-, rfl⟩ := h
    exact ⟨[], ⟨by simp [Ctx.makeString], rfl, rfl, rfl, le_refl _, rfl, rfl, by
      simp only [Ctx.makeString, IRProgram.makeString]; split <;> rfl, by
      simp only [Ctx.makeString, IRProgram.makeString]; split <;> rfl⟩⟩
  | .TrueNode, c, r, c', h => by
    simp only [ExpNode.flatten, Except.ok.injEq, Prod.mk.injEq] at h
    obtain ⟨-, rfl⟩ := h
    exact ⟨[], ExpFrame.nil _⟩
  | .FalseNode, c, r, c', h => by
    simp only [ExpNode.flatten, Except.ok.injEq, Prod.mk.injEq] at h
    obtain ⟨-, rfl⟩ := h
    exact ⟨[], ExpFrame.nil _⟩
  | .IDNode none, c, r, c', h => by
    simp [ExpNode.flatten] at h
  | .IDNode (some s), c, r, c', h => by
    simp only [ExpNode.flatten, Except.ok.injEq, Prod.mk.injEq] at h
    obtain ⟨-, rfl⟩ := h
    refine ⟨[], ⟨?_, ?_, ?_, ?_, ?_, rfl, rfl, rfl, rfl⟩⟩ <;>
      (simp only [Ctx.getSymOpd, Procedure.getSymOpd]; split <;> simp)
  | .CallExpNode s args, c, r, c', h => by
    simp only [ExpNode.flatten] at h
    split at h
    · exact absurd h (by simp)
    · rename_i c1 h1
      obtain ⟨qa, fa⟩ := ExpNode.flattenArgs_frame args 1 c c1 h1
      split at h
      · simp only [Except.ok.injEq, Prod.mk.injEq] at h
        obtain ⟨-, rfl⟩ := h
        exact ⟨_, fa.append (ExpFrame.addQuad _ _ (by rfl))⟩
      · simp only [Except.ok.injEq, Prod.mk.injEq] at h
        obtain ⟨-, rfl⟩ := h
        exact ⟨_, (fa.append (ExpFrame.addQuad _ _ (by rfl))).append (ExpFrame.tmpQuad _ _ (by rfl))⟩
  | .UnaryExpNode k e, c, r, c', h => by
    simp only [ExpNode.flatten] at h
    split at h
    · exact absurd h (by simp)
    · rename_i src c1 h1
      obtain ⟨q1, f1⟩ := ExpNode.flatten_frame e c src c1 h1
      simp only [Except.ok.injEq, Prod.mk.injEq] at h
      obtain ⟨-, rfl⟩ := h
      exact ⟨_, f1.append (ExpFrame.tmpQuad _ _ (by rfl))⟩
  | .BinaryExpNode k e1 e2, c, r, c', h => by
    simp only [ExpNode.flatten] at h
    split at h
    · exact absurd h (by simp)
    · rename_i src1 c1 h1
      obtain ⟨q1, f1⟩ := ExpNode.flatten_frame e1 c src1 c1 h1
      split at h
      · exact absurd h (by simp)
      · rename_i src2 c2 h2
        obtain ⟨q2, f2⟩ := ExpNode.flatten_frame e2 c1 src2 c2 h2
        simp only [Except.ok.injEq, Prod.mk.injEq] at h
        obtain ⟨-, rfl⟩ := h
        exact ⟨_, (f1.append f2).append (ExpFrame.tmpQuad _ _ (by rfl))⟩
theorem ExpNode.flattenArgs_frame : ∀ (args : List ExpNode) (index : Nat) (c c' : Ctx),
    ExpNode.flattenArgs args index c = .ok c' → ∃ qs, ExpFrame c c' qs
  | [], index, c, c', h => by
    simp only [ExpNode.flattenArgs, Except.ok.injEq] at h
    subst h
    exact ⟨[], ExpFrame.nil _⟩
  | a :: rest, index, c, c', h => by
    simp only [ExpNode.flattenArgs] at h
    split at h
    · exact absurd h (by simp)
    · rename_i exp c1 h1
      obtain ⟨q1, f1⟩ := ExpNode.flatten_frame a c exp c1 h1
      obtain ⟨q2, f2⟩ := ExpNode.flattenArgs_frame rest (index + 1) _ c' h
      exact ⟨_, (f1.append (ExpFrame.addQuad _ _ (by rfl))).append f2⟩
end

theorem labels_nil_of_labelsOf {qs : List Quad} (h : labelsOf qs = []) :
    ∀ q ∈ qs, q.labels = [] := by
  induction qs with
  | nil => simp
  | cons q qs ih =>
    simp only [labelsOf_cons, List.append_eq_nil] at h
    intro x hx
    rcases List.mem_cons.mp hx with rfl | hx
    · exact h.1
    · exact ih h.2 x hx

theorem ExpFrame.toStmt {c c' : Ctx} {qs : List Quad} (h : ExpFrame c c' qs) :
    StmtFrame c c' qs where
  quads := h.quads
  leave := h.leave
  name := h.name
  procs := h.procs
  globals := h.globals
  maxLabel := le_of_eq h.maxLabel.symm
  maxTmp := h.maxTmp
  labels_lo := by simp [h.labels]
  labels_hi := by simp [h.labels]
  nodup := by simp [h.labels]
  targets := by simp [h.targets]
  nops := fun q hq hne => absurd (labels_nil_of_labelsOf h.labels q hq) hne

theorem StmtFrame.refl (c : Ctx) : StmtFrame c c [] := (ExpFrame.nil c).toStmt

theorem StmtFrame.trans {a b c : Ctx} {q1 q2 : List Quad}
    (h1 : StmtFrame a b q1) (h2 : StmtFrame b c q2) : StmtFrame a c (q1 ++ q2) where
  quads := by rw [h2.quads, h1.quads, List.append_assoc]
  leave := h2.leave.trans h1.leave
  name := h2.name.trans h1.name
  procs := h2.procs.trans h1.procs
  globals := h2.globals.trans h1.globals
  maxLabel := le_trans h1.maxLabel h2.maxLabel
  maxTmp := le_trans h1.maxTmp h2.maxTmp
  labels_lo := by
    intro l hl
    rw [labelsOf_append, List.mem_append] at hl
    rcases hl with hl | hl
    · exact h1.labels_lo l hl
    · exact le_trans h1.maxLabel (h2.labels_lo l hl)
  labels_hi := by
    intro l hl
    rw [labelsOf_append, List.mem_append] at hl
    rcases hl with hl | hl
    · exact lt_of_lt_of_le (h1.labels_hi l hl) h2.maxLabel
    · exact h2.labels_hi l hl
  nodup := by
    rw [labelsOf_append, List.nodup_append]
    refine ⟨h1.nodup, h2.nodup, ?_⟩
    intro l hl1 hl2
    have := h1.labels_hi l hl1
    have := h2.labels_lo l hl2
    omega
  targets := by
    intro l hl
    rw [targetsOf_append, List.mem_append] at hl
    rw [labelsOf_append, List.mem_append]
    rcases hl with hl | hl
    · rcases h1.targets l hl with h | h
      · exact Or.inl h
      · exact Or.inr (Or.inl h)
    · rcases h2.targets l hl with h | h
      · exact Or.inl (h.trans h1.leave)
      · exact Or.inr (Or.inr h)
  nops := by
    intro q hq
    rcases List.mem_append.mp hq with hq | hq
    · exact h1.nops q hq
    · exact h2.nops q hq

/-- The shape of an if-else lowering, given the frames of its parts. -/
theorem StmtFrame.ifElse {c c1 c3 c6 : Ctx} {qc qt qf : List Quad} {exp : Option Opd}
    (f1 : ExpFrame c c1 qc)
    (ft : StmtFrame
      (c1.makeLabel.snd.makeLabel.snd.addQuad (Quad.new (.IfzQuad exp c1.makeLabel.fst))) c3 qt)
    (ff : StmtFrame
      ((c3.addQuad (Quad.new (.GotoQuad c1.makeLabel.snd.makeLabel.fst))).addQuad
        ((Quad.new .NopQuad).addLabel c1.makeLabel.fst)) c6 qf) :
    StmtFrame c (c6.addQuad ((Quad.new .NopQuad).addLabel c1.makeLabel.snd.makeLabel.fst))
      (qc ++ [Quad.new (.IfzQuad exp c1.makeLabel.fst)] ++ qt ++
        [Quad.new (.GotoQuad c1.makeLabel.snd.makeLabel.fst),
         (Quad.new .NopQuad).addLabel c1.makeLabel.fst] ++ qf ++
        [(Quad.new .NopQuad).addLabel c1.makeLabel.snd.makeLabel.fst]) := by
  have q1 := f1.quads
  have qt' := ft.quads
  have qf' := ff.quads
  have m1 := f1.maxLabel
  have mt := ft.maxLabel
  have mf := ff.maxLabel
  have tlo := ft.labels_lo
  have thi := ft.labels_hi
  have flo := ff.labels_lo
  have fhi := ff.labels_hi
  have tt := ft.targets
  have tf := ff.targets
  have lt := ft.leave
  have lf := ff.leave
  have t1 := f1.maxTmp
  have t2 := ft.maxTmp
  have t3 := ff.maxTmp
  simp only [Ctx.addQuad_quads, Ctx.addQuad_leave, Ctx.addQuad_maxLabel, Ctx.addQuad_maxTmp,
    Ctx.makeLabel_quads, Ctx.makeLabel_leave, Ctx.makeLabel_maxLabel, Ctx.makeLabel_maxTmp,
    Ctx.makeLabel_fst] at q1 qt' qf' m1 mt mf tlo thi flo fhi tt tf lt lf t1 t2 t3
  have hlab : labelsOf (qc ++ [Quad.new (.IfzQuad exp c1.makeLabel.fst)] ++ qt ++
        [Quad.new (.GotoQuad c1.makeLabel.snd.makeLabel.fst),
         (Quad.new .NopQuad).addLabel c1.makeLabel.fst] ++ qf ++
        [(Quad.new .NopQuad).addLabel c1.makeLabel.snd.makeLabel.fst])
      = labelsOf qt ++ [⟨c1.proc.maxLabel⟩] ++ labelsOf qf ++ [⟨c1.proc.maxLabel + 1⟩] := by
    simp [f1.labels]
  have htgt : targetsOf (qc ++ [Quad.new (.IfzQuad exp c1.makeLabel.fst)] ++ qt ++
        [Quad.new (.GotoQuad c1.makeLabel.snd.makeLabel.fst),
         (Quad.new .NopQuad).addLabel c1.makeLabel.fst] ++ qf ++
        [(Quad.new .NopQuad).addLabel c1.makeLabel.snd.makeLabel.fst])
      = [⟨c1.proc.maxLabel⟩] ++ targetsOf qt ++ [⟨c1.proc.maxLabel + 1⟩] ++ targetsOf qf := by
    simp [f1.targets]
  have hmem : ∀ l, l ∈ labelsOf qt ++ [⟨c1.proc.maxLabel⟩] ++ labelsOf qf ++
      [(⟨c1.proc.maxLabel + 1⟩ : Label)] ↔
      (l ∈ labelsOf qt ∨ l = ⟨c1.proc.maxLabel⟩ ∨ l ∈ labelsOf qf ∨
        l = ⟨c1.proc.maxLabel + 1⟩) := by
    intro l; simp [or_assoc]
  constructor
  · simp [qf', qt', q1]
  · simp [lf, lt, f1.leave]
  · simpa using (ff.name.trans ft.name).trans f1.name
  · simpa using (ff.procs.trans ft.procs).trans f1.procs
  · simpa using (ff.globals.trans ft.globals).trans f1.globals
  · simp only [Ctx.addQuad_maxLabel]; omega
  · simp only [Ctx.addQuad_maxTmp]; omega
  · intro l hl
    rw [hlab, hmem] at hl
    rcases hl with hl | hl | hl | hl
    · have := tlo l hl; omega
    · subst hl; simp only; omega
    · have := flo l hl; omega
    · subst hl; simp only; omega
  · intro l hl
    rw [hlab, hmem] at hl
    simp only [Ctx.addQuad_maxLabel]
    rcases hl with hl | hl | hl | hl
    · have := thi l hl; omega
    · subst hl; simp only; omega
    · have := fhi l hl; omega
    · subst hl; simp only; omega
  · rw [hlab, List.nodup_append]
    refine ⟨?_, by simp, ?_⟩
    · rw [List.nodup_append]
      refine ⟨?_, ff.nodup, ?_⟩
      · rw [List.nodup_append]
        refine ⟨ft.nodup, by simp, ?_⟩
        intro l h1 h2
        have := tlo l h1
        simp only [List.mem_singleton] at h2
        subst h2
        simp only at this
        omega
      · intro l h1 h2
        have := flo l h2
        rcases List.mem_append.mp h1 with h1 | h1
        · have := thi l h1; omega
        · simp only [List.mem_singleton] at h1
          subst h1
          simp only at this
          omega
    · intro l h1 h2
      simp only [List.mem_singleton] at h2
      subst h2
      simp only [List.mem_append, List.mem_singleton, Label.mk.injEq] at h1
      rcases h1 with (h1 | h1) | h1
      · have := tlo _ h1; simp only at this; omega
      · omega
      · have := flo _ h1; simp only at this; omega
  · intro l hl
    rw [htgt] at hl
    rw [hlab, hmem]
    simp only [List.mem_append, List.mem_singleton] at hl
    rcases hl with ((hl | hl) | hl) | hl
    · exact Or.inr (Or.inr (Or.inl hl))
    · rcases tt l hl with h | h
      · exact Or.inl (h.trans f1.leave)
      · exact Or.inr (Or.inl h)
    · exact Or.inr (Or.inr (Or.inr (Or.inr hl)))
    · rcases tf l hl with h | h
      · exact Or.inl ((h.trans lt).trans f1.leave)
      · exact Or.inr (Or.inr (Or.inr (Or.inl h)))
  · intro q hq hne
    simp only [List.mem_append, List.mem_singleton, List.mem_cons, List.mem_nil_iff,
      or_false] at hq
    rcases hq with ((((hq | hq) | hq) | hq) | hq) | hq
    · exact absurd (labels_nil_of_labelsOf f1.labels q hq) hne
    · subst hq; simp at hne
    · exact ft.nops q hq hne
    · rcases hq with hq | hq
      · subst hq; simp at hne
      · subst hq; rfl
    · exact ff.nops q hq hne
    · subst hq; rfl

/-- The shape of an if lowering without else, given the frames of its parts. -/
theorem StmtFrame.ifThen {c c1 c3 : Ctx} {qc qb : List Quad} {exp : Option Opd}
    (f1 : ExpFrame c c1 qc)
    (fb : StmtFrame (c1.makeLabel.snd.addQuad (Quad.new (.IfzQuad exp c1.makeLabel.fst))) c3 qb) :
    StmtFrame c (c3.addQuad ((Quad.new .NopQuad).addLabel c1.makeLabel.fst))
      (qc ++ [Quad.new (.IfzQuad exp c1.makeLabel.fst)] ++ qb ++
        [(Quad.new .NopQuad).addLabel c1.makeLabel.fst]) := by
  have q1 := f1.quads
  have qb' := fb.quads
  have m1 := f1.maxLabel
  have mb := fb.maxLabel
  have blo := fb.labels_lo
  have bhi := fb.labels_hi
  have tb := fb.targets
  have lb := fb.leave
  have t1 := f1.maxTmp
  have t2 := fb.maxTmp
  simp only [Ctx.addQuad_quads, Ctx.addQuad_leave, Ctx.addQuad_maxLabel, Ctx.addQuad_maxTmp,
    Ctx.makeLabel_quads, Ctx.makeLabel_leave, Ctx.makeLabel_maxLabel, Ctx.makeLabel_maxTmp,
    Ctx.makeLabel_fst] at q1 qb' m1 mb blo bhi tb lb t1 t2
  have hlab : labelsOf (qc ++ [Quad.new (.IfzQuad exp c1.makeLabel.fst)] ++ qb ++
        [(Quad.new .NopQuad).addLabel c1.makeLabel.fst])
      = labelsOf qb ++ [⟨c1.proc.maxLabel⟩] := by
    simp [f1.labels]
  have htgt : targetsOf (qc ++ [Quad.new (.IfzQuad exp c1.makeLabel.fst)] ++ qb ++
        [(Quad.new .NopQuad).addLabel c1.makeLabel.fst])
      = [⟨c1.proc.maxLabel⟩] ++ targetsOf qb := by
    simp [f1.targets]
  constructor
  · simp [qb', q1]
  · simp [lb, f1.leave]
  · simpa using fb.name.trans f1.name
  · simpa using fb.procs.trans f1.procs
  · simpa using fb.globals.trans f1.globals
  · simp only [Ctx.addQuad_maxLabel]; omega
  · simp only [Ctx.addQuad_maxTmp]; omega
  · intro l hl
    rw [hlab, List.mem_append, List.mem_singleton] at hl
    rcases hl with hl | hl
    · have := blo l hl; omega
    · subst hl; simp only; omega
  · intro l hl
    rw [hlab, List.mem_append, List.mem_singleton] at hl
    simp only [Ctx.addQuad_maxLabel]
    rcases hl with hl | hl
    · have := bhi l hl; omega
    · subst hl; simp only; omega
  · rw [hlab, List.nodup_append]
    refine ⟨fb.nodup, by simp, ?_⟩
    intro l h1 h2
    have := blo l h1
    simp only [List.mem_singleton] at h2
    subst h2
    simp only at this
    omega
  · intro l hl
    rw [htgt, List.mem_append, List.mem_singleton] at hl
    rw [hlab, List.mem_append, List.mem_singleton]
    rcases hl with hl | hl
    · exact Or.inr (Or.inr hl)
    · rcases tb l hl with h | h
      · exact Or.inl (h.trans f1.leave)
      · exact Or.inr (Or.inl h)
  · intro q hq hne
    simp only [List.mem_append, List.mem_singleton] at hq
    rcases hq with ((hq | hq) | hq) | hq
    · exact absurd (labels_nil_of_labelsOf f1.labels q hq) hne
    · subst hq; simp at hne
    · exact fb.nops q hq hne
    · subst hq; rfl

/-- The shape of a while lowering, given the frames of its parts. -/
theorem StmtFrame.whileLoop {c c2 c4 : Ctx} {qc qb : List Quad} {exp : Option Opd}
    (f1 : ExpFrame
      (c.makeLabel.snd.makeLabel.snd.addQuad ((Quad.new .NopQuad).addLabel c.makeLabel.fst))
      c2 qc)
    (fb : StmtFrame (c2.addQuad (Quad.new (.IfzQuad exp c.makeLabel.snd.makeLabel.fst))) c4 qb) :
    StmtFrame c
      ((c4.addQuad (Quad.new (.GotoQuad c.makeLabel.fst))).addQuad
        ((Quad.new .NopQuad).addLabel c.makeLabel.snd.makeLabel.fst))
      ([(Quad.new .NopQuad).addLabel c.makeLabel.fst] ++ qc ++
        [Quad.new (.IfzQuad exp c.makeLabel.snd.makeLabel.fst)] ++ qb ++
        [Quad.new (.GotoQuad c.makeLabel.fst),
         (Quad.new .NopQuad).addLabel c.makeLabel.snd.makeLabel.fst]) := by
  have q1 := f1.quads
  have qb' := fb.quads
  have m1 := f1.maxLabel
  have mb := fb.maxLabel
  have blo := fb.labels_lo
  have bhi := fb.labels_hi
  have tb := fb.targets
  have lb := fb.leave
  have l1 := f1.leave
  have t1 := f1.maxTmp
  have t2 := fb.maxTmp
  simp only [Ctx.addQuad_quads, Ctx.addQuad_leave, Ctx.addQuad_maxLabel, Ctx.addQuad_maxTmp,
    Ctx.makeLabel_quads, Ctx.makeLabel_leave, Ctx.makeLabel_maxLabel, Ctx.makeLabel_maxTmp,
    Ctx.makeLabel_fst] at q1 qb' m1 mb blo bhi tb lb l1 t1 t2
  have hlab : labelsOf ([(Quad.new .NopQuad).addLabel c.makeLabel.fst] ++ qc ++
        [Quad.new (.IfzQuad exp c.makeLabel.snd.makeLabel.fst)] ++ qb ++
        [Quad.new (.GotoQuad c.makeLabel.fst),
         (Quad.new .NopQuad).addLabel c.makeLabel.snd.makeLabel.fst])
      = [⟨c.proc.maxLabel⟩] ++ labelsOf qb ++ [⟨c.proc.maxLabel + 1⟩] := by
    simp [f1.labels]
  have htgt : targetsOf ([(Quad.new .NopQuad).addLabel c.makeLabel.fst] ++ qc ++
        [Quad.new (.IfzQuad exp c.makeLabel.snd.makeLabel.fst)] ++ qb ++
        [Quad.new (.GotoQuad c.makeLabel.fst),
         (Quad.new .NopQuad).addLabel c.makeLabel.snd.makeLabel.fst])
      = [⟨c.proc.maxLabel + 1⟩] ++ targetsOf qb ++ [⟨c.proc.maxLabel⟩] := by
    simp [f1.targets]
  have hmem : ∀ l, l ∈ [(⟨c.proc.maxLabel⟩ : Label)] ++ labelsOf qb ++
      [(⟨c.proc.maxLabel + 1⟩ : Label)] ↔
      (l = ⟨c.proc.maxLabel⟩ ∨ l ∈ labelsOf qb ∨ l = ⟨c.proc.maxLabel + 1⟩) := by
    intro l; simp [or_assoc]
  constructor
  · simp [qb', q1]
  · simp [lb, l1]
  · simpa using fb.name.trans f1.name
  · simpa using fb.procs.trans f1.procs
  · simpa using fb.globals.trans f1.globals
  · simp only [Ctx.addQuad_maxLabel]; omega
  · simp only [Ctx.addQuad_maxTmp]; omega
  · intro l hl
    rw [hlab, hmem] at hl
    rcases hl with hl | hl | hl
    · subst hl; simp only; omega
    · have := blo l hl; omega
    · subst hl; simp only; omega
  · intro l hl
    rw [hlab, hmem] at hl
    simp only [Ctx.addQuad_maxLabel]
    rcases hl with hl | hl | hl
    · subst hl; simp only; omega
    · have := bhi l hl; omega
    · subst hl; simp only; omega
  · rw [hlab, List.nodup_append]
    refine ⟨?_, by simp, ?_⟩
    · rw [List.nodup_append]
      refine ⟨by simp, fb.nodup, ?_⟩
      intro l h1 h2
      have := blo l h2
      simp only [List.mem_singleton] at h1
      subst h1
      simp only at this
      omega
    · intro l h1 h2
      simp only [List.mem_singleton] at h2
      subst h2
      simp only [List.mem_append, List.mem_singleton, Label.mk.injEq] at h1
      rcases h1 with h1 | h1
      · omega
      · have := blo _ h1; simp only at this; omega
  · intro l hl
    rw [htgt] at hl
    rw [hlab, hmem]
    simp only [List.mem_append, List.mem_singleton] at hl
    rcases hl with (hl | hl) | hl
    · exact Or.inr (Or.inr (Or.inr hl))
    · rcases tb l hl with h | h
      · exact Or.inl (h.trans l1)
      · exact Or.inr (Or.inr (Or.inl h))
    · exact Or.inr (Or.inl hl)
  · intro q hq hne
    simp only [List.mem_append, List.mem_singleton, List.mem_cons, List.mem_nil_iff,
      or_false] at hq
    rcases hq with (((hq | hq) | hq) | hq) | hq
    · subst hq; rfl
    · exact absurd (labels_nil_of_labelsOf f1.labels q hq) hne
    · subst hq; simp at hne
    · exact fb.nops q hq hne
    · rcases hq with hq | hq
      · subst hq; simp at hne
      · subst hq; rfl

/-- The assignment's last step succeeds exactly on a non-null target operand,
and then appends the `Assign`. -/
theorem AssignStmtNode.emit_ok {dst src : Option Opd} {c c' : Ctx}
    (h : AssignStmtNode.emit dst src c = .ok c') :
    ∃ d, dst = some d ∧ c' = c.addQuad (Quad.new (.AssignQuad (some d) src)) := by
  cases dst with
  | none => simp [AssignStmtNode.emit] at h
  | some d =>
    simp only [AssignStmtNode.emit, Except.ok.injEq] at h
    exact ⟨d, rfl, h.symm⟩

/-- The two outcomes of flattening a call whose arguments flatten. -/
theorem ExpNode.flatten_call {args : List ExpNode} {c cA : Ctx} (callee : SemSymbol)
    (h : ExpNode.flattenArgs args 1 c = .ok cA) :
    (ExpNode.CallExpNode callee args).flatten c =
      if callee.isVoid then .ok (none, cA.addQuad (Quad.new (.CallQuad callee)))
      else .ok (some (Opd.AuxOpd cA.proc.maxTmp 8),
        ((cA.addQuad (Quad.new (.CallQuad callee))).makeTmp 8).snd.addQuad
          (Quad.new (.GetRetQuad (some (Opd.AuxOpd cA.proc.maxTmp 8))))) := by
  simp only [ExpNode.flatten, h]
  rfl

/-- Flattening a call fails exactly as its argument loop does. -/
theorem ExpNode.flatten_call_error {args : List ExpNode} {c : Ctx} (callee : SemSymbol)
    {e : Failure} (h : ExpNode.flattenArgs args 1 c = .error e) :
    (ExpNode.CallExpNode callee args).flatten c = .error e := by
  simp only [ExpNode.flatten, h]

/-- A successful call statement: the callee is not void, and the context is
the one after the `CallQuad` with one more temporary allocated. -/
theorem StmtNode.callStmt_ok {callee : SemSymbol} {args : List ExpNode} {c c' : Ctx}
    (h : (StmtNode.CallStmtNode callee args).to3AC c = .ok c') :
    ∃ cA, ExpNode.flattenArgs args 1 c = .ok cA ∧ callee.isVoid = false ∧
      c' = (((cA.addQuad (Quad.new (.CallQuad callee))).makeTmp 8).snd.addQuad
          (Quad.new (.GetRetQuad (some (Opd.AuxOpd cA.proc.maxTmp 8))))).popQuad := by
  cases hA : ExpNode.flattenArgs args 1 c with
  | error e =>
    simp [StmtNode.to3AC, ExpNode.flatten_call_error callee hA] at h
  | ok cA =>
    refine ⟨cA, rfl, ?_⟩
    cases hv : callee.isVoid with
    | true => simp [StmtNode.to3AC, ExpNode.flatten_call callee hA, hv] at h
    | false =>
      simp only [StmtNode.to3AC, ExpNode.flatten_call callee hA, hv] at h
      simp only [Bool.false_eq_true, if_false, Except.ok.injEq] at h
      exact ⟨rfl, h.symm⟩

@[simp] theorem Ctx.popQuad_addQuad_quads (c : Ctx) (q : Quad) :
    (c.addQuad q).popQuad.proc.quads = c.proc.quads := by
  simp [Ctx.popQuad, Procedure.popQuad]

@[simp] theorem Ctx.popQuad_leave (c : Ctx) : c.popQuad.proc.leave = c.proc.leave := rfl
@[simp] theorem Ctx.popQuad_name (c : Ctx) : c.popQuad.proc.name = c.proc.name := rfl
@[simp] theorem Ctx.popQuad_maxLabel (c : Ctx) :
    c.popQuad.proc.maxLabel = c.proc.maxLabel := rfl
@[simp] theorem Ctx.popQuad_maxTmp (c : Ctx) : c.popQuad.proc.maxTmp = c.proc.maxTmp := rfl
@[simp] theorem Ctx.popQuad_prog (c : Ctx) : c.popQuad.prog = c.prog := rfl

/-- Registering a formal or a local emits nothing. -/
theorem ExpFrame.gatherLocal (c : Ctx) (sym : SemSymbol) : ExpFrame c (c.gatherLocal sym) [] :=
  ⟨by simp [Ctx.gatherLocal, Procedure.gatherLocal], rfl, rfl, rfl, le_refl _, rfl, rfl, rfl, rfl⟩

theorem ExpFrame.gatherFormal (c : Ctx) (sym : SemSymbol) :
    ExpFrame c (c.gatherFormal sym) [] :=
  ⟨by simp [Ctx.gatherFormal, Procedure.gatherFormal], rfl, rfl, rfl, le_refl _, rfl, rfl,
    rfl, rfl⟩

/-- The frame of a successful call statement. -/
theorem StmtFrame.callStmt {callee : SemSymbol} {c cA : Ctx} {qa : List Quad}
    (fa : ExpFrame c cA qa) :
    ExpFrame c
      (((cA.addQuad (Quad.new (.CallQuad callee))).makeTmp 8).snd.addQuad
          (Quad.new (.GetRetQuad (some (Opd.AuxOpd cA.proc.maxTmp 8))))).popQuad
      (qa ++ [Quad.new (.CallQuad callee)]) where
  quads := by simp [fa.quads]
  leave := by simp [fa.leave]
  name := by simp [fa.name]
  maxLabel := by simp [fa.maxLabel]
  maxTmp := by
    have := fa.maxTmp
    simp only [Ctx.popQuad_maxTmp, Ctx.addQuad_maxTmp, Ctx.makeTmp_maxTmp]
    omega
  labels := by simp [fa.labels]
  targets := by simp [fa.targets, Quad.targets]
  procs := by simp [fa.procs]
  globals := by simp [fa.globals]

/-- A single jump to the leave label. -/
theorem StmtFrame.gotoLeave (c : Ctx) :
    StmtFrame c (c.addQuad (Quad.new (.GotoQuad c.getLeaveLabel)))
      [Quad.new (.GotoQuad c.getLeaveLabel)] where
  quads := rfl
  leave := rfl
  name := rfl
  procs := rfl
  globals := rfl
  maxLabel := le_refl _
  maxTmp := le_refl _
  labels_lo := by simp
  labels_hi := by simp
  nodup := by simp
  targets := by
    intro l hl
    simp only [targetsOf_cons, Quad.targets_goto, targetsOf_nil, List.append_nil,
      List.mem_singleton] at hl
    exact Or.inl hl
  nops := by
    intro q hq hne
    simp only [List.mem_singleton] at hq
    subst hq
    simp at hne

mutual
theorem StmtNode.to3AC_frame : ∀ (s : StmtNode) (c c' : Ctx),
    s.to3AC c = .ok c' → ∃ qs, StmtFrame c c' qs
  | .AssignStmtNode dst src, c, c', h => by
    simp only [StmtNode.to3AC] at h
    split at h
    · exact absurd h (by simp)
    · rename_i s c1 h1
      obtain ⟨q1, f1⟩ := ExpNode.flatten_frame _ _ _ _ h1
      split at h
      · exact absurd h (by simp)
      · rename_i dd c2 h2
        obtain ⟨d, rfl, rfl⟩ := AssignStmtNode.emit_ok h
        obtain ⟨q2, f2⟩ := ExpNode.flatten_frame _ _ _ _ h2
        exact ⟨_, ((f1.append f2).append (ExpFrame.addQuad _ _ (by rfl))).toStmt⟩
  | .PostIncStmtNode loc, c, c', h => by
    simp only [StmtNode.to3AC] at h
    split at h
    · exact absurd h (by simp)
    · rename_i d c1 h1
      obtain ⟨q1, f1⟩ := ExpNode.flatten_frame _ _ _ _ h1
      simp only [Except.ok.injEq] at h
      subst h
      exact ⟨_, (f1.append (ExpFrame.addQuad _ _ (by rfl))).toStmt⟩
  | .PostDecStmtNode loc, c, c', h => by
    simp only [StmtNode.to3AC] at h
    split at h
    · exact absurd h (by simp)
    · rename_i d c1 h1
      obtain ⟨q1, f1⟩ := ExpNode.flatten_frame _ _ _ _ h1
      simp only [Except.ok.injEq] at h
      subst h
      exact ⟨_, (f1.append (ExpFrame.addQuad _ _ (by rfl))).toStmt⟩
  | .GiveStmtNode src, c, c', h => by
    simp only [StmtNode.to3AC] at h
    split at h
    · exact absurd h (by simp)
    · rename_i d c1 h1
      obtain ⟨q1, f1⟩ := ExpNode.flatten_frame _ _ _ _ h1
      simp only [Except.ok.injEq] at h
      subst h
      exact ⟨_, (f1.append (ExpFrame.addQuad _ _ (by rfl))).toStmt⟩
  | .TakeStmtNode dst, c, c', h => by
    simp only [StmtNode.to3AC] at h
    split at h
    · exact absurd h (by simp)
    · rename_i d c1 h1
      obtain ⟨q1, f1⟩ := ExpNode.flatten_frame _ _ _ _ h1
      simp only [Except.ok.injEq] at h
      subst h
      exact ⟨_, (f1.append (ExpFrame.addQuad _ _ (by rfl))).toStmt⟩
  | .IfStmtNode cond body, c, c', h => by
    simp only [StmtNode.to3AC] at h
    split at h
    · exact absurd h (by simp)
    · rename_i exp c1 h1
      obtain ⟨q1, f1⟩ := ExpNode.flatten_frame _ _ _ _ h1
      split at h
      · exact absurd h (by simp)
      · rename_i c3 h3
        obtain ⟨qb, fb⟩ := StmtNode.to3ACList_frame body _ _ h3
        simp only [Except.ok.injEq] at h
        subst h
        exact ⟨_, StmtFrame.ifThen f1 fb⟩
  | .IfElseStmtNode cond bt bf, c, c', h => by
    simp only [StmtNode.to3AC] at h
    split at h
    · exact absurd h (by simp)
    · rename_i exp c1 h1
      obtain ⟨q1, f1⟩ := ExpNode.flatten_frame _ _ _ _ h1
      split at h
      · exact absurd h (by simp)
      · rename_i c3 h3
        obtain ⟨qt, ft⟩ := StmtNode.to3ACList_frame bt _ _ h3
        split at h
        · exact absurd h (by simp)
        · rename_i c6 h6
          obtain ⟨qf, ff⟩ := StmtNode.to3ACList_frame bf _ _ h6
          simp only [Except.ok.injEq] at h
          subst h
          exact ⟨_, StmtFrame.ifElse f1 ft ff⟩
  | .WhileStmtNode cond body, c, c', h => by
    simp only [StmtNode.to3AC] at h
    split at h
    · exact absurd h (by simp)
    · rename_i exp c2 h2
      obtain ⟨q1, f1⟩ := ExpNode.flatten_frame _ _ _ _ h2
      split at h
      · exact absurd h (by simp)
      · rename_i c4 h4
        obtain ⟨qb, fb⟩ := StmtNode.to3ACList_frame body _ _ h4
        simp only [Except.ok.injEq] at h
        subst h
        exact ⟨_, StmtFrame.whileLoop f1 fb⟩
  | .CallStmtNode callee args, c, c', h => by
    obtain ⟨cA, hA, -, rfl⟩ := StmtNode.callStmt_ok h
    obtain ⟨qa, fa⟩ := ExpNode.flattenArgs_frame _ _ _ _ hA
    exact ⟨_, (StmtFrame.callStmt fa).toStmt⟩
  | .ReturnStmtNode none, c, c', h => by
    simp only [StmtNode.to3AC, Except.ok.injEq] at h
    subst h
    exact ⟨_, StmtFrame.gotoLeave c⟩
  | .ReturnStmtNode (some e), c, c', h => by
    simp only [StmtNode.to3AC] at h
    split at h
    · exact absurd h (by simp)
    · rename_i exp c1 h1
      obtain ⟨q1, f1⟩ := ExpNode.flatten_frame _ _ _ _ h1
      simp only [Except.ok.injEq] at h
      subst h
      exact ⟨_, ((f1.append (ExpFrame.addQuad _ _ (by rfl))).toStmt).trans
        (StmtFrame.gotoLeave _)⟩
  | .ExitStmtNode, c, c', h => by
    simp only [StmtNode.to3AC, Except.ok.injEq] at h
    subst h
    exact ⟨[], StmtFrame.refl c⟩
  | .VarDeclNode none, c, c', h => by
    simp [StmtNode.to3AC] at h
  | .VarDeclNode (some sym), c, c', h => by
    simp only [StmtNode.to3AC, Except.ok.injEq] at h
    subst h
    exact ⟨[], (ExpFrame.gatherLocal c sym).toStmt⟩
  | .FormalDeclNode none, c, c', h => by
    simp [StmtNode.to3AC] at h
  | .FormalDeclNode (some sym), c, c', h => by
    simp only [StmtNode.to3AC, Except.ok.injEq] at h
    subst h
    exact ⟨[], (ExpFrame.gatherFormal c sym).toStmt⟩
  | .FnDeclNode _ _ _, c, c', h => by
    simp [StmtNode.to3AC] at h
theorem StmtNode.to3ACList_frame : ∀ (ss : List StmtNode) (c c' : Ctx),
    StmtNode.to3ACList ss c = .ok c' → ∃ qs, StmtFrame c c' qs
  | [], c, c', h => by
    simp only [StmtNode.to3ACList, Except.ok.injEq] at h
    subst h
    exact ⟨[], StmtFrame.refl c⟩
  | s :: rest, c, c', h => by
    simp only [StmtNode.to3ACList] at h
    split at h
    · exact absurd h (by simp)
    · rename_i c1 h1
      obtain ⟨q1, f1⟩ := StmtNode.to3AC_frame s c c1 h1
      obtain ⟨q2, f2⟩ := StmtNode.to3ACList_frame rest c1 c' h
      exact ⟨_, f1.trans f2⟩
end

/-! ### The symbol operand cache -/

theorem lookup_append_self {α β : Type} [BEq α] [LawfulBEq α] (l : List (α × β)) (a : α) (b : β)
    (h : l.lookup a = none) : (l ++ [(a, b)]).lookup a = some b := by
  induction l with
  | nil => simp [List.lookup]
  | cons x xs ih =>
    obtain ⟨k, v⟩ := x
    rw [List.cons_append]
    cases hk : a == k with
    | true => simp [List.lookup, hk] at h
    | false =>
      simp only [List.lookup, hk] at h ⊢
      exact ih h

@[simp] theorem Ctx.getSymOpd_quads (c : Ctx) (s : SemSymbol) :
    (c.getSymOpd s).snd.proc.quads = c.proc.quads := by
  simp only [Ctx.getSymOpd, Procedure.getSymOpd]; split <;> rfl
@[simp] theorem Ctx.getSymOpd_leave (c : Ctx) (s : SemSymbol) :
    (c.getSymOpd s).snd.proc.leave = c.proc.leave := by
  simp only [Ctx.getSymOpd, Procedure.getSymOpd]; split <;> rfl
@[simp] theorem Ctx.getSymOpd_name (c : Ctx) (s : SemSymbol) :
    (c.getSymOpd s).snd.proc.name = c.proc.name := by
  simp only [Ctx.getSymOpd, Procedure.getSymOpd]; split <;> rfl
@[simp] theorem Ctx.getSymOpd_maxLabel (c : Ctx) (s : SemSymbol) :
    (c.getSymOpd s).snd.proc.maxLabel = c.proc.maxLabel := by
  simp only [Ctx.getSymOpd, Procedure.getSymOpd]; split <;> rfl
@[simp] theorem Ctx.getSymOpd_maxTmp (c : Ctx) (s : SemSymbol) :
    (c.getSymOpd s).snd.proc.maxTmp = c.proc.maxTmp := by
  simp only [Ctx.getSymOpd, Procedure.getSymOpd]; split <;> rfl
@[simp] theorem Ctx.getSymOpd_prog (c : Ctx) (s : SemSymbol) :
    (c.getSymOpd s).snd.prog = c.prog := rfl

/-- A second lookup of the same symbol finds the binding of the first. -/
theorem Procedure.getSymOpd_again (p : Procedure) (s : SemSymbol) :
    (p.getSymOpd s).snd.getSymOpd s = ((p.getSymOpd s).fst, (p.getSymOpd s).snd) := by
  cases h : p.symOpds.lookup s with
  | some o => simp [Procedure.getSymOpd, h]
  | none =>
    have h2 := lookup_append_self p.symOpds s (Opd.SymOpd s 8) h
    simp [Procedure.getSymOpd, h, h2]

@[simp] theorem Ctx.getSymOpd_again_fst (c : Ctx) (s : SemSymbol) :
    ((c.getSymOpd s).snd.getSymOpd s).fst = (c.getSymOpd s).fst := by
  simp [Ctx.getSymOpd, Procedure.getSymOpd_again]

@[simp] theorem Ctx.getSymOpd_again_snd (c : Ctx) (s : SemSymbol) :
    ((c.getSymOpd s).snd.getSymOpd s).snd = (c.getSymOpd s).snd := by
  simp [Ctx.getSymOpd, Procedure.getSymOpd_again]

/-- The cache lookup is not disturbed by appending quads or allocating. -/
@[simp] theorem Ctx.getSymOpd_addQuad (c : Ctx) (q : Quad) (s : SemSymbol) :
    (c.addQuad q).getSymOpd s = ((c.getSymOpd s).fst, (c.getSymOpd s).snd.addQuad q) := by
  simp only [Ctx.getSymOpd, Ctx.addQuad, Procedure.getSymOpd, Procedure.addQuad]
  split <;> rfl

@[simp] theorem Ctx.getSymOpd_makeTmp (c : Ctx) (w : Nat) (s : SemSymbol) :
    (c.makeTmp w).snd.getSymOpd s =
      ((c.getSymOpd s).fst, ((c.getSymOpd s).snd.makeTmp w).snd) := by
  simp only [Ctx.getSymOpd, Ctx.makeTmp, Procedure.getSymOpd, Procedure.makeTmp]
  split <;> rfl

@[simp] theorem Ctx.getSymOpd_makeLabel (c : Ctx) (s : SemSymbol) :
    c.makeLabel.snd.getSymOpd s =
      ((c.getSymOpd s).fst, (c.getSymOpd s).snd.makeLabel.snd) := by
  simp only [Ctx.getSymOpd, Ctx.makeLabel, Procedure.getSymOpd, Procedure.makeLabel]
  split <;> rfl

theorem ExpNode.flattenArgs_emit : ∀ (args : List ExpNode) (index : Nat) (c c' : Ctx),
    ExpNode.flattenArgs args index c = .ok c' →
      ∃ qs, ArgsEmit args index c c' qs ∧ c'.proc.quads = c.proc.quads ++ qs
  | [], index, c, c', h => by
    simp only [ExpNode.flattenArgs, Except.ok.injEq] at h
    subst h
    exact ⟨[], ArgsEmit.nil index c, by simp⟩
  | a :: rest, index, c, c', h => by
    simp only [ExpNode.flattenArgs] at h
    split at h
    · exact absurd h (by simp)
    · rename_i v c1 h1
      obtain ⟨qa, fa⟩ := ExpNode.flatten_frame a c v c1 h1
      obtain ⟨qs, hs, hq⟩ := ExpNode.flattenArgs_emit rest (index + 1) _ c' h
      refine ⟨_, ArgsEmit.cons h1 fa.quads hs, ?_⟩
      rw [hq, Ctx.addQuad_quads, fa.quads]
      simp

theorem ExpNode.leaf_flatten_quads {e : ExpNode} {c c1 : Ctx} {v : Option Opd}
    (hl : e.isLeaf = true) (h : e.flatten c = .ok (v, c1)) : c1.proc.quads = c.proc.quads := by
  cases e with
  | IntLitNode n =>
    simp only [ExpNode.flatten, Except.ok.injEq, Prod.mk.injEq] at h
    rw [← h.2]
  | StrLitNode s =>
    simp only [ExpNode.flatten, Except.ok.injEq, Prod.mk.injEq] at h
    rw [← h.2]; rfl
  | TrueNode =>
    simp only [ExpNode.flatten, Except.ok.injEq, Prod.mk.injEq] at h
    rw [← h.2]
  | FalseNode =>
    simp only [ExpNode.flatten, Except.ok.injEq, Prod.mk.injEq] at h
    rw [← h.2]
  | IDNode s =>
    cases s with
    | none => simp [ExpNode.flatten] at h
    | some s =>
      simp only [ExpNode.flatten, Except.ok.injEq, Prod.mk.injEq] at h
      rw [← h.2]; simp
  | CallExpNode _ _ => simp [ExpNode.isLeaf] at hl
  | UnaryExpNode _ _ => simp [ExpNode.isLeaf] at hl
  | BinaryExpNode _ _ _ => simp [ExpNode.isLeaf] at hl

/-- The argument loop succeeds exactly when the operands are produced, and
there is one operand per argument. -/
theorem ExpNode.argOpds_of_flattenArgs : ∀ (args : List ExpNode) (index : Nat) (c c' : Ctx),
    ExpNode.flattenArgs args index c = .ok c' →
      ∃ vs, ExpNode.argOpds args index c = .ok vs ∧ vs.length = args.length
  | [], index, c, c', _ => ⟨[], rfl, rfl⟩
  | a :: rest, index, c, c', h => by
    simp only [ExpNode.flattenArgs] at h
    split at h
    · exact absurd h (by simp)
    · rename_i v c1 h1
      obtain ⟨vs, hvs, hlen⟩ := ExpNode.argOpds_of_flattenArgs rest (index + 1) _ c' h
      exact ⟨v :: vs, by simp only [ExpNode.argOpds, h1, hvs], by simp [hlen]⟩

/-- Arguments that are all leaves emit just their `SetArg`s. -/
theorem ExpNode.flattenArgs_leaves : ∀ (args : List ExpNode) (index : Nat) (c c' : Ctx)
    (vs : List (Option Opd)),
    (∀ a ∈ args, a.isLeaf = true) →
    ExpNode.flattenArgs args index c = .ok c' →
    ExpNode.argOpds args index c = .ok vs →
      c'.proc.quads = c.proc.quads ++ setArgQuads index vs
  | [], index, c, c', vs, _, h, hv => by
    simp only [ExpNode.flattenArgs, Except.ok.injEq] at h
    simp only [ExpNode.argOpds, Except.ok.injEq] at hv
    subst h; subst hv
    simp [setArgQuads]
  | a :: rest, index, c, c', vs, hl, h, hv => by
    simp only [ExpNode.flattenArgs] at h
    simp only [ExpNode.argOpds] at hv
    split at h
    · exact absurd h (by simp)
    · rename_i v c1 h1
      simp only [h1] at hv
      split at hv
      · exact absurd hv (by simp)
      · rename_i ws hws
        simp only [Except.ok.injEq] at hv
        subst hv
        have hq := ExpNode.leaf_flatten_quads (hl a (List.mem_cons_self _ _)) h1
        have ih := ExpNode.flattenArgs_leaves rest (index + 1) _ c' ws
          (fun x hx => hl x (List.mem_cons_of_mem _ hx)) h hws
        rw [ih, Ctx.addQuad_quads, hq]
        simp [setArgQuads]

theorem mem_labelsOf {qs : List Quad} {q : Quad} {l : Label} (hq : q ∈ qs) (hl : l ∈ q.labels) :
    l ∈ labelsOf qs := by
  induction qs with
  | nil => simp at hq
  | cons x xs ih =>
    rw [labelsOf_cons, List.mem_append]
    rcases List.mem_cons.mp hq with rfl | hq
    · exact Or.inl hl
    · exact Or.inr (ih hq)

/-- Looking up a symbol operand emits nothing. -/
theorem ExpFrame.getSymOpd (c : Ctx) (sym : SemSymbol) : ExpFrame c (c.getSymOpd sym).snd [] :=
  ⟨by simp, by simp, by simp, by simp, by simp, rfl, rfl, rfl, rfl⟩

theorem FnDeclNode.formalsTo3AC_frame : ∀ (formals : List (Option SemSymbol)) (c c' : Ctx),
    FnDeclNode.formalsTo3AC formals c = .ok c' → ExpFrame c c' []
  | [], c, c', h => by
    simp only [FnDeclNode.formalsTo3AC, Except.ok.injEq] at h
    subst h
    exact ExpFrame.nil c
  | none :: rest, c, c', h => by
    simp [FnDeclNode.formalsTo3AC, StmtNode.to3AC] at h
  | some sym :: rest, c, c', h => by
    simp only [FnDeclNode.formalsTo3AC, StmtNode.to3AC] at h
    exact (ExpFrame.gatherFormal c sym).append (FnDeclNode.formalsTo3AC_frame rest _ c' h)

theorem FnDeclNode.getArgQuads_frame : ∀ (formals : List (Option SemSymbol)) (index : Nat)
    (c c' : Ctx), FnDeclNode.getArgQuads formals index c = .ok c' → ∃ qs, ExpFrame c c' qs
  | [], index, c, c', h => by
    simp only [FnDeclNode.getArgQuads, Except.ok.injEq] at h
    subst h
    exact ⟨[], ExpFrame.nil c⟩
  | none :: rest, index, c, c', h => by
    simp [FnDeclNode.getArgQuads] at h
  | some sym :: rest, index, c, c', h => by
    simp only [FnDeclNode.getArgQuads] at h
    obtain ⟨qs, f⟩ := FnDeclNode.getArgQuads_frame rest (index + 1) _ c' h
    exact ⟨_, ((ExpFrame.getSymOpd c sym).append (ExpFrame.addQuad _ _ (by rfl))).append f⟩

@[simp] theorem IRProgram.gatherGlobal_procs (g : IRProgram) (s : SemSymbol) :
    (g.gatherGlobal s).procs = g.procs := by
  simp only [IRProgram.gatherGlobal]; split <;> rfl

theorem IRProgram.mem_gatherGlobal (g : IRProgram) (s : SemSymbol) :
    s ∈ (g.gatherGlobal s).globals := by
  simp only [IRProgram.gatherGlobal]
  split
  · assumption
  · simp

theorem IRProgram.gatherGlobal_mono (g : IRProgram) (s t : SemSymbol) (h : t ∈ g.globals) :
    t ∈ (g.gatherGlobal s).globals := by
  simp only [IRProgram.gatherGlobal]
  split
  · exact h
  · simp [h]

/-- The label discipline of what a successful statement list appends, when
the leave label was allocated before. -/
theorem StmtFrame.resolved {c c' : Ctx} {qs : List Quad} (f : StmtFrame c c' qs)
    (hl : c.proc.leave.id < c.proc.maxLabel) :
    c.proc.leave ∉ labelsOf qs ∧ (labelsOf qs).Nodup ∧
      ∀ l ∈ targetsOf qs, l = c.proc.leave ∨
        ((labelsOf qs).count l = 1 ∧ ∀ q ∈ qs, l ∈ q.labels → q.kind = .NopQuad) := by
  refine ⟨?_, f.nodup, ?_⟩
  · intro hmem
    have := f.labels_lo _ hmem
    omega
  · intro l hlt
    rcases f.targets l hlt with h | h
    · exact Or.inl h
    · refine Or.inr ⟨List.count_eq_one_of_mem f.nodup h, ?_⟩
      intro q hq hlq
      exact f.nops q hq (List.ne_nil_of_mem hlq)

/-- What lowering a function declaration at module scope produces. -/
theorem DeclNode.fnDecl_ok {symbol : SemSymbol} {formals : List (Option SemSymbol)}
    {body : List StmtNode} {prog prog' : IRProgram}
    (h : (DeclNode.FnDeclNode symbol formals body).to3AC prog = .ok prog') :
    ∃ c2 c3 qa qs,
      ExpFrame (prog.makeProc symbol.name) c2 qa ∧
      StmtNode.to3ACList body c2 = .ok c3 ∧
      StmtFrame c2 c3 qs ∧
      prog' = (c3.prog.addProc c3.proc).gatherGlobal symbol := by
  simp only [DeclNode.to3AC] at h
  split at h
  · exact absurd h (by simp)
  · rename_i c1 h1
    have f1 := FnDeclNode.formalsTo3AC_frame _ _ _ h1
    split at h
    · exact absurd h (by simp)
    · rename_i c2 h2
      obtain ⟨qa, f2⟩ := FnDeclNode.getArgQuads_frame _ _ _ _ h2
      split at h
      · exact absurd h (by simp)
      · rename_i c3 h3
        obtain ⟨qs, f3⟩ := StmtNode.to3ACList_frame _ _ _ h3
        simp only [Except.ok.injEq] at h
        exact ⟨c2, c3, _, qs, f1.append f2, h3, f3, h.symm⟩

/-- One top-level declaration: the procedure names grow by the declared
function's name, the globals only grow, and the declared symbol is a global. -/
theorem DeclNode.to3AC_step {d : DeclNode} {g g' : IRProgram} (h : d.to3AC g = .ok g') :
    g'.procs.map (fun p => p.name) = g.procs.map (fun p => p.name) ++ d.procName.toList ∧
    (∀ s ∈ g.globals, s ∈ g'.globals) ∧
    (∀ s, d.declSymbol = some s → s ∈ g'.globals) := by
  cases d with
  | FnDeclNode symbol formals body =>
    obtain ⟨c2, c3, qa, qs, fa, -, fs, rfl⟩ := DeclNode.fnDecl_ok h
    have hp : c3.prog.procs = g.procs := fs.procs.trans fa.procs
    have hg : c3.prog.globals = g.globals := fs.globals.trans fa.globals
    have hn : c3.proc.name = symbol.name := fs.name.trans fa.name
    refine ⟨?_, ?_, ?_⟩
    · simp [IRProgram.addProc, hp, hn, DeclNode.procName]
    · intro s hs
      apply IRProgram.gatherGlobal_mono
      simpa [IRProgram.addProc, hg] using hs
    · intro s hs
      simp only [DeclNode.declSymbol, Option.some.injEq] at hs
      subst hs
      exact IRProgram.mem_gatherGlobal _ _
  | VarDeclNode symbol =>
    cases symbol with
    | none => simp [DeclNode.to3AC] at h
    | some sym =>
      simp only [DeclNode.to3AC, Except.ok.injEq] at h
      subst h
      refine ⟨by simp [DeclNode.procName], ?_, ?_⟩
      · intro s hs
        exact IRProgram.gatherGlobal_mono _ _ _ hs
      · intro s hs
        simp only [DeclNode.declSymbol, Option.some.injEq] at hs
        subst hs
        exact IRProgram.mem_gatherGlobal _ _
  | FormalDeclNode symbol => simp [DeclNode.to3AC] at h

theorem ProgramNode.globalsTo3AC_spec : ∀ (decls : List DeclNode) (g g' : IRProgram),
    ProgramNode.globalsTo3AC decls g = .ok g' →
    g'.procs.map (fun p => p.name)
      = g.procs.map (fun p => p.name) ++ decls.filterMap DeclNode.procName ∧
    (∀ s ∈ g.globals, s ∈ g'.globals) ∧
    (∀ d ∈ decls, ∀ s, d.declSymbol = some s → s ∈ g'.globals)
  | [], g, g', h => by
    simp only [ProgramNode.globalsTo3AC, Except.ok.injEq] at h
    subst h
    simp
  | d :: rest, g, g', h => by
    simp only [ProgramNode.globalsTo3AC] at h
    split at h
    · exact absurd h (by simp)
    · rename_i g1 h1
      obtain ⟨s1, s2, s3⟩ := DeclNode.to3AC_step h1
      obtain ⟨r1, r2, r3⟩ := ProgramNode.globalsTo3AC_spec rest g1 g' h
      refine ⟨?_, fun s hs => r2 s (s2 s hs), ?_⟩
      · rw [r1, s1]
        cases hd : d.procName <;> simp [List.filterMap_cons, hd]
      · intro x hx s hs
        rcases List.mem_cons.mp hx with rfl | hx
        · exact r2 s (s3 s hs)
        · exact r3 x hx s hs

/-! ### Function declarations inside function bodies -/

mutual
theorem StmtNode.to3AC_fails_of_hasFnDecl : ∀ (s : StmtNode) (c c' : Ctx),
    s.hasFnDecl = true → s.to3AC c ≠ .ok c'
  | .FnDeclNode _ _ _, c, c', _ => by simp [StmtNode.to3AC]
  | .IfStmtNode cond body, c, c', hn => by
    simp only [StmtNode.hasFnDecl] at hn
    intro h
    simp only [StmtNode.to3AC] at h
    split at h
    · exact absurd h (by simp)
    · split at h
      · exact absurd h (by simp)
      · rename_i c3 h3
        exact StmtNode.to3ACList_fails_of_hasFnDecl body _ c3 hn h3
  | .IfElseStmtNode cond bt bf, c, c', hn => by
    simp only [StmtNode.hasFnDecl, Bool.or_eq_true] at hn
    intro h
    simp only [StmtNode.to3AC] at h
    split at h
    · exact absurd h (by simp)
    · split at h
      · exact absurd h (by simp)
      · rename_i c3 h3
        split at h
        · exact absurd h (by simp)
        · rename_i c6 h6
          rcases hn with hn | hn
          · exact StmtNode.to3ACList_fails_of_hasFnDecl bt _ c3 hn h3
          · exact StmtNode.to3ACList_fails_of_hasFnDecl bf _ c6 hn h6
  | .WhileStmtNode cond body, c, c', hn => by
    simp only [StmtNode.hasFnDecl] at hn
    intro h
    simp only [StmtNode.to3AC] at h
    split at h
    · exact absurd h (by simp)
    · split at h
      · exact absurd h (by simp)
      · rename_i c4 h4
        exact StmtNode.to3ACList_fails_of_hasFnDecl body _ c4 hn h4
  | .AssignStmtNode _ _, _, _, hn => by simp [StmtNode.hasFnDecl] at hn
  | .PostIncStmtNode _, _, _, hn => by simp [StmtNode.hasFnDecl] at hn
  | .PostDecStmtNode _, _, _, hn => by simp [StmtNode.hasFnDecl] at hn
  | .GiveStmtNode _, _, _, hn => by simp [StmtNode.hasFnDecl] at hn
  | .TakeStmtNode _, _, _, hn => by simp [StmtNode.hasFnDecl] at hn
  | .CallStmtNode _ _, _, _, hn => by simp [StmtNode.hasFnDecl] at hn
  | .ReturnStmtNode _, _, _, hn => by simp [StmtNode.hasFnDecl] at hn
  | .ExitStmtNode, _, _, hn => by simp [StmtNode.hasFnDecl] at hn
  | .VarDeclNode _, _, _, hn => by simp [StmtNode.hasFnDecl] at hn
  | .FormalDeclNode _, _, _, hn => by simp [StmtNode.hasFnDecl] at hn
theorem StmtNode.to3ACList_fails_of_hasFnDecl : ∀ (ss : List StmtNode) (c c' : Ctx),
    StmtNode.hasFnDeclList ss = true → StmtNode.to3ACList ss c ≠ .ok c'
  | [], _, _, hn => by simp [StmtNode.hasFnDeclList] at hn
  | s :: rest, c, c', hn => by
    simp only [StmtNode.hasFnDeclList, Bool.or_eq_true] at hn
    intro h
    simp only [StmtNode.to3ACList] at h
    split at h
    · exact absurd h (by simp)
    · rename_i c1 h1
      rcases hn with hn | hn
      · exact StmtNode.to3AC_fails_of_hasFnDecl s c c1 hn h1
      · exact StmtNode.to3ACList_fails_of_hasFnDecl rest c1 c' hn h
end

/-! ### Caches, string pool and formals -/

theorem lookup_append_of_some {α β : Type} [BEq α] (l m : List (α × β)) (a : α) (b : β)
    (h : l.lookup a = some b) : (l ++ m).lookup a = some b := by
  induction l with
  | nil => simp [List.lookup] at h
  | cons x xs ih =>
    obtain ⟨k, v⟩ := x
    rw [List.cons_append]
    cases hk : a == k with
    | true =>
      simp only [List.lookup, hk] at h ⊢
      exact h
    | false =>
      simp only [List.lookup, hk] at h ⊢
      exact ih h

theorem StateFrame.same (c : Ctx) : StateFrame c c :=
  ⟨fun _ _ h => h, fun h => h, ⟨[], by simp⟩, fun h => h, ⟨[], by simp⟩⟩

theorem StateFrame.comp {a b c : Ctx} (h1 : StateFrame a b) (h2 : StateFrame b c) :
    StateFrame a c where
  cache := fun s o h => h2.cache s o (h1.cache s o h)
  cacheWF := fun h => h2.cacheWF (h1.cacheWF h)
  strings := by
    obtain ⟨e1, h1'⟩ := h1.strings
    obtain ⟨e2, h2'⟩ := h2.strings
    exact ⟨e1 ++ e2, by rw [h2', h1', List.append_assoc]⟩
  stringsNodup := fun h => h2.stringsNodup (h1.stringsNodup h)
  formals := by
    obtain ⟨e1, h1'⟩ := h1.formals
    obtain ⟨e2, h2'⟩ := h2.formals
    exact ⟨e1 ++ e2, by rw [h2', h1', List.append_assoc]⟩

/-- An operation that leaves cache, pool and formals alone. -/
theorem StateFrame.of_eq {c c' : Ctx} (h1 : c'.proc.symOpds = c.proc.symOpds)
    (h2 : c'.prog.strings = c.prog.strings) (h3 : c'.proc.formals = c.proc.formals) :
    StateFrame c c' where
  cache := by intro s o h; rw [h1]; exact h
  cacheWF := by intro h; unfold Procedure.CacheWF; rw [h1]; exact h
  strings := ⟨[], by simp [h2]⟩
  stringsNodup := by intro h; rw [h2]; exact h
  formals := ⟨[], by simp [h3]⟩

theorem StateFrame.after_addQuad (c : Ctx) (q : Quad) : StateFrame c (c.addQuad q) :=
  StateFrame.of_eq rfl rfl rfl

theorem StateFrame.after_popQuad (c : Ctx) : StateFrame c c.popQuad :=
  StateFrame.of_eq rfl rfl rfl

theorem StateFrame.after_makeTmp (c : Ctx) (w : Nat) : StateFrame c (c.makeTmp w).snd :=
  StateFrame.of_eq rfl rfl rfl

theorem StateFrame.after_makeLabel (c : Ctx) : StateFrame c c.makeLabel.snd :=
  StateFrame.of_eq rfl rfl rfl

theorem StateFrame.after_gatherLocal (c : Ctx) (s : SemSymbol) : StateFrame c (c.gatherLocal s) :=
  StateFrame.of_eq rfl rfl rfl

theorem StateFrame.after_gatherFormal (c : Ctx) (s : SemSymbol) :
    StateFrame c (c.gatherFormal s) where
  cache := fun _ _ h => h
  cacheWF := fun h => h
  strings := ⟨[], by simp [Ctx.gatherFormal]⟩
  stringsNodup := fun h => h
  formals := ⟨[s], rfl⟩

theorem StateFrame.after_getSymOpd (c : Ctx) (s : SemSymbol) : StateFrame c (c.getSymOpd s).snd := by
  cases h : c.proc.symOpds.lookup s with
  | some o =>
    have : (c.getSymOpd s).snd = c := by
      simp [Ctx.getSymOpd, Procedure.getSymOpd, h]
    rw [this]
    exact StateFrame.same c
  | none =>
    have hs : (c.getSymOpd s).snd.proc.symOpds = c.proc.symOpds ++ [(s, Opd.SymOpd s 8)] := by
      simp [Ctx.getSymOpd, Procedure.getSymOpd, h]
    have hf : (c.getSymOpd s).snd.proc.formals = c.proc.formals := by
      simp [Ctx.getSymOpd, Procedure.getSymOpd, h]
    refine ⟨?_, ?_, ⟨[], by simp⟩, fun hn => by simpa using hn, ⟨[], by simp [hf]⟩⟩
    · intro t o ht
      rw [hs]
      exact lookup_append_of_some _ _ _ _ ht
    · intro hwf e he
      rw [hs, List.mem_append, List.mem_singleton] at he
      rcases he with he | he
      · exact hwf e he
      · subst he; rfl

theorem StateFrame.after_makeString (c : Ctx) (t : String) : StateFrame c (c.makeString t).snd := by
  by_cases h : t ∈ c.prog.strings
  · have : (c.makeString t).snd = c := by
      simp [Ctx.makeString, IRProgram.makeString, h]
    rw [this]
    exact StateFrame.same c
  · have hs : (c.makeString t).snd.prog.strings = c.prog.strings ++ [t] := by
      simp [Ctx.makeString, IRProgram.makeString, h]
    refine ⟨fun _ _ hl => hl, fun hw => hw, ⟨[t], hs⟩, ?_, ⟨[], by simp [Ctx.makeString]⟩⟩
    intro hn
    rw [hs]
    exact List.Nodup.append hn (List.nodup_singleton t) (by simpa using h)

mutual
theorem ExpNode.flatten_state : ∀ (e : ExpNode) (c : Ctx) (r : Option Opd) (c' : Ctx),
    e.flatten c = .ok (r, c') → StateFrame c c'
  | .IntLitNode _, c, r, c', h => by
    simp only [ExpNode.flatten, Except.ok.injEq, Prod.mk.injEq] at h
    obtain ⟨-, rfl⟩ := h
    exact StateFrame.same _
  | .StrLitNode _, c, r, c', h => by
    simp only [ExpNode.flatten, Except.ok.injEq, Prod.mk.injEq] at h
    obtain ⟨-, rfl⟩ := h
    exact StateFrame.after_makeString _ _
  | .TrueNode, c, r, c', h => by
    simp only [ExpNode.flatten, Except.ok.injEq, Prod.mk.injEq] at h
    obtain ⟨-, rfl⟩ := h
    exact StateFrame.same _
  | .FalseNode, c, r, c', h => by
    simp only [ExpNode.flatten, Except.ok.injEq, Prod.mk.injEq] at h
    obtain ⟨-, rfl⟩ := h
    exact StateFrame.same _
  | .IDNode none, c, r, c', h => by
    simp [ExpNode.flatten] at h
  | .IDNode (some s), c, r, c', h => by
    simp only [ExpNode.flatten, Except.ok.injEq, Prod.mk.injEq] at h
    obtain ⟨-, rfl⟩ := h
    exact StateFrame.after_getSymOpd _ _
  | .CallExpNode s args, c, r, c', h => by
    simp only [ExpNode.flatten] at h
    split at h
    · exact absurd h (by simp)
    · rename_i c1 h1
      have fa := ExpNode.flattenArgs_state args 1 c c1 h1
      split at h
      · simp only [Except.ok.injEq, Prod.mk.injEq] at h
        obtain ⟨-, rfl⟩ := h
        exact fa.comp (StateFrame.after_addQuad _ _)
      · simp only [Except.ok.injEq, Prod.mk.injEq] at h
        obtain ⟨-, rfl⟩ := h
        exact ((fa.comp (StateFrame.after_addQuad _ _)).comp (StateFrame.after_makeTmp _ _)).comp
          (StateFrame.after_addQuad _ _)
  | .UnaryExpNode k e, c, r, c', h => by
    simp only [ExpNode.flatten] at h
    split at h
    · exact absurd h (by simp)
    · rename_i src c1 h1
      have f1 := ExpNode.flatten_state e c src c1 h1
      simp only [Except.ok.injEq, Prod.mk.injEq] at h
      obtain ⟨-, rfl⟩ := h
      exact (f1.comp (StateFrame.after_makeTmp _ _)).comp (StateFrame.after_addQuad _ _)
  | .BinaryExpNode k e1 e2, c, r, c', h => by
    simp only [ExpNode.flatten] at h
    split at h
    · exact absurd h (by simp)
    · rename_i src1 c1 h1
      have f1 := ExpNode.flatten_state e1 c src1 c1 h1
      split at h
      · exact absurd h (by simp)
      · rename_i src2 c2 h2
        have f2 := ExpNode.flatten_state e2 c1 src2 c2 h2
        simp only [Except.ok.injEq, Prod.mk.injEq] at h
        obtain ⟨-, rfl⟩ := h
        exact ((f1.comp f2).comp (StateFrame.after_makeTmp _ _)).comp (StateFrame.after_addQuad _ _)
theorem ExpNode.flattenArgs_state : ∀ (args : List ExpNode) (index : Nat) (c c' : Ctx),
    ExpNode.flattenArgs args index c = .ok c' → StateFrame c c'
  | [], index, c, c', h => by
    simp only [ExpNode.flattenArgs, Except.ok.injEq] at h
    subst h
    exact StateFrame.same _
  | a :: rest, index, c, c', h => by
    simp only [ExpNode.flattenArgs] at h
    split at h
    · exact absurd h (by simp)
    · rename_i exp c1 h1
      have f1 := ExpNode.flatten_state a c exp c1 h1
      have f2 := ExpNode.flattenArgs_state rest (index + 1) _ c' h
      exact (f1.comp (StateFrame.after_addQuad _ _)).comp f2
end

mutual
theorem StmtNode.to3AC_state : ∀ (s : StmtNode) (c c' : Ctx),
    s.to3AC c = .ok c' → StateFrame c c'
  | .AssignStmtNode dst src, c, c', h => by
    simp only [StmtNode.to3AC] at h
    split at h
    · exact absurd h (by simp)
    · rename_i s c1 h1
      have f1 := ExpNode.flatten_state _ _ _ _ h1
      split at h
      · exact absurd h (by simp)
      · rename_i dd c2 h2
        obtain ⟨d, rfl, rfl⟩ := AssignStmtNode.emit_ok h
        have f2 := ExpNode.flatten_state _ _ _ _ h2
        exact (f1.comp f2).comp (StateFrame.after_addQuad _ _)
  | .PostIncStmtNode loc, c, c', h => by
    simp only [StmtNode.to3AC] at h
    split at h
    · exact absurd h (by simp)
    · rename_i d c1 h1
      have f1 := ExpNode.flatten_state _ _ _ _ h1
      simp only [Except.ok.injEq] at h
      subst h
      exact f1.comp (StateFrame.after_addQuad _ _)
  | .PostDecStmtNode loc, c, c', h => by
    simp only [StmtNode.to3AC] at h
    split at h
    · exact absurd h (by simp)
    · rename_i d c1 h1
      have f1 := ExpNode.flatten_state _ _ _ _ h1
      simp only [Except.ok.injEq] at h
      subst h
      exact f1.comp (StateFrame.after_addQuad _ _)
  | .GiveStmtNode src, c, c', h => by
    simp only [StmtNode.to3AC] at h
    split at h
    · exact absurd h (by simp)
    · rename_i d c1 h1
      have f1 := ExpNode.flatten_state _ _ _ _ h1
      simp only [Except.ok.injEq] at h
      subst h
      exact f1.comp (StateFrame.after_addQuad _ _)
  | .TakeStmtNode dst, c, c', h => by
    simp only [StmtNode.to3AC] at h
    split at h
    · exact absurd h (by simp)
    · rename_i d c1 h1
      have f1 := ExpNode.flatten_state _ _ _ _ h1
      simp only [Except.ok.injEq] at h
      subst h
      exact f1.comp (StateFrame.after_addQuad _ _)
  | .IfStmtNode cond body, c, c', h => by
    simp only [StmtNode.to3AC] at h
    split at h
    · exact absurd h (by simp)
    · rename_i exp c1 h1
      have f1 := ExpNode.flatten_state _ _ _ _ h1
      split at h
      · exact absurd h (by simp)
      · rename_i c3 h3
        have fb := StmtNode.to3ACList_state body _ _ h3
        simp only [Except.ok.injEq] at h
        subst h
        exact (((f1.comp (StateFrame.after_makeLabel _)).comp (StateFrame.after_addQuad _ _)).comp fb).comp
          (StateFrame.after_addQuad _ _)
  | .IfElseStmtNode cond bt bf, c, c', h => by
    simp only [StmtNode.to3AC] at h
    split at h
    · exact absurd h (by simp)
    · rename_i exp c1 h1
      have f1 := ExpNode.flatten_state _ _ _ _ h1
      split at h
      · exact absurd h (by simp)
      · rename_i c3 h3
        have ft := StmtNode.to3ACList_state bt _ _ h3
        split at h
        · exact absurd h (by simp)
        · rename_i c6 h6
          have ff := StmtNode.to3ACList_state bf _ _ h6
          simp only [Except.ok.injEq] at h
          subst h
          exact (((((((f1.comp (StateFrame.after_makeLabel _)).comp (StateFrame.after_makeLabel _)).comp
            (StateFrame.after_addQuad _ _)).comp ft).comp (StateFrame.after_addQuad _ _)).comp
            (StateFrame.after_addQuad _ _)).comp ff).comp (StateFrame.after_addQuad _ _)
  | .WhileStmtNode cond body, c, c', h => by
    simp only [StmtNode.to3AC] at h
    split at h
    · exact absurd h (by simp)
    · rename_i exp c2 h2
      have f1 := ExpNode.flatten_state _ _ _ _ h2
      split at h
      · exact absurd h (by simp)
      · rename_i c4 h4
        have fb := StmtNode.to3ACList_state body _ _ h4
        simp only [Except.ok.injEq] at h
        subst h
        exact (((((((StateFrame.after_makeLabel c).comp (StateFrame.after_makeLabel _)).comp
          (StateFrame.after_addQuad _ _)).comp f1).comp (StateFrame.after_addQuad _ _)).comp fb).comp
          (StateFrame.after_addQuad _ _)).comp (StateFrame.after_addQuad _ _)
  | .CallStmtNode callee args, c, c', h => by
    obtain ⟨cA, hA, -, rfl⟩ := StmtNode.callStmt_ok h
    have fa := ExpNode.flattenArgs_state _ _ _ _ hA
    exact (((fa.comp (StateFrame.after_addQuad _ _)).comp (StateFrame.after_makeTmp _ _)).comp
      (StateFrame.after_addQuad _ _)).comp (StateFrame.after_popQuad _)
  | .ReturnStmtNode none, c, c', h => by
    simp only [StmtNode.to3AC, Except.ok.injEq] at h
    subst h
    exact StateFrame.after_addQuad _ _
  | .ReturnStmtNode (some e), c, c', h => by
    simp only [StmtNode.to3AC] at h
    split at h
    · exact absurd h (by simp)
    · rename_i exp c1 h1
      have f1 := ExpNode.flatten_state _ _ _ _ h1
      simp only [Except.ok.injEq] at h
      subst h
      exact (f1.comp (StateFrame.after_addQuad _ _)).comp (StateFrame.after_addQuad _ _)
  | .ExitStmtNode, c, c', h => by
    simp only [StmtNode.to3AC, Except.ok.injEq] at h
    subst h
    exact StateFrame.same c
  | .VarDeclNode none, c, c', h => by
    simp [StmtNode.to3AC] at h
  | .VarDeclNode (some sym), c, c', h => by
    simp only [StmtNode.to3AC, Except.ok.injEq] at h
    subst h
    exact StateFrame.after_gatherLocal c sym
  | .FormalDeclNode none, c, c', h => by
    simp [StmtNode.to3AC] at h
  | .FormalDeclNode (some sym), c, c', h => by
    simp only [StmtNode.to3AC, Except.ok.injEq] at h
    subst h
    exact StateFrame.after_gatherFormal c sym
  | .FnDeclNode _ _ _, c, c', h => by
    simp [StmtNode.to3AC] at h
theorem StmtNode.to3ACList_state : ∀ (ss : List StmtNode) (c c' : Ctx),
    StmtNode.to3ACList ss c = .ok c' → StateFrame c c'
  | [], c, c', h => by
    simp only [StmtNode.to3ACList, Except.ok.injEq] at h
    subst h
    exact StateFrame.same c
  | s :: rest, c, c', h => by
    simp only [StmtNode.to3ACList] at h
    split at h
    · exact absurd h (by simp)
    · rename_i c1 h1
      exact (StmtNode.to3AC_state s c c1 h1).comp (StmtNode.to3ACList_state rest c1 c' h)
end

/-- After a lookup the symbol is bound to the operand that was returned. -/
theorem Ctx.lookup_getSymOpd (c : Ctx) (s : SemSymbol) :
    (c.getSymOpd s).snd.proc.symOpds.lookup s = some (c.getSymOpd s).fst := by
  cases h : c.proc.symOpds.lookup s with
  | some o => simp [Ctx.getSymOpd, Procedure.getSymOpd, h]
  | none =>
    have h2 := lookup_append_self c.proc.symOpds s (Opd.SymOpd s 8) h
    simp [Ctx.getSymOpd, Procedure.getSymOpd, h, h2]

/-- Looking up a bound symbol returns its binding and changes nothing. -/
theorem Ctx.getSymOpd_of_lookup {c : Ctx} {s : SemSymbol} {o : Opd}
    (h : c.proc.symOpds.lookup s = some o) : c.getSymOpd s = (o, c) := by
  simp [Ctx.getSymOpd, Procedure.getSymOpd, h]

/-- The operand `makeString` returns is the position of the text in the pool
after the call. -/
theorem IRProgram.makeString_fst (g : IRProgram) (t : String) :
    (g.makeString t).fst = Opd.StrOpd ((g.makeString t).snd.strings.indexOf t) 8 := by
  by_cases h : t ∈ g.strings
  · simp [IRProgram.makeString, h]
  · simp [IRProgram.makeString, h, List.indexOf_append_of_not_mem h]

theorem IRProgram.mem_makeString (g : IRProgram) (t : String) :
    t ∈ (g.makeString t).snd.strings := by
  by_cases h : t ∈ g.strings
  · simp [IRProgram.makeString, h]
  · simp [IRProgram.makeString, h]

/-- Interning a text that is already pooled returns its entry and changes
nothing. -/
theorem Ctx.makeString_of_mem {d : Ctx} {t : String} (h : t ∈ d.prog.strings) :
    d.makeString t = (Opd.StrOpd (d.prog.strings.indexOf t) 8, d) := by
  simp [Ctx.makeString, IRProgram.makeString, h]

theorem FnDeclNode.formalsTo3AC_state : ∀ (formals : List (Option SemSymbol)) (c c' : Ctx),
    FnDeclNode.formalsTo3AC formals c = .ok c' → StateFrame c c'
  | [], c, c', h => by
    simp only [FnDeclNode.formalsTo3AC, Except.ok.injEq] at h
    subst h
    exact StateFrame.same c
  | none :: rest, c, c', h => by
    simp [FnDeclNode.formalsTo3AC, StmtNode.to3AC] at h
  | some sym :: rest, c, c', h => by
    simp only [FnDeclNode.formalsTo3AC, StmtNode.to3AC] at h
    exact (StateFrame.after_gatherFormal c sym).comp
      (FnDeclNode.formalsTo3AC_state rest _ c' h)

theorem FnDeclNode.getArgQuads_state : ∀ (formals : List (Option SemSymbol)) (index : Nat)
    (c c' : Ctx), FnDeclNode.getArgQuads formals index c = .ok c' → StateFrame c c'
  | [], index, c, c', h => by
    simp only [FnDeclNode.getArgQuads, Except.ok.injEq] at h
    subst h
    exact StateFrame.same c
  | none :: rest, index, c, c', h => by
    simp [FnDeclNode.getArgQuads] at h
  | some sym :: rest, index, c, c', h => by
    simp only [FnDeclNode.getArgQuads] at h
    exact ((StateFrame.after_getSymOpd c sym).comp (StateFrame.after_addQuad _ _)).comp
      (FnDeclNode.getArgQuads_state rest (index + 1) _ c' h)

/-- A top-level declaration only extends the string pool at its end. -/
theorem DeclNode.to3AC_strings {d : DeclNode} {g g' : IRProgram} (h : d.to3AC g = .ok g') :
    ∃ ext, g'.strings = g.strings ++ ext := by
  cases d with
  | FnDeclNode symbol formals body =>
    simp only [DeclNode.to3AC] at h
    split at h
    · exact absurd h (by simp)
    · rename_i c1 h1
      have f1 := FnDeclNode.formalsTo3AC_state _ _ _ h1
      split at h
      · exact absurd h (by simp)
      · rename_i c2 h2
        have f2 := FnDeclNode.getArgQuads_state _ _ _ _ h2
        split at h
        · exact absurd h (by simp)
        · rename_i c3 h3
          have f3 := StmtNode.to3ACList_state _ _ _ h3
          simp only [Except.ok.injEq] at h
          subst h
          obtain ⟨ext, he⟩ := ((f1.comp f2).comp f3).strings
          refine ⟨ext, ?_⟩
          have : ((c3.prog.addProc c3.proc).gatherGlobal symbol).strings = c3.prog.strings := by
            simp only [IRProgram.gatherGlobal, IRProgram.addProc]
            split <;> rfl
          rw [this, he]
          rfl
  | VarDeclNode symbol =>
    cases symbol with
    | none => simp [DeclNode.to3AC] at h
    | some sym =>
      simp only [DeclNode.to3AC, Except.ok.injEq] at h
      subst h
      refine ⟨[], ?_⟩
      simp only [IRProgram.gatherGlobal, List.append_nil]
      split <;> rfl
  | FormalDeclNode symbol => simp [DeclNode.to3AC] at h

theorem ProgramNode.globalsTo3AC_strings : ∀ (decls : List DeclNode) (g g' : IRProgram),
    ProgramNode.globalsTo3AC decls g = .ok g' → ∃ ext, g'.strings = g.strings ++ ext
  | [], g, g', h => by
    simp only [ProgramNode.globalsTo3AC, Except.ok.injEq] at h
    subst h
    exact ⟨[], by simp⟩
  | d :: rest, g, g', h => by
    simp only [ProgramNode.globalsTo3AC] at h
    split at h
    · exact absurd h (by simp)
    · rename_i g1 h1
      obtain ⟨e1, he1⟩ := DeclNode.to3AC_strings h1
      obtain ⟨e2, he2⟩ := ProgramNode.globalsTo3AC_strings rest g1 g' h
      exact ⟨e1 ++ e2, by rw [he2, he1, List.append_assoc]⟩

theorem lookup_mem {α β : Type} [BEq α] [LawfulBEq α] (l : List (α × β)) (a : α) (b : β)
    (h : l.lookup a = some b) : (a, b) ∈ l := by
  induction l with
  | nil => simp [List.lookup] at h
  | cons x xs ih =>
    obtain ⟨k, v⟩ := x
    cases hk : a == k with
    | true =>
      simp only [List.lookup, hk, Option.some.injEq] at h
      have : a = k := eq_of_beq hk
      subst this; subst h
      exact List.mem_cons_self _ _
    | false =>
      simp only [List.lookup, hk] at h
      exact List.mem_cons_of_mem _ (ih h)

/-- With a well-typed cache the symbol operand of `s` is `SymOpd s 8`. -/
theorem Ctx.getSymOpd_fst_of_wf {c : Ctx} (hw : c.proc.CacheWF) (s : SemSymbol) :
    (c.getSymOpd s).fst = Opd.SymOpd s 8 := by
  cases h : c.proc.symOpds.lookup s with
  | some o =>
    have ho : o = Opd.SymOpd s 8 := hw _ (lookup_mem _ _ _ h)
    simp [Ctx.getSymOpd, Procedure.getSymOpd, h, ho]
  | none => simp [Ctx.getSymOpd, Procedure.getSymOpd, h]

/-- The first loop over the formals: all of them have a symbol, and they are
registered in order; nothing else changes. -/
theorem FnDeclNode.formalsTo3AC_spec : ∀ (formals : List (Option SemSymbol)) (c c' : Ctx),
    FnDeclNode.formalsTo3AC formals c = .ok c' →
    ∃ syms, formals = syms.map some ∧ c'.proc.formals = c.proc.formals ++ syms ∧
      c'.proc.symOpds = c.proc.symOpds ∧ c'.proc.quads = c.proc.quads
  | [], c, c', h => by
    simp only [FnDeclNode.formalsTo3AC, Except.ok.injEq] at h
    subst h
    exact ⟨[], rfl, by simp, rfl, rfl⟩
  | none :: rest, c, c', h => by
    simp [FnDeclNode.formalsTo3AC, StmtNode.to3AC] at h
  | some sym :: rest, c, c', h => by
    simp only [FnDeclNode.formalsTo3AC, StmtNode.to3AC] at h
    obtain ⟨syms, h1, h2, h3, h4⟩ := FnDeclNode.formalsTo3AC_spec rest _ c' h
    refine ⟨sym :: syms, by simp [h1], ?_, ?_, ?_⟩
    · rw [h2]; simp [Ctx.gatherFormal, Procedure.gatherFormal]
    · rw [h3]; rfl
    · rw [h4]; rfl

/-- The second loop over the formals, from a well-typed cache: it appends
the `GetArg`s and leaves each formal bound to its symbol operand. -/
theorem FnDeclNode.getArgQuads_spec : ∀ (syms : List SemSymbol) (index : Nat) (c c' : Ctx),
    c.proc.CacheWF →
    FnDeclNode.getArgQuads (syms.map some) index c = .ok c' →
      c'.proc.quads = c.proc.quads ++ getArgQuadsOf index syms ∧
      c'.proc.formals = c.proc.formals ∧
      ∀ f ∈ syms, c'.proc.symOpds.lookup f = some (Opd.SymOpd f 8)
  | [], index, c, c', _, h => by
    simp only [List.map_nil, FnDeclNode.getArgQuads, Except.ok.injEq] at h
    subst h
    simp [getArgQuadsOf]
  | f :: fs, index, c, c', hw, h => by
    simp only [List.map_cons, FnDeclNode.getArgQuads] at h
    have hw1 : ((c.getSymOpd f).snd.addQuad
        (Quad.new (.GetArgQuad index (some (c.getSymOpd f).fst)))).proc.CacheWF :=
      ((StateFrame.after_getSymOpd c f).comp (StateFrame.after_addQuad _ _)).cacheWF hw
    obtain ⟨h1, h2, h3⟩ := FnDeclNode.getArgQuads_spec fs (index + 1) _ c' hw1 h
    have hst := FnDeclNode.getArgQuads_state _ _ _ _ h
    refine ⟨?_, ?_, ?_⟩
    · rw [h1]
      simp [getArgQuadsOf, Ctx.getSymOpd_fst_of_wf hw]
    · rw [h2]
      simp only [Ctx.addQuad, Procedure.addQuad, Ctx.getSymOpd, Procedure.getSymOpd]
      split <;> rfl
    · intro g hg
      rcases List.mem_cons.mp hg with rfl | hg
      · have hl := Ctx.lookup_getSymOpd c g
        rw [Ctx.getSymOpd_fst_of_wf hw] at hl
        exact hst.cache g _ hl
      · exact h3 g hg
/-- The parts of a function declaration lowered at module scope. -/
theorem DeclNode.fnDecl_spec (symbol : SemSymbol) (formals : List (Option SemSymbol))
    (body : List StmtNode) (prog prog' : IRProgram)
    (h : (DeclNode.FnDeclNode symbol formals body).to3AC prog = .ok prog') :
    ∃ syms c2 c3 bodyQuads extra,
      formals = syms.map some ∧
      c2.proc.CacheWF ∧
      c2.proc.formals = syms ∧
      c2.proc.quads = getArgQuadsOf 1 syms ∧
      StmtNode.to3ACList body c2 = .ok c3 ∧
      c3.proc.quads = c2.proc.quads ++ bodyQuads ∧
      prog'.procs = prog.procs ++ [c3.proc] ∧
      c3.proc.quads = getArgQuadsOf 1 syms ++ bodyQuads ∧
      c3.proc.formals = syms ++ extra ∧
      ∀ f ∈ syms, c3.proc.symOpds.lookup f = some (Opd.SymOpd f 8) := by
  simp only [DeclNode.to3AC] at h
  split at h
  · exact absurd h (by simp)
  · rename_i c1 h1
    obtain ⟨syms, hs, hf1, hc1, hq1⟩ := FnDeclNode.formalsTo3AC_spec _ _ _ h1
    split at h
    · exact absurd h (by simp)
    · rename_i c2 h2
      have hw1 : c1.proc.CacheWF := by
        intro e he
        rw [hc1] at he
        simp [IRProgram.makeProc, Procedure.create] at he
      rw [hs] at h2
      obtain ⟨hq2, hf2, hl2⟩ := FnDeclNode.getArgQuads_spec syms 1 c1 c2 hw1 h2
      split at h
      · exact absurd h (by simp)
      · rename_i c3 h3
        obtain ⟨qs, f3⟩ := StmtNode.to3ACList_frame _ _ _ h3
        have s3 := StmtNode.to3ACList_state _ _ _ h3
        simp only [Except.ok.injEq] at h
        subst h
        have hq2' : c2.proc.quads = getArgQuadsOf 1 syms := by
          rw [hq2, hq1]; simp [IRProgram.makeProc, Procedure.create]
        have hf2' : c2.proc.formals = syms := by
          rw [hf2, hf1]; simp [IRProgram.makeProc, Procedure.create]
        obtain ⟨extra, hex⟩ := s3.formals
        have hw2 : c2.proc.CacheWF := (FnDeclNode.getArgQuads_state _ _ _ _ h2).cacheWF hw1
        refine ⟨syms, c2, c3, qs, extra, hs, hw2, hf2', hq2', h3, f3.quads, ?_, ?_, ?_, ?_⟩
        · have hp : c3.prog.procs = prog.procs := by
            have e1 := (FnDeclNode.formalsTo3AC_frame _ _ _ h1).procs
            have e2 : c2.prog.procs = c1.prog.procs := by
              obtain ⟨qa, fa⟩ := FnDeclNode.getArgQuads_frame _ _ _ _ h2
              exact fa.procs
            rw [f3.procs, e2, e1]; rfl
          simp only [IRProgram.gatherGlobal_procs, IRProgram.addProc, hp]
        · rw [f3.quads, hq2']
        · rw [hex, hf2']
        · intro f hf
          exact s3.cache f _ (hl2 f hf)

/-! ### Operand widths and temporaries -/

@[simp] theorem srcTmpsOf_nil : srcTmpsOf [] = [] := rfl

@[simp] theorem srcTmpsOf_cons (q : Quad) (qs : List Quad) :
    srcTmpsOf (q :: qs) = q.srcTmps ++ srcTmpsOf qs := rfl

@[simp] theorem dstTmpsOf_nil : dstTmpsOf [] = [] := rfl

@[simp] theorem dstTmpsOf_cons (q : Quad) (qs : List Quad) :
    dstTmpsOf (q :: qs) = q.dstTmps ++ dstTmpsOf qs := rfl

@[simp] theorem srcTmpsOf_append (xs ys : List Quad) :
    srcTmpsOf (xs ++ ys) = srcTmpsOf xs ++ srcTmpsOf ys := by
  induction xs with
  | nil => rfl
  | cons q qs ih => simp [ih]

@[simp] theorem dstTmpsOf_append (xs ys : List Quad) :
    dstTmpsOf (xs ++ ys) = dstTmpsOf xs ++ dstTmpsOf ys := by
  induction xs with
  | nil => rfl
  | cons q qs ih => simp [ih]

theorem WidthsOK.both {xs ys : List Quad} (hx : WidthsOK xs) (hy : WidthsOK ys) :
    WidthsOK (xs ++ ys) := by
  intro q hq
  rcases List.mem_append.mp hq with h | h
  · exact hx q h
  · exact hy q h

theorem Scoped.mono : ∀ (qs : List Quad) (av av' : List Nat),
    (∀ t ∈ av, t ∈ av') → Scoped av qs → Scoped av' qs
  | [], _, _, _, _ => trivial
  | q :: qs, av, av', hsub, ⟨h1, h2⟩ =>
    ⟨fun t ht => hsub t (h1 t ht),
      Scoped.mono qs _ _ (fun t ht => by
        rcases List.mem_append.mp ht with h | h
        · exact List.mem_append_left _ (hsub t h)
        · exact List.mem_append_right _ h) h2⟩

theorem Scoped.append_iff : ∀ (xs ys : List Quad) (av : List Nat),
    Scoped av (xs ++ ys) ↔ Scoped av xs ∧ Scoped (av ++ dstTmpsOf xs) ys
  | [], ys, av => by simp [Scoped]
  | q :: xs, ys, av => by
    show ((∀ t ∈ q.srcTmps, t ∈ av) ∧ Scoped (av ++ q.dstTmps) (xs ++ ys)) ↔
      ((∀ t ∈ q.srcTmps, t ∈ av) ∧ Scoped (av ++ q.dstTmps) xs) ∧
        Scoped (av ++ dstTmpsOf (q :: xs)) ys
    rw [Scoped.append_iff xs ys (av ++ q.dstTmps), dstTmpsOf_cons, List.append_assoc,
      and_assoc]

/-- In a scoped sequence each instruction reads only what is available or
was written before it. -/
theorem Scoped.reads_defined {av : List Nat} {pre post : List Quad} {q : Quad}
    (h : Scoped av (pre ++ q :: post)) : ∀ t ∈ q.srcTmps, t ∈ av ++ dstTmpsOf pre := by
  rw [Scoped.append_iff] at h
  exact h.2.1

/-- In a sequence scoped from nothing, whatever is read is written. -/
theorem Scoped.src_subset : ∀ (qs : List Quad) (av : List Nat), Scoped av qs →
    ∀ t ∈ srcTmpsOf qs, t ∈ av ++ dstTmpsOf qs
  | [], _, _, t, ht => by simp at ht
  | q :: qs, av, ⟨h1, h2⟩, t, ht => by
    rw [srcTmpsOf_cons, List.mem_append] at ht
    rcases ht with ht | ht
    · exact List.mem_append_left _ (h1 t ht)
    · have := Scoped.src_subset qs _ h2 t ht
      simpa [List.append_assoc] using this

theorem Scoped.of_no_reads : ∀ (qs : List Quad) (av : List Nat), srcTmpsOf qs = [] →
    Scoped av qs
  | [], _, _ => trivial
  | q :: qs, av, h => by
    rw [srcTmpsOf_cons, List.append_eq_nil] at h
    exact ⟨by simp [h.1], Scoped.of_no_reads qs _ h.2⟩

theorem OpdFrame.empty {lo hi : Nat} (h : lo ≤ hi) : OpdFrame lo hi [] where
  le := h
  widths := by intro q hq; simp at hq
  inScope := trivial
  dst_lo := by simp
  dst_hi := by simp
  nodup := by simp

theorem OpdFrame.weaken {lo mid hi : Nat} {qs : List Quad} (f : OpdFrame lo mid qs)
    (h : mid ≤ hi) : OpdFrame lo hi qs where
  le := le_trans f.le h
  widths := f.widths
  inScope := f.inScope
  dst_lo := f.dst_lo
  dst_hi := fun t ht => lt_of_lt_of_le (f.dst_hi t ht) h
  nodup := f.nodup

theorem OpdFrame.concat {lo mid hi : Nat} {q1 q2 : List Quad}
    (f1 : OpdFrame lo mid q1) (f2 : OpdFrame mid hi q2) : OpdFrame lo hi (q1 ++ q2) where
  le := le_trans f1.le f2.le
  widths := f1.widths.both f2.widths
  inScope := by
    rw [Scoped.append_iff]
    exact ⟨f1.inScope, Scoped.mono _ _ _ (by simp) f2.inScope⟩
  dst_lo := by
    intro t ht
    rw [dstTmpsOf_append, List.mem_append] at ht
    rcases ht with ht | ht
    · exact f1.dst_lo t ht
    · exact le_trans f1.le (f2.dst_lo t ht)
  dst_hi := by
    intro t ht
    rw [dstTmpsOf_append, List.mem_append] at ht
    rcases ht with ht | ht
    · exact lt_of_lt_of_le (f1.dst_hi t ht) f2.le
    · exact f2.dst_hi t ht
  nodup := by
    rw [dstTmpsOf_append, List.nodup_append]
    refine ⟨f1.nodup, f2.nodup, ?_⟩
    intro t h1 h2
    have := f1.dst_hi t h1
    have := f2.dst_lo t h2
    omega

/-- Appending one instruction that reads only temporaries written before it
and writes only temporaries numbered from `mid` up to below `hi`. -/
theorem OpdFrame.snoc {lo mid hi : Nat} {qs : List Quad} (f : OpdFrame lo mid qs) (q : Quad)
    (hle : mid ≤ hi) (hw : ∀ x, some x ∈ q.opds → x.width = 8)
    (hs : ∀ t ∈ q.srcTmps, t ∈ dstTmpsOf qs)
    (hd : ∀ t ∈ q.dstTmps, mid ≤ t ∧ t < hi) (hn : q.dstTmps.Nodup) :
    OpdFrame lo hi (qs ++ [q]) where
  le := le_trans f.le hle
  widths := by
    intro p hp
    rcases List.mem_append.mp hp with h | h
    · exact f.widths p h
    · rw [List.mem_singleton] at h; subst h; exact hw
  inScope := by
    rw [Scoped.append_iff]
    exact ⟨f.inScope, by simpa [Scoped] using hs⟩
  dst_lo := by
    intro t ht
    simp only [dstTmpsOf_append, dstTmpsOf_cons, dstTmpsOf_nil, List.append_nil,
      List.mem_append] at ht
    rcases ht with ht | ht
    · exact f.dst_lo t ht
    · exact le_trans f.le (hd t ht).1
  dst_hi := by
    intro t ht
    simp only [dstTmpsOf_append, dstTmpsOf_cons, dstTmpsOf_nil, List.append_nil,
      List.mem_append] at ht
    rcases ht with ht | ht
    · exact lt_of_lt_of_le (f.dst_hi t ht) hle
    · exact (hd t ht).2
  nodup := by
    simp only [dstTmpsOf_append, dstTmpsOf_cons, dstTmpsOf_nil, List.append_nil]
    rw [List.nodup_append]
    refine ⟨f.nodup, hn, ?_⟩
    intro t h1 h2
    have := f.dst_hi t h1
    have := (hd t h2).1
    omega

/-- Putting an instruction without operands in front. -/
theorem OpdFrame.cons_plain {lo hi : Nat} {qs : List Quad} (f : OpdFrame lo hi qs) (q : Quad)
    (ho : q.opds = []) (hs : q.srcTmps = []) (hd : q.dstTmps = []) :
    OpdFrame lo hi (q :: qs) where
  le := f.le
  widths := by
    intro p hp
    rcases List.mem_cons.mp hp with h | h
    · subst h; intro x hx; rw [ho] at hx; simp at hx
    · exact f.widths p h
  inScope := by
    refine ⟨by simp [hs], ?_⟩
    simpa [hd] using f.inScope
  dst_lo := by simpa [hd] using f.dst_lo
  dst_hi := by simpa [hd] using f.dst_hi
  nodup := by simpa [hd] using f.nodup

theorem Quad.opds_addLabel (q : Quad) (l : Label) : (q.addLabel l).opds = q.opds := rfl

theorem Quad.srcTmps_addLabel (q : Quad) (l : Label) : (q.addLabel l).srcTmps = q.srcTmps := rfl

theorem Quad.dstTmps_addLabel (q : Quad) (l : Label) : (q.addLabel l).dstTmps = q.dstTmps := rfl

/-- Appending an instruction that writes no temporary. -/
theorem OpdFrame.snoc_use {lo mid : Nat} {qs : List Quad} (f : OpdFrame lo mid qs) (q : Quad)
    (hw : ∀ x, some x ∈ q.opds → x.width = 8)
    (hs : ∀ t ∈ q.srcTmps, t ∈ dstTmpsOf qs) (hd : q.dstTmps = []) :
    OpdFrame lo mid (qs ++ [q]) :=
  f.snoc q (le_refl _) hw hs (by simp [hd]) (by simp [hd])

/-- Appending an instruction that writes the temporary numbered `mid`. -/
theorem OpdFrame.snoc_def {lo mid : Nat} {qs : List Quad} (f : OpdFrame lo mid qs) (q : Quad)
    (hw : ∀ x, some x ∈ q.opds → x.width = 8)
    (hs : ∀ t ∈ q.srcTmps, t ∈ dstTmpsOf qs) (hd : q.dstTmps = [mid]) :
    OpdFrame lo (mid + 1) (qs ++ [q]) :=
  f.snoc q (Nat.le_succ _) hw hs (by simp [hd]) (by simp [hd])

/-- Appending an instruction without operands. -/
theorem OpdFrame.snoc_plain {lo mid : Nat} {qs : List Quad} (f : OpdFrame lo mid qs) (q : Quad)
    (ho : q.opds = []) (hs : q.srcTmps = []) (hd : q.dstTmps = []) :
    OpdFrame lo mid (qs ++ [q]) :=
  f.snoc_use q (by simp [ho]) (by simp [hs]) hd

theorem Opd.tmps_subset_left {r : Option Opd} {xs ys : List Quad}
    (h : ∀ t ∈ Opd.tmps r, t ∈ dstTmpsOf xs) : ∀ t ∈ Opd.tmps r, t ∈ dstTmpsOf (xs ++ ys) := by
  intro t ht
  rw [dstTmpsOf_append]
  exact List.mem_append_left _ (h t ht)

theorem Opd.tmps_subset_right {r : Option Opd} {xs ys : List Quad}
    (h : ∀ t ∈ Opd.tmps r, t ∈ dstTmpsOf ys) : ∀ t ∈ Opd.tmps r, t ∈ dstTmpsOf (xs ++ ys) := by
  intro t ht
  rw [dstTmpsOf_append]
  exact List.mem_append_right _ (h t ht)

/-- A location flattens to a symbol operand of width 8, emits nothing and
allocates nothing. -/
theorem LocNode.flatten_sym {l : LocNode} {c c' : Ctx} {r : Option Opd}
    (hw : c.proc.CacheWF) (h : l.flatten c = .ok (r, c')) :
    c'.proc.quads = c.proc.quads ∧ c'.proc.maxTmp = c.proc.maxTmp ∧
      ∃ s, r = some (Opd.SymOpd s 8) := by
  cases l with
  | IDNode symbol =>
    cases symbol with
    | none => simp [LocNode.flatten, LocNode.toExp, ExpNode.flatten] at h
    | some s =>
      simp only [LocNode.flatten, LocNode.toExp, ExpNode.flatten, Except.ok.injEq,
        Prod.mk.injEq] at h
      obtain ⟨rfl, rfl⟩ := h
      exact ⟨by simp, by simp, s, by rw [Ctx.getSymOpd_fst_of_wf hw]⟩

mutual
theorem ExpNode.flatten_opds : ∀ (e : ExpNode) (c : Ctx) (r : Option Opd) (c' : Ctx),
    c.proc.CacheWF → e.flatten c = .ok (r, c') →
    ∃ qs, c'.proc.quads = c.proc.quads ++ qs ∧
      OpdFrame c.proc.maxTmp c'.proc.maxTmp qs ∧
      (∀ x, r = some x → x.width = 8) ∧ (∀ t ∈ Opd.tmps r, t ∈ dstTmpsOf qs)
  | .IntLitNode _, c, r, c', _, h => by
    simp only [ExpNode.flatten, Except.ok.injEq, Prod.mk.injEq] at h
    obtain ⟨rfl, rfl⟩ := h
    exact ⟨[], by simp, OpdFrame.empty (le_refl _), by intro x hx; cases hx; rfl,
      by simp [Opd.tmps]⟩
  | .StrLitNode t, c, r, c', _, h => by
    simp only [ExpNode.flatten, Except.ok.injEq, Prod.mk.injEq] at h
    obtain ⟨rfl, rfl⟩ := h
    have hf : (c.makeString t).fst = Opd.StrOpd ((c.makeString t).snd.prog.strings.indexOf t) 8 :=
      IRProgram.makeString_fst c.prog t
    refine ⟨[], by simp [Ctx.makeString], OpdFrame.empty (le_refl _), ?_, ?_⟩
    · intro x hx
      rw [hf] at hx
      cases hx; rfl
    · rw [hf]; simp [Opd.tmps]
  | .TrueNode, c, r, c', _, h => by
    simp only [ExpNode.flatten, Except.ok.injEq, Prod.mk.injEq] at h
    obtain ⟨rfl, rfl⟩ := h
    exact ⟨[], by simp, OpdFrame.empty (le_refl _), by intro x hx; cases hx; rfl,
      by simp [Opd.tmps]⟩
  | .FalseNode, c, r, c', _, h => by
    simp only [ExpNode.flatten, Except.ok.injEq, Prod.mk.injEq] at h
    obtain ⟨rfl, rfl⟩ := h
    exact ⟨[], by simp, OpdFrame.empty (le_refl _), by intro x hx; cases hx; rfl,
      by simp [Opd.tmps]⟩
  | .IDNode none, c, r, c', _, h => by
    simp [ExpNode.flatten] at h
  | .IDNode (some s), c, r, c', hw, h => by
    simp only [ExpNode.flatten, Except.ok.injEq, Prod.mk.injEq] at h
    obtain ⟨rfl, rfl⟩ := h
    refine ⟨[], by simp, ?_, ?_, ?_⟩
    · rw [Ctx.getSymOpd_maxTmp]; exact OpdFrame.empty (le_refl _)
    · intro x hx
      rw [Ctx.getSymOpd_fst_of_wf hw] at hx
      cases hx; rfl
    · rw [Ctx.getSymOpd_fst_of_wf hw]; simp [Opd.tmps]
  | .CallExpNode s args, c, r, c', hw, h => by
    cases hA : ExpNode.flattenArgs args 1 c with
    | error e =>
      rw [ExpNode.flatten_call_error s hA] at h
      exact absurd h (by simp)
    | ok cA =>
      obtain ⟨qa, hq, fa⟩ := ExpNode.flattenArgs_opds args 1 c cA hw hA
      have fcall := fa.snoc_plain (Quad.new (.CallQuad s)) rfl rfl rfl
      rw [ExpNode.flatten_call s hA] at h
      split at h
      · simp only [Except.ok.injEq, Prod.mk.injEq] at h
        obtain ⟨rfl, rfl⟩ := h
        exact ⟨_, by simp [hq], fcall, by simp, by simp [Opd.tmps]⟩
      · simp only [Except.ok.injEq, Prod.mk.injEq] at h
        obtain ⟨rfl, rfl⟩ := h
        refine ⟨qa ++ [Quad.new (.CallQuad s)] ++
          [Quad.new (.GetRetQuad (some (Opd.AuxOpd cA.proc.maxTmp 8)))], by simp [hq], ?_, ?_, ?_⟩
        · exact fcall.snoc_def _ (by simp [Quad.opds, Quad.new, Opd.width])
            (by simp [Quad.srcTmps, Quad.new]) (by simp [Quad.dstTmps, Quad.new, Opd.tmps])
        · intro x hx; cases hx; rfl
        · simp [Opd.tmps, Quad.dstTmps, Quad.new]
  | .UnaryExpNode k e, c, r, c', hw, h => by
    simp only [ExpNode.flatten] at h
    split at h
    · exact absurd h (by simp)
    · rename_i src c1 h1
      obtain ⟨q1, hq1, f1, w1, t1⟩ := ExpNode.flatten_opds e c src c1 hw h1
      simp only [Except.ok.injEq, Prod.mk.injEq] at h
      obtain ⟨rfl, rfl⟩ := h
      refine ⟨q1 ++ [Quad.new (.UnaryOpQuad (some (Opd.AuxOpd c1.proc.maxTmp 8)) k.opcode src)],
        by simp [hq1], ?_, ?_, ?_⟩
      · refine f1.snoc_def _ ?_ ?_ (by simp [Quad.dstTmps, Quad.new, Opd.tmps])
        · intro x hx
          simp only [Quad.opds, Quad.new, List.mem_cons, Option.some.injEq, List.mem_nil_iff,
            or_false] at hx
          rcases hx with hx | hx
          · subst hx; rfl
          · exact w1 x hx.symm
        · simpa [Quad.srcTmps, Quad.new] using t1
      · intro x hx; cases hx; rfl
      · simp [Opd.tmps, Quad.dstTmps, Quad.new]
  | .BinaryExpNode k e1 e2, c, r, c', hw, h => by
    simp only [ExpNode.flatten] at h
    split at h
    · exact absurd h (by simp)
    · rename_i src1 c1 h1
      obtain ⟨q1, hq1, f1, w1, t1⟩ := ExpNode.flatten_opds e1 c src1 c1 hw h1
      have hw1 := (ExpNode.flatten_state _ _ _ _ h1).cacheWF hw
      split at h
      · exact absurd h (by simp)
      · rename_i src2 c2 h2
        obtain ⟨q2, hq2, f2, w2, t2⟩ := ExpNode.flatten_opds e2 c1 src2 c2 hw1 h2
        simp only [Except.ok.injEq, Prod.mk.injEq] at h
        obtain ⟨rfl, rfl⟩ := h
        refine ⟨q1 ++ q2 ++
          [Quad.new (.BinOpQuad (some (Opd.AuxOpd c2.proc.maxTmp 8)) k.opcode src1 src2)],
          by simp [hq2, hq1], ?_, ?_, ?_⟩
        · refine (f1.concat f2).snoc_def _ ?_ ?_ (by simp [Quad.dstTmps, Quad.new, Opd.tmps])
          · intro x hx
            simp only [Quad.opds, Quad.new, List.mem_cons, Option.some.injEq,
              List.mem_nil_iff, or_false] at hx
            rcases hx with hx | hx | hx
            · subst hx; rfl
            · exact w1 x hx.symm
            · exact w2 x hx.symm
          · intro t ht
            simp only [Quad.srcTmps, Quad.new, List.mem_append] at ht
            rcases ht with ht | ht
            · exact Opd.tmps_subset_left t1 t ht
            · exact Opd.tmps_subset_right t2 t ht
        · intro x hx; cases hx; rfl
        · simp [Opd.tmps, Quad.dstTmps, Quad.new]
theorem ExpNode.flattenArgs_opds : ∀ (args : List ExpNode) (index : Nat) (c c' : Ctx),
    c.proc.CacheWF → ExpNode.flattenArgs args index c = .ok c' →
    ∃ qs, c'.proc.quads = c.proc.quads ++ qs ∧ OpdFrame c.proc.maxTmp c'.proc.maxTmp qs
  | [], index, c, c', _, h => by
    simp only [ExpNode.flattenArgs, Except.ok.injEq] at h
    subst h
    exact ⟨[], by simp, OpdFrame.empty (le_refl _)⟩
  | a :: rest, index, c, c', hw, h => by
    simp only [ExpNode.flattenArgs] at h
    split at h
    · exact absurd h (by simp)
    · rename_i exp c1 h1
      obtain ⟨q1, hq1, f1, w1, t1⟩ := ExpNode.flatten_opds a c exp c1 hw h1
      have hw1 := (ExpNode.flatten_state _ _ _ _ h1).cacheWF hw
      have hw2 := (StateFrame.after_addQuad c1 (Quad.new (.SetArgQuad index exp))).cacheWF hw1
      obtain ⟨q2, hq2, f2⟩ := ExpNode.flattenArgs_opds rest (index + 1) _ c' hw2 h
      refine ⟨q1 ++ [Quad.new (.SetArgQuad index exp)] ++ q2, by simp [hq2, hq1], ?_⟩
      refine OpdFrame.concat (f1.snoc_use _ ?_ ?_ rfl) f2
      · intro x hx
        simp only [Quad.opds, Quad.new, List.mem_singleton, Option.some.injEq] at hx
        exact w1 x hx.symm
      · simpa [Quad.srcTmps, Quad.new] using t1
end

/-- The operand facts of an instruction that uses the result of an
expression as its only operand. -/
theorem OpdFrame.snoc_result {lo mid : Nat} {qs : List Quad} (f : OpdFrame lo mid qs)
    (q : Quad) (r : Option Opd) (ho : q.opds = [r]) (hs : q.srcTmps = Opd.tmps r)
    (hd : q.dstTmps = []) (w : ∀ x, r = some x → x.width = 8)
    (t : ∀ n ∈ Opd.tmps r, n ∈ dstTmpsOf qs) : OpdFrame lo mid (qs ++ [q]) := by
  refine f.snoc_use q ?_ ?_ hd
  · intro x hx
    rw [ho, List.mem_singleton] at hx
    exact w x hx.symm
  · rw [hs]; exact t

mutual
theorem StmtNode.to3AC_opds : ∀ (s : StmtNode) (c c' : Ctx),
    c.proc.CacheWF → s.to3AC c = .ok c' →
    ∃ qs, c'.proc.quads = c.proc.quads ++ qs ∧ OpdFrame c.proc.maxTmp c'.proc.maxTmp qs
  | .AssignStmtNode dst src, c, c', hw, h => by
    simp only [StmtNode.to3AC] at h
    split at h
    · exact absurd h (by simp)
    · rename_i s c1 h1
      obtain ⟨q1, hq1, f1, w1, t1⟩ := ExpNode.flatten_opds _ _ _ _ hw h1
      have hw1 := (ExpNode.flatten_state _ _ _ _ h1).cacheWF hw
      split at h
      · exact absurd h (by simp)
      · rename_i dd c2 h2
        obtain ⟨d, rfl, rfl⟩ := AssignStmtNode.emit_ok h
        obtain ⟨hq2, hm2, sy, hsy⟩ := LocNode.flatten_sym hw1 h2
        simp only [Option.some.injEq] at hsy
        subst hsy
        refine ⟨q1 ++ [Quad.new (.AssignQuad (some (Opd.SymOpd sy 8)) s)],
          by simp [hq2, hq1], ?_⟩
        rw [Ctx.addQuad_maxTmp, hm2]
        refine f1.snoc_use _ ?_ ?_ rfl
        · intro x hx
          simp only [Quad.opds, Quad.new, List.mem_cons, Option.some.injEq, List.mem_nil_iff,
            or_false] at hx
          rcases hx with hx | hx
          · subst hx; rfl
          · exact w1 x hx.symm
        · simpa [Quad.srcTmps, Quad.new] using t1
  | .PostIncStmtNode loc, c, c', hw, h => by
    simp only [StmtNode.to3AC] at h
    split at h
    · exact absurd h (by simp)
    · rename_i d c1 h1
      obtain ⟨hq1, hm1, sy, hsy⟩ := LocNode.flatten_sym hw h1
      simp only [Except.ok.injEq] at h
      subst h; subst hsy
      refine ⟨[] ++ [Quad.new (.BinOpQuad (some (Opd.SymOpd sy 8)) .ADD64
        (some (Opd.SymOpd sy 8)) (some (Opd.LitOpd "1" 8)))], by simp [hq1], ?_⟩
      rw [Ctx.addQuad_maxTmp, hm1]
      refine (OpdFrame.empty (le_refl _)).snoc_use _ ?_ (by simp [Quad.srcTmps, Quad.new, Opd.tmps])
        rfl
      intro x hx
      simp only [Quad.opds, Quad.new, List.mem_cons, Option.some.injEq, List.mem_nil_iff,
        or_false] at hx
      rcases hx with hx | hx | hx <;> (subst hx; rfl)
  | .PostDecStmtNode loc, c, c', hw, h => by
    simp only [StmtNode.to3AC] at h
    split at h
    · exact absurd h (by simp)
    · rename_i d c1 h1
      obtain ⟨hq1, hm1, sy, hsy⟩ := LocNode.flatten_sym hw h1
      simp only [Except.ok.injEq] at h
      subst h; subst hsy
      refine ⟨[] ++ [Quad.new (.BinOpQuad (some (Opd.SymOpd sy 8)) .SUB64
        (some (Opd.SymOpd sy 8)) (some (Opd.LitOpd "1" 8)))], by simp [hq1], ?_⟩
      rw [Ctx.addQuad_maxTmp, hm1]
      refine (OpdFrame.empty (le_refl _)).snoc_use _ ?_ (by simp [Quad.srcTmps, Quad.new, Opd.tmps])
        rfl
      intro x hx
      simp only [Quad.opds, Quad.new, List.mem_cons, Option.some.injEq, List.mem_nil_iff,
        or_false] at hx
      rcases hx with hx | hx | hx <;> (subst hx; rfl)
  | .GiveStmtNode src, c, c', hw, h => by
    simp only [StmtNode.to3AC] at h
    split at h
    · exact absurd h (by simp)
    · rename_i s c1 h1
      obtain ⟨q1, hq1, f1, w1, t1⟩ := ExpNode.flatten_opds _ _ _ _ hw h1
      simp only [Except.ok.injEq] at h
      subst h
      exact ⟨q1 ++ [Quad.new (.WriteQuad s)], by simp [hq1],
        f1.snoc_result _ s (by rfl) (by rfl) (by rfl) w1 t1⟩
  | .TakeStmtNode dst, c, c', hw, h => by
    simp only [StmtNode.to3AC] at h
    split at h
    · exact absurd h (by simp)
    · rename_i d c1 h1
      obtain ⟨hq1, hm1, sy, hsy⟩ := LocNode.flatten_sym hw h1
      simp only [Except.ok.injEq] at h
      subst h; subst hsy
      refine ⟨[] ++ [Quad.new (.ReadQuad (some (Opd.SymOpd sy 8)))], by simp [hq1], ?_⟩
      rw [Ctx.addQuad_maxTmp, hm1]
      refine (OpdFrame.empty (le_refl _)).snoc_use _ ?_ (by simp [Quad.srcTmps, Quad.new]) rfl
      intro x hx
      simp only [Quad.opds, Quad.new, List.mem_singleton, Option.some.injEq] at hx
      subst hx; rfl
  | .IfStmtNode cond body, c, c', hw, h => by
    simp only [StmtNode.to3AC] at h
    split at h
    · exact absurd h (by simp)
    · rename_i exp c1 h1
      obtain ⟨q1, hq1, f1, w1, t1⟩ := ExpNode.flatten_opds _ _ _ _ hw h1
      have hw1 := (ExpNode.flatten_state _ _ _ _ h1).cacheWF hw
      split at h
      · exact absurd h (by simp)
      · rename_i c3 h3
        obtain ⟨qb, hqb, fb⟩ := StmtNode.to3ACList_opds body _ c3
          (((StateFrame.after_makeLabel c1).comp (StateFrame.after_addQuad _ _)).cacheWF hw1) h3
        simp only [Except.ok.injEq] at h
        subst h
        simp only [Ctx.addQuad_maxTmp, Ctx.makeLabel_maxTmp, Ctx.addQuad_quads,
          Ctx.makeLabel_quads] at fb hqb
        refine ⟨q1 ++ [Quad.new (.IfzQuad exp c1.makeLabel.fst)] ++ qb ++
          [(Quad.new .NopQuad).addLabel c1.makeLabel.fst], by simp [hqb, hq1], ?_⟩
        rw [Ctx.addQuad_maxTmp]
        exact ((f1.snoc_result _ exp (by rfl) (by rfl) (by rfl) w1 t1).concat fb).snoc_plain _ (by rfl) (by rfl) (by rfl)
  | .IfElseStmtNode cond bt bf, c, c', hw, h => by
    simp only [StmtNode.to3AC] at h
    split at h
    · exact absurd h (by simp)
    · rename_i exp c1 h1
      obtain ⟨q1, hq1, f1, w1, t1⟩ := ExpNode.flatten_opds _ _ _ _ hw h1
      have hw1 := (ExpNode.flatten_state _ _ _ _ h1).cacheWF hw
      split at h
      · exact absurd h (by simp)
      · rename_i c3 h3
        obtain ⟨qt, hqt, ft⟩ := StmtNode.to3ACList_opds bt _ c3
          ((((StateFrame.after_makeLabel c1).comp (StateFrame.after_makeLabel _)).comp
            (StateFrame.after_addQuad _ _)).cacheWF hw1) h3
        have hw3 := (StmtNode.to3ACList_state _ _ _ h3).cacheWF
          ((((StateFrame.after_makeLabel c1).comp (StateFrame.after_makeLabel _)).comp
            (StateFrame.after_addQuad _ _)).cacheWF hw1)
        split at h
        · exact absurd h (by simp)
        · rename_i c6 h6
          obtain ⟨qf, hqf, ff⟩ := StmtNode.to3ACList_opds bf _ c6
            (((StateFrame.after_addQuad c3 _).comp (StateFrame.after_addQuad _ _)).cacheWF hw3) h6
          simp only [Except.ok.injEq] at h
          subst h
          simp only [Ctx.addQuad_maxTmp, Ctx.makeLabel_maxTmp, Ctx.addQuad_quads,
            Ctx.makeLabel_quads] at ft hqt ff hqf
          refine ⟨q1 ++ [Quad.new (.IfzQuad exp c1.makeLabel.fst)] ++ qt ++
            [Quad.new (.GotoQuad c1.makeLabel.snd.makeLabel.fst)] ++
            [(Quad.new .NopQuad).addLabel c1.makeLabel.fst] ++ qf ++
            [(Quad.new .NopQuad).addLabel c1.makeLabel.snd.makeLabel.fst],
            by simp [hqf, hqt, hq1], ?_⟩
          rw [Ctx.addQuad_maxTmp]
          exact ((((((f1.snoc_result _ exp (by rfl) (by rfl) (by rfl) w1 t1).concat ft).snoc_plain _
            (by rfl) (by rfl) (by rfl)).snoc_plain _ (by rfl) (by rfl) (by rfl)).concat ff).snoc_plain _ (by rfl) (by rfl) (by rfl))
  | .WhileStmtNode cond body, c, c', hw, h => by
    simp only [StmtNode.to3AC] at h
    split at h
    · exact absurd h (by simp)
    · rename_i exp c2 h2
      have hw1 := (((StateFrame.after_makeLabel c).comp (StateFrame.after_makeLabel _)).comp
        (StateFrame.after_addQuad _ ((Quad.new .NopQuad).addLabel c.makeLabel.fst))).cacheWF hw
      obtain ⟨q1, hq1, f1, w1, t1⟩ := ExpNode.flatten_opds _ _ _ _ hw1 h2
      have hw2 := (ExpNode.flatten_state _ _ _ _ h2).cacheWF hw1
      split at h
      · exact absurd h (by simp)
      · rename_i c4 h4
        obtain ⟨qb, hqb, fb⟩ := StmtNode.to3ACList_opds body _ c4
          ((StateFrame.after_addQuad c2 _).cacheWF hw2) h4
        simp only [Except.ok.injEq] at h
        subst h
        simp only [Ctx.addQuad_maxTmp, Ctx.makeLabel_maxTmp, Ctx.addQuad_quads,
          Ctx.makeLabel_quads] at f1 hq1 fb hqb
        refine ⟨[] ++ [(Quad.new .NopQuad).addLabel c.makeLabel.fst] ++ q1 ++
          [Quad.new (.IfzQuad exp c.makeLabel.snd.makeLabel.fst)] ++ qb ++
          [Quad.new (.GotoQuad c.makeLabel.fst)] ++
          [(Quad.new .NopQuad).addLabel c.makeLabel.snd.makeLabel.fst],
          by simp [hqb, hq1], ?_⟩
        simp only [Ctx.addQuad_maxTmp]
        have f0 : OpdFrame c.proc.maxTmp c.proc.maxTmp
            ([] ++ [(Quad.new .NopQuad).addLabel c.makeLabel.fst]) :=
          (OpdFrame.empty (le_refl _)).snoc_plain _ (by rfl) (by rfl) (by rfl)
        refine ((((f0.concat f1).snoc_result _ exp (by rfl) (by rfl) (by rfl) w1 ?_).concat fb).snoc_plain _
          (by rfl) (by rfl) (by rfl)).snoc_plain _ (by rfl) (by rfl) (by rfl)
        exact Opd.tmps_subset_right t1
  | .CallStmtNode callee args, c, c', hw, h => by
    obtain ⟨cA, hA, -, rfl⟩ := StmtNode.callStmt_ok h
    obtain ⟨qa, hq, fa⟩ := ExpNode.flattenArgs_opds args 1 c cA hw hA
    refine ⟨qa ++ [Quad.new (.CallQuad callee)], by simp [hq], ?_⟩
    simp only [Ctx.popQuad_maxTmp, Ctx.addQuad_maxTmp, Ctx.makeTmp_maxTmp]
    exact (fa.snoc_plain _ (by rfl) (by rfl) (by rfl)).weaken (Nat.le_succ _)
  | .ReturnStmtNode none, c, c', _, h => by
    simp only [StmtNode.to3AC, Except.ok.injEq] at h
    subst h
    exact ⟨[] ++ [Quad.new (.GotoQuad c.getLeaveLabel)], by simp,
      (OpdFrame.empty (le_refl _)).snoc_plain _ (by rfl) (by rfl) (by rfl)⟩
  | .ReturnStmtNode (some e), c, c', hw, h => by
    simp only [StmtNode.to3AC] at h
    split at h
    · exact absurd h (by simp)
    · rename_i exp c1 h1
      obtain ⟨q1, hq1, f1, w1, t1⟩ := ExpNode.flatten_opds _ _ _ _ hw h1
      simp only [Except.ok.injEq] at h
      subst h
      exact ⟨q1 ++ [Quad.new (.SetRetQuad exp)] ++
        [Quad.new (.GotoQuad (c1.addQuad (Quad.new (.SetRetQuad exp))).getLeaveLabel)],
        by simp [hq1], (f1.snoc_result _ exp (by rfl) (by rfl) (by rfl) w1 t1).snoc_plain _ (by rfl) (by rfl) (by rfl)⟩
  | .ExitStmtNode, c, c', _, h => by
    simp only [StmtNode.to3AC, Except.ok.injEq] at h
    subst h
    exact ⟨[], by simp, OpdFrame.empty (le_refl _)⟩
  | .VarDeclNode none, c, c', _, h => by
    simp [StmtNode.to3AC] at h
  | .VarDeclNode (some sym), c, c', _, h => by
    simp only [StmtNode.to3AC, Except.ok.injEq] at h
    subst h
    exact ⟨[], by simp [Ctx.gatherLocal, Procedure.gatherLocal], OpdFrame.empty (le_refl _)⟩
  | .FormalDeclNode none, c, c', _, h => by
    simp [StmtNode.to3AC] at h
  | .FormalDeclNode (some sym), c, c', _, h => by
    simp only [StmtNode.to3AC, Except.ok.injEq] at h
    subst h
    exact ⟨[], by simp [Ctx.gatherFormal, Procedure.gatherFormal], OpdFrame.empty (le_refl _)⟩
  | .FnDeclNode _ _ _, c, c', _, h => by
    simp [StmtNode.to3AC] at h
theorem StmtNode.to3ACList_opds : ∀ (ss : List StmtNode) (c c' : Ctx),
    c.proc.CacheWF → StmtNode.to3ACList ss c = .ok c' →
    ∃ qs, c'.proc.quads = c.proc.quads ++ qs ∧ OpdFrame c.proc.maxTmp c'.proc.maxTmp qs
  | [], c, c', _, h => by
    simp only [StmtNode.to3ACList, Except.ok.injEq] at h
    subst h
    exact ⟨[], by simp, OpdFrame.empty (le_refl _)⟩
  | s :: rest, c, c', hw, h => by
    simp only [StmtNode.to3ACList] at h
    split at h
    · exact absurd h (by simp)
    · rename_i c1 h1
      obtain ⟨q1, hq1, f1⟩ := StmtNode.to3AC_opds s c c1 hw h1
      have hw1 := (StmtNode.to3AC_state _ _ _ h1).cacheWF hw
      obtain ⟨q2, hq2, f2⟩ := StmtNode.to3ACList_opds rest c1 c' hw1 h
      exact ⟨q1 ++ q2, by simp [hq2, hq1], f1.concat f2⟩
end

theorem TmpsDefinedBeforeUse.of_scoped {qs : List Quad} (hs : Scoped [] qs)
    (hn : (dstTmpsOf qs).Nodup) : TmpsDefinedBeforeUse qs := by
  intro pre q post he t ht
  subst he
  have h1 : t ∈ dstTmpsOf pre := by simpa using Scoped.reads_defined hs t ht
  refine ⟨h1, List.count_eq_one_of_mem hn ?_⟩
  rw [dstTmpsOf_append]
  exact List.mem_append_left _ h1

theorem getArgQuadsOf_plain : ∀ (syms : List SemSymbol) (index : Nat),
    srcTmpsOf (getArgQuadsOf index syms) = [] ∧ dstTmpsOf (getArgQuadsOf index syms) = [] ∧
      WidthsOK (getArgQuadsOf index syms)
  | [], _ => ⟨rfl, rfl, by intro q hq; simp [getArgQuadsOf] at hq⟩
  | f :: fs, index => by
    obtain ⟨h1, h2, h3⟩ := getArgQuadsOf_plain fs (index + 1)
    refine ⟨by simp [getArgQuadsOf, h1, Quad.srcTmps, Quad.new],
      by simp [getArgQuadsOf, h2, Quad.dstTmps, Quad.new, Opd.tmps], ?_⟩
    intro q hq
    simp only [getArgQuadsOf, List.mem_cons] at hq
    rcases hq with hq | hq
    · subst hq
      intro x hx
      simp only [Quad.opds, Quad.new, List.mem_singleton, Option.some.injEq] at hx
      subst hx; rfl
    · exact h3 q hq

/-- Statements lowered into a sequence that is scoped and whose temporaries
lie below the counter keep it so. -/
theorem StmtNode.to3ACList_scoped {stmts : List StmtNode} {c c' : Ctx} (hw : c.proc.CacheWF)
    (hs : Scoped [] c.proc.quads) (hn : (dstTmpsOf c.proc.quads).Nodup)
    (hb : ∀ t ∈ dstTmpsOf c.proc.quads, t < c.proc.maxTmp)
    (h : StmtNode.to3ACList stmts c = .ok c') :
    Scoped [] c'.proc.quads ∧ (dstTmpsOf c'.proc.quads).Nodup ∧
      (∀ t ∈ dstTmpsOf c'.proc.quads, t < c'.proc.maxTmp) ∧ WidthsOK
        (c'.proc.quads.drop c.proc.quads.length) := by
  obtain ⟨qs, hq, f⟩ := StmtNode.to3ACList_opds stmts c c' hw h
  refine ⟨?_, ?_, ?_, ?_⟩
  · rw [hq, Scoped.append_iff]
    exact ⟨hs, Scoped.mono _ _ _ (by simp) f.inScope⟩
  · rw [hq, dstTmpsOf_append, List.nodup_append]
    refine ⟨hn, f.nodup, ?_⟩
    intro t h1 h2
    have := hb t h1
    have := f.dst_lo t h2
    omega
  · intro t ht
    rw [hq, dstTmpsOf_append, List.mem_append] at ht
    rcases ht with ht | ht
    · exact lt_of_lt_of_le (hb t ht) f.le
    · exact f.dst_hi t ht
  · rw [hq, List.drop_left]
    exact f.widths

theorem StmtNode.to3ACList_append : ∀ (xs ys : List StmtNode) (c c' : Ctx),
    StmtNode.to3ACList (xs ++ ys) c = .ok c' →
    ∃ c1, StmtNode.to3ACList xs c = .ok c1 ∧ StmtNode.to3ACList ys c1 = .ok c'
  | [], ys, c, c', h => ⟨c, rfl, h⟩
  | x :: xs, ys, c, c', h => by
    simp only [List.cons_append, StmtNode.to3ACList] at h ⊢
    split at h
    · exact absurd h (by simp)
    · rename_i c0 h0
      obtain ⟨c1, h1, h2⟩ := StmtNode.to3ACList_append xs ys c0 c' h
      exact ⟨c1, by simp only [h0, h1], h2⟩

/-- The procedure a function declaration adds to the module: operands of
width 8 and temporaries defined once and before use. -/
theorem DeclNode.fnDecl_opds {symbol : SemSymbol} {formals : List (Option SemSymbol)}
    {body : List StmtNode} {prog prog' : IRProgram}
    (h : (DeclNode.FnDeclNode symbol formals body).to3AC prog = .ok prog') :
    ∃ proc, prog'.procs = prog.procs ++ [proc] ∧ WidthsOK proc.quads ∧
      TmpsDefinedBeforeUse proc.quads := by
  obtain ⟨syms, c2, c3, qs, extra, -, hw2, -, hq2, h3, -, hp, -, -, -⟩ :=
    DeclNode.fnDecl_spec symbol formals body prog prog' h
  obtain ⟨g1, g2, g3⟩ := getArgQuadsOf_plain syms 1
  obtain ⟨qb, hqb, fb⟩ := StmtNode.to3ACList_opds body c2 c3 hw2 h3
  obtain ⟨s1, s2, -, -⟩ := StmtNode.to3ACList_scoped hw2
    (by rw [hq2]; exact Scoped.of_no_reads _ _ g1) (by rw [hq2, g2]; simp)
    (by rw [hq2, g2]; simp) h3
  refine ⟨c3.proc, hp, ?_, TmpsDefinedBeforeUse.of_scoped s1 s2⟩
  rw [hqb, hq2]
  exact g3.both fb.widths

theorem ProgramNode.globalsTo3AC_widths : ∀ (decls : List DeclNode) (g g' : IRProgram),
    ProgramNode.globalsTo3AC decls g = .ok g' →
    (∀ p ∈ g.procs, WidthsOK p.quads ∧ TmpsDefinedBeforeUse p.quads) →
    ∀ p ∈ g'.procs, WidthsOK p.quads ∧ TmpsDefinedBeforeUse p.quads
  | [], g, g', h, hg => by
    simp only [ProgramNode.globalsTo3AC, Except.ok.injEq] at h
    subst h
    exact hg
  | d :: rest, g, g', h, hg => by
    simp only [ProgramNode.globalsTo3AC] at h
    split at h
    · exact absurd h (by simp)
    · rename_i g1 h1
      refine ProgramNode.globalsTo3AC_widths rest g1 g' h ?_
      cases d with
      | FnDeclNode symbol formals body =>
        obtain ⟨proc, hp, hw, ht⟩ := DeclNode.fnDecl_opds h1
        intro p hpm
        rw [hp, List.mem_append, List.mem_singleton] at hpm
        rcases hpm with hpm | hpm
        · exact hg p hpm
        · subst hpm; exact ⟨hw, ht⟩
      | VarDeclNode symbol =>
        cases symbol with
        | none => simp [DeclNode.to3AC] at h1
        | some sym =>
          simp only [DeclNode.to3AC, Except.ok.injEq] at h1
          subst h1
          simpa using hg
      | FormalDeclNode symbol => simp [DeclNode.to3AC] at h1

/-! ### Retracted temporaries -/

theorem Dropped.before {lo m hi n : Nat} {pre q post : List Quad} (f : OpdFrame lo m q)
    (d : Dropped m hi (pre ++ q) post n) : Dropped lo hi pre post n := by
  obtain ⟨d1, d2, d3⟩ := d
  refine ⟨le_trans f.le d1, d2, fun hn => d3 ?_⟩
  rw [dstTmpsOf_append, List.mem_append, not_or]
  refine ⟨hn, fun hm => ?_⟩
  have := f.dst_hi n hm
  omega

theorem Dropped.after {lo m hi n : Nat} {pre mid q : List Quad}
    (d : Dropped lo m pre mid n) (f : OpdFrame m hi q) : Dropped lo hi pre (mid ++ q) n := by
  obtain ⟨d1, d2, d3⟩ := d
  refine ⟨d1, lt_of_lt_of_le d2 f.le, fun hn => ?_⟩
  rw [dstTmpsOf_append, List.mem_append, not_or]
  refine ⟨d3 hn, fun hm => ?_⟩
  have := f.dst_lo n hm
  omega

theorem Dropped.before_plain {lo hi n : Nat} {pre post : List Quad} {q : Quad}
    (hq : q.dstTmps = []) (d : Dropped lo hi (pre ++ [q]) post n) : Dropped lo hi pre post n := by
  obtain ⟨d1, d2, d3⟩ := d
  refine ⟨d1, d2, fun hn => d3 ?_⟩
  simpa [hq] using hn

theorem Dropped.after_plain {lo hi n : Nat} {pre mid : List Quad} {q : Quad}
    (hq : q.dstTmps = []) (d : Dropped lo hi pre mid n) :
    Dropped lo hi pre (mid ++ [q]) n := by
  obtain ⟨d1, d2, d3⟩ := d
  refine ⟨d1, d2, fun hn => ?_⟩
  simpa [hq] using d3 hn

/-- The temporary a call statement retracts is the one flattening its call
returned. -/
theorem StmtNode.retracted_call {callee : SemSymbol} {args : List ExpNode} {c cF : Ctx}
    {n w : Nat}
    (h : (ExpNode.CallExpNode callee args).flatten c = .ok (some (Opd.AuxOpd n w), cF)) :
    (StmtNode.CallStmtNode callee args).retracted c = [n] := by
  have hs : (StmtNode.CallStmtNode callee args).to3AC c = .ok cF.popQuad := by
    simp only [StmtNode.to3AC, h]
  obtain ⟨cA, hA, hv, -⟩ := StmtNode.callStmt_ok hs
  have hfl := ExpNode.flatten_call callee hA
  rw [hv, h] at hfl
  simp only [Bool.false_eq_true, if_false, Except.ok.injEq, Prod.mk.injEq,
    Option.some.injEq, Opd.AuxOpd.injEq] at hfl
  obtain ⟨⟨hn, -⟩, hc⟩ := hfl
  subst hc
  simp only [StmtNode.retracted, h, Ctx.addQuad_quads, List.getLast?_concat]
  simp [Quad.dstTmps, Quad.new, Opd.tmps, hn]

mutual
theorem StmtNode.to3AC_retracted : ∀ (s : StmtNode) (c c' : Ctx),
    c.proc.CacheWF → s.to3AC c = .ok c' →
    ∀ n ∈ s.retracted c,
      Dropped c.proc.maxTmp c'.proc.maxTmp c.proc.quads c'.proc.quads n
  | .CallStmtNode callee args, c, c', hw, h, n, hn => by
    obtain ⟨cA, hA, hv, rfl⟩ := StmtNode.callStmt_ok h
    have hfl := ExpNode.flatten_call callee hA
    rw [hv] at hfl
    simp only [Bool.false_eq_true, if_false] at hfl
    rw [StmtNode.retracted_call hfl, List.mem_singleton] at hn
    subst hn
    obtain ⟨qa, hq, fa⟩ := ExpNode.flattenArgs_opds args 1 c cA hw hA
    simp only [Ctx.popQuad_maxTmp, Ctx.addQuad_maxTmp, Ctx.makeTmp_maxTmp,
      Ctx.popQuad_addQuad_quads, Ctx.addQuad_quads, Ctx.makeTmp_quads]
    refine ⟨fa.le, Nat.lt_succ_self _, fun hn => ?_⟩
    rw [hq]
    simp only [dstTmpsOf_append, dstTmpsOf_cons, dstTmpsOf_nil, List.append_nil,
      List.mem_append, not_or]
    refine ⟨⟨hn, fun hm => ?_⟩, by simp [Quad.dstTmps, Quad.new]⟩
    have := fa.dst_hi _ hm
    omega
  | .IfStmtNode cond body, c, c', hw, h, n, hn => by
    simp only [StmtNode.to3AC] at h
    split at h
    · exact absurd h (by simp)
    · rename_i exp c1 h1
      obtain ⟨q1, hq1, f1, w1, t1⟩ := ExpNode.flatten_opds _ _ _ _ hw h1
      have hw1 := (ExpNode.flatten_state _ _ _ _ h1).cacheWF hw
      split at h
      · exact absurd h (by simp)
      · rename_i c3 h3
        simp only [StmtNode.retracted, h1] at hn
        have d := StmtNode.to3ACList_retracted body _ c3
          (((StateFrame.after_makeLabel c1).comp (StateFrame.after_addQuad _ _)).cacheWF hw1)
          h3 n hn
        simp only [Except.ok.injEq] at h
        subst h
        simp only [Ctx.addQuad_maxTmp, Ctx.makeLabel_maxTmp, Ctx.addQuad_quads,
          Ctx.makeLabel_quads] at d ⊢
        rw [hq1] at d
        exact ((d.before_plain (by rfl)).before f1).after_plain (by rfl)
  | .IfElseStmtNode cond bt bf, c, c', hw, h, n, hn => by
    simp only [StmtNode.to3AC] at h
    split at h
    · exact absurd h (by simp)
    · rename_i exp c1 h1
      obtain ⟨q1, hq1, f1, w1, t1⟩ := ExpNode.flatten_opds _ _ _ _ hw h1
      have hw1 := (ExpNode.flatten_state _ _ _ _ h1).cacheWF hw
      split at h
      · exact absurd h (by simp)
      · rename_i c3 h3
        have hw2 := (((StateFrame.after_makeLabel c1).comp (StateFrame.after_makeLabel _)).comp
            (StateFrame.after_addQuad _ (Quad.new (.IfzQuad exp c1.makeLabel.fst)))).cacheWF hw1
        obtain ⟨qt, hqt, ft⟩ := StmtNode.to3ACList_opds bt _ c3 hw2 h3
        have hw3 := (StmtNode.to3ACList_state _ _ _ h3).cacheWF hw2
        split at h
        · exact absurd h (by simp)
        · rename_i c6 h6
          have hw5 := ((StateFrame.after_addQuad c3
            (Quad.new (.GotoQuad c1.makeLabel.snd.makeLabel.fst))).comp
              (StateFrame.after_addQuad _
                ((Quad.new .NopQuad).addLabel c1.makeLabel.fst))).cacheWF hw3
          obtain ⟨qf, hqf, ff⟩ := StmtNode.to3ACList_opds bf _ c6 hw5 h6
          simp only [StmtNode.retracted, h1, h3, List.mem_append] at hn
          simp only [Except.ok.injEq] at h
          subst h
          simp only [Ctx.addQuad_maxTmp, Ctx.makeLabel_maxTmp, Ctx.addQuad_quads,
            Ctx.makeLabel_quads] at ft hqt ff hqf ⊢
          rcases hn with hn | hn
          · have d := StmtNode.to3ACList_retracted bt _ c3 hw2 h3 n hn
            simp only [Ctx.addQuad_maxTmp, Ctx.makeLabel_maxTmp, Ctx.addQuad_quads,
              Ctx.makeLabel_quads] at d
            rw [hq1] at d
            have d2 := (((d.before_plain (by rfl)).before f1).after_plain
              (by rfl : (Quad.new (.GotoQuad c1.makeLabel.snd.makeLabel.fst)).dstTmps = [])).after_plain
              (by rfl : ((Quad.new .NopQuad).addLabel c1.makeLabel.fst).dstTmps = [])
            have d3 := (d2.after ff).after_plain
              (by rfl : ((Quad.new .NopQuad).addLabel
                c1.makeLabel.snd.makeLabel.fst).dstTmps = [])
            rw [hqf]
            exact d3
          · have d := StmtNode.to3ACList_retracted bf _ c6 hw5 h6 n hn
            simp only [Ctx.addQuad_maxTmp, Ctx.makeLabel_maxTmp, Ctx.addQuad_quads,
              Ctx.makeLabel_quads] at d
            rw [hqt, hq1] at d
            have d2 := ((((d.before_plain (by rfl)).before_plain (by rfl)).before ft).before_plain
              (by rfl)).before f1
            exact d2.after_plain (by rfl)
  | .WhileStmtNode cond body, c, c', hw, h, n, hn => by
    simp only [StmtNode.to3AC] at h
    split at h
    · exact absurd h (by simp)
    · rename_i exp c2 h2
      have hw1 := (((StateFrame.after_makeLabel c).comp (StateFrame.after_makeLabel _)).comp
        (StateFrame.after_addQuad _ ((Quad.new .NopQuad).addLabel c.makeLabel.fst))).cacheWF hw
      obtain ⟨q1, hq1, f1, w1, t1⟩ := ExpNode.flatten_opds _ _ _ _ hw1 h2
      have hw2 := (ExpNode.flatten_state _ _ _ _ h2).cacheWF hw1
      split at h
      · exact absurd h (by simp)
      · rename_i c4 h4
        simp only [StmtNode.retracted, h2] at hn
        have d := StmtNode.to3ACList_retracted body _ c4
          ((StateFrame.after_addQuad c2 _).cacheWF hw2) h4 n hn
        simp only [Except.ok.injEq] at h
        subst h
        simp only [Ctx.addQuad_maxTmp, Ctx.makeLabel_maxTmp, Ctx.addQuad_quads,
          Ctx.makeLabel_quads] at f1 hq1 d ⊢
        rw [hq1] at d
        exact ((((d.before_plain (by rfl)).before f1).before_plain (by rfl)).after_plain
          (by rfl)).after_plain (by rfl)
  | .AssignStmtNode _ _, _, _, _, _, n, hn => by simp [StmtNode.retracted] at hn
  | .PostIncStmtNode _, _, _, _, _, n, hn => by simp [StmtNode.retracted] at hn
  | .PostDecStmtNode _, _, _, _, _, n, hn => by simp [StmtNode.retracted] at hn
  | .GiveStmtNode _, _, _, _, _, n, hn => by simp [StmtNode.retracted] at hn
  | .TakeStmtNode _, _, _, _, _, n, hn => by simp [StmtNode.retracted] at hn
  | .ReturnStmtNode _, _, _, _, _, n, hn => by simp [StmtNode.retracted] at hn
  | .ExitStmtNode, _, _, _, _, n, hn => by simp [StmtNode.retracted] at hn
  | .VarDeclNode _, _, _, _, _, n, hn => by simp [StmtNode.retracted] at hn
  | .FormalDeclNode _, _, _, _, _, n, hn => by simp [StmtNode.retracted] at hn
  | .FnDeclNode _ _ _, _, _, _, _, n, hn => by simp [StmtNode.retracted] at hn
theorem StmtNode.to3ACList_retracted : ∀ (ss : List StmtNode) (c c' : Ctx),
    c.proc.CacheWF → StmtNode.to3ACList ss c = .ok c' →
    ∀ n ∈ StmtNode.retractedList ss c,
      Dropped c.proc.maxTmp c'.proc.maxTmp c.proc.quads c'.proc.quads n
  | [], _, _, _, _, n, hn => by simp [StmtNode.retractedList] at hn
  | s :: rest, c, c', hw, h, n, hn => by
    simp only [StmtNode.to3ACList] at h
    split at h
    · exact absurd h (by simp)
    · rename_i c1 h1
      obtain ⟨q1, hq1, f1⟩ := StmtNode.to3AC_opds s c c1 hw h1
      have hw1 := (StmtNode.to3AC_state _ _ _ h1).cacheWF hw
      obtain ⟨q2, hq2, f2⟩ := StmtNode.to3ACList_opds rest c1 c' hw1 h
      simp only [StmtNode.retractedList, h1, List.mem_append] at hn
      rcases hn with hn | hn
      · have d := StmtNode.to3AC_retracted s c c1 hw h1 n hn
        rw [hq2]
        exact d.after f2
      · have d := StmtNode.to3ACList_retracted rest c1 c' hw1 h n hn
        rw [hq1] at d
        exact d.before f1
end

/-! ## The claims -/

/-- C1: lowering an if-else statement whose condition and branches lower
appends the condition's instructions, `IfZero(c, Lelse)`, the true branch,
`Goto(Lend)`, a `Nop` carrying exactly `Lelse`, the false branch and a `Nop`
carrying exactly `Lend`, where `Lelse` and then `Lend` are allocated from the
procedure after the condition was flattened and are distinct; for
`if (x == 1) { give x; } else { give 0; }` the appended sequence is the
seven-instruction one of the scenario, in every procedure state. -/
theorem ifElse_lowering (myCond : ExpNode) (myBodyTrue myBodyFalse : List StmtNode)
    (c c1 c3 c6 : Ctx) (exp : Option Opd)
    (hc : myCond.flatten c = .ok (exp, c1))
    (ht : StmtNode.to3ACList myBodyTrue
        (c1.makeLabel.snd.makeLabel.snd.addQuad (Quad.new (.IfzQuad exp c1.makeLabel.fst)))
      = .ok c3)
    (hf : StmtNode.to3ACList myBodyFalse
        ((c3.addQuad (Quad.new (.GotoQuad c1.makeLabel.snd.makeLabel.fst))).addQuad
          ((Quad.new .NopQuad).addLabel c1.makeLabel.fst))
      = .ok c6) :
    (∃ qc qt qf c',
      c1.proc.quads = c.proc.quads ++ qc ∧
      c3.proc.quads = c1.proc.quads ++ [Quad.new (.IfzQuad exp c1.makeLabel.fst)] ++ qt ∧
      c6.proc.quads = c3.proc.quads ++
        [Quad.new (.GotoQuad c1.makeLabel.snd.makeLabel.fst),
         (⟨[c1.makeLabel.fst], .NopQuad⟩ : Quad)] ++ qf ∧
      (StmtNode.IfElseStmtNode myCond myBodyTrue myBodyFalse).to3AC c = .ok c' ∧
      c'.proc.quads = c.proc.quads ++
        (qc ++ [Quad.new (.IfzQuad exp c1.makeLabel.fst)] ++ qt ++
          [Quad.new (.GotoQuad c1.makeLabel.snd.makeLabel.fst),
           (⟨[c1.makeLabel.fst], .NopQuad⟩ : Quad)] ++ qf ++
          [(⟨[c1.makeLabel.snd.makeLabel.fst], .NopQuad⟩ : Quad)]) ∧
      c1.makeLabel.fst ≠ c1.makeLabel.snd.makeLabel.fst) ∧
    (∀ (x : SemSymbol) (s : Ctx), ∃ s',
      (Scenario.ifElse x).to3AC s = .ok s' ∧
      s'.proc.quads = s.proc.quads ++
        [Quad.new (.BinOpQuad (some (Opd.AuxOpd s.proc.maxTmp 8)) .EQ64
            (some (s.getSymOpd x).fst) (some (Opd.LitOpd "1" 8))),
         Quad.new (.IfzQuad (some (Opd.AuxOpd s.proc.maxTmp 8)) ⟨s.proc.maxLabel⟩),
         Quad.new (.WriteQuad (some (s.getSymOpd x).fst)),
         Quad.new (.GotoQuad ⟨s.proc.maxLabel + 1⟩),
         ⟨[⟨s.proc.maxLabel⟩], .NopQuad⟩,
         Quad.new (.WriteQuad (some (Opd.LitOpd "0" 8))),
         ⟨[⟨s.proc.maxLabel + 1⟩], .NopQuad⟩]) := by
  constructor
  · obtain ⟨qc, fc⟩ := ExpNode.flatten_frame _ _ _ _ hc
    obtain ⟨qt, ft⟩ := StmtNode.to3ACList_frame _ _ _ ht
    obtain ⟨qf, ff⟩ := StmtNode.to3ACList_frame _ _ _ hf
    refine ⟨qc, qt, qf, _, fc.quads, ?_, ?_, ?_, (StmtFrame.ifElse fc ft ff).quads, ?_⟩
    · simpa using ft.quads
    · simpa using ff.quads
    · simp only [StmtNode.to3AC, hc, ht, hf]
    · simp
  · intro x s
    refine ⟨_, by simp only [Scenario.ifElse, StmtNode.to3AC, StmtNode.to3ACList,
      ExpNode.flatten]; rfl, ?_⟩
    simp
    exact ⟨rfl, rfl, rfl, rfl⟩

/-- C1 at `if (x == 1) { give x; } else { give 0; }` in a fresh procedure. -/
theorem ifElse_lowering_witness :
    ∃ s', (Scenario.ifElse Example.x).to3AC Example.fresh = .ok s' ∧
      s'.proc.quads =
        [Quad.new (.BinOpQuad (some (Opd.AuxOpd 0 8)) .EQ64
            (some (Opd.SymOpd Example.x 8)) (some (Opd.LitOpd "1" 8))),
         Quad.new (.IfzQuad (some (Opd.AuxOpd 0 8)) ⟨1⟩),
         Quad.new (.WriteQuad (some (Opd.SymOpd Example.x 8))),
         Quad.new (.GotoQuad ⟨2⟩),
         ⟨[⟨1⟩], .NopQuad⟩,
         Quad.new (.WriteQuad (some (Opd.LitOpd "0" 8))),
         ⟨[⟨2⟩], .NopQuad⟩] :=
  (ifElse_lowering (.BinaryExpNode .EqualsNode (.IDNode (some Example.x)) (.IntLitNode 1))
    [.GiveStmtNode (.IDNode (some Example.x))] [.GiveStmtNode (.IntLitNode 0)]
    Example.fresh
    (((Example.fresh.getSymOpd Example.x).snd.makeTmp 8).snd.addQuad
      (Quad.new (.BinOpQuad (some (Opd.AuxOpd 0 8)) .EQ64
        (some (Opd.SymOpd Example.x 8)) (some (Opd.LitOpd "1" 8)))))
    _ _ _ rfl rfl rfl).2 Example.x Example.fresh

/-- C2: lowering a while statement whose condition and body lower appends a
`Nop` carrying exactly `Lhead`, the condition's instructions, `IfZero(c, Lend)`,
the body, `Goto(Lhead)` and a `Nop` carrying exactly `Lend`, where `Lhead` and
then `Lend` are allocated first and are distinct; the condition's instructions
occur once, after `Nop@Lhead`; for `while (n) { n--; }` the appended sequence
is the five-instruction one of the scenario, in every procedure state. -/
theorem while_lowering (myCond : ExpNode) (myBody : List StmtNode)
    (c c2 c4 : Ctx) (exp : Option Opd)
    (hc : myCond.flatten
        (c.makeLabel.snd.makeLabel.snd.addQuad ((Quad.new .NopQuad).addLabel c.makeLabel.fst))
      = .ok (exp, c2))
    (hb : StmtNode.to3ACList myBody
        (c2.addQuad (Quad.new (.IfzQuad exp c.makeLabel.snd.makeLabel.fst))) = .ok c4) :
    (∃ qc qb c',
      c2.proc.quads = c.proc.quads ++ [(⟨[c.makeLabel.fst], .NopQuad⟩ : Quad)] ++ qc ∧
      c4.proc.quads =
        c2.proc.quads ++ [Quad.new (.IfzQuad exp c.makeLabel.snd.makeLabel.fst)] ++ qb ∧
      (StmtNode.WhileStmtNode myCond myBody).to3AC c = .ok c' ∧
      c'.proc.quads = c.proc.quads ++
        ([(⟨[c.makeLabel.fst], .NopQuad⟩ : Quad)] ++ qc ++
          [Quad.new (.IfzQuad exp c.makeLabel.snd.makeLabel.fst)] ++ qb ++
          [Quad.new (.GotoQuad c.makeLabel.fst),
           (⟨[c.makeLabel.snd.makeLabel.fst], .NopQuad⟩ : Quad)]) ∧
      c.makeLabel.fst ≠ c.makeLabel.snd.makeLabel.fst) ∧
    (∀ (n : SemSymbol) (s : Ctx), ∃ s',
      (Scenario.whileLoop n).to3AC s = .ok s' ∧
      s'.proc.quads = s.proc.quads ++
        [⟨[⟨s.proc.maxLabel⟩], .NopQuad⟩,
         Quad.new (.IfzQuad (some (s.getSymOpd n).fst) ⟨s.proc.maxLabel + 1⟩),
         Quad.new (.BinOpQuad (some (s.getSymOpd n).fst) .SUB64
            (some (s.getSymOpd n).fst) (some (Opd.LitOpd "1" 8))),
         Quad.new (.GotoQuad ⟨s.proc.maxLabel⟩),
         ⟨[⟨s.proc.maxLabel + 1⟩], .NopQuad⟩]) := by
  constructor
  · obtain ⟨qc, fc⟩ := ExpNode.flatten_frame _ _ _ _ hc
    obtain ⟨qb, fb⟩ := StmtNode.to3ACList_frame _ _ _ hb
    refine ⟨qc, qb, _, ?_, ?_, ?_, (StmtFrame.whileLoop fc fb).quads, ?_⟩
    · simpa using fc.quads
    · simpa using fb.quads
    · simp only [StmtNode.to3AC, hc, hb]
    · simp
  · intro n s
    refine ⟨_, by simp only [Scenario.whileLoop, StmtNode.to3AC, StmtNode.to3ACList,
      LocNode.flatten, LocNode.toExp, ExpNode.flatten]; rfl, ?_⟩
    simp
    exact ⟨rfl, rfl⟩

/-- C2 at `while (x) { x--; }` in a fresh procedure. -/
theorem while_lowering_witness :
    ∃ s', (Scenario.whileLoop Example.x).to3AC Example.fresh = .ok s' ∧
      s'.proc.quads =
        [⟨[⟨1⟩], .NopQuad⟩,
         Quad.new (.IfzQuad (some (Opd.SymOpd Example.x 8)) ⟨2⟩),
         Quad.new (.BinOpQuad (some (Opd.SymOpd Example.x 8)) .SUB64
            (some (Opd.SymOpd Example.x 8)) (some (Opd.LitOpd "1" 8))),
         Quad.new (.GotoQuad ⟨1⟩),
         ⟨[⟨2⟩], .NopQuad⟩] :=
  (while_lowering (.IDNode (some Example.x)) [.PostDecStmtNode (.IDNode (some Example.x))]
    Example.fresh _ _ _ rfl rfl).2 Example.x Example.fresh

/-- C3: when a function declaration lowers, the procedure it adds to the
module obeys the label discipline: every label a `Goto` or `IfZero` of its
sequence refers to is the leave label or is attached to exactly one
instruction, a `Nop`, of that sequence; no label is attached twice; and the
leave label is attached to no instruction.  The same holds for what any
statement list appends to a procedure whose leave label was allocated
before. -/
theorem fnBody_labels (symbol : SemSymbol) (formals : List (Option SemSymbol))
    (body : List StmtNode) (prog prog' : IRProgram)
    (h : (DeclNode.FnDeclNode symbol formals body).to3AC prog = .ok prog') :
    (∃ proc, prog'.procs = prog.procs ++ [proc] ∧ proc.LabelsResolved) ∧
    (∀ (stmts : List StmtNode) (c c' : Ctx), c.proc.leave.id < c.proc.maxLabel →
      StmtNode.to3ACList stmts c = .ok c' →
      ∃ qs, c'.proc.quads = c.proc.quads ++ qs ∧ c'.proc.leave = c.proc.leave ∧
        c.proc.leave ∉ labelsOf qs ∧ (labelsOf qs).Nodup ∧
        ∀ l ∈ targetsOf qs, l = c.proc.leave ∨
          ((labelsOf qs).count l = 1 ∧ ∀ q ∈ qs, l ∈ q.labels → q.kind = .NopQuad)) := by
  constructor
  · obtain ⟨c2, c3, qa, qs, fa, -, fs, rfl⟩ := DeclNode.fnDecl_ok h
    refine ⟨c3.proc, ?_, ?_⟩
    · have hp := fs.procs.trans fa.procs
      simp only [IRProgram.gatherGlobal_procs, IRProgram.addProc, hp]
      rfl
    · have hleave : c2.proc.leave = ⟨0⟩ := fa.leave
      have hmax : c2.proc.maxLabel = 1 := fa.maxLabel
      have hq2 : c2.proc.quads = qa := by simpa [IRProgram.makeProc, Procedure.create] using fa.quads
      obtain ⟨r1, r2, r3⟩ := fs.resolved (by rw [hleave, hmax]; decide)
      have hq3 : c3.proc.quads = qa ++ qs := by rw [fs.quads, hq2]
      have hlab : labelsOf c3.proc.quads = labelsOf qs := by
        rw [hq3, labelsOf_append, fa.labels, List.nil_append]
      have htgt : targetsOf c3.proc.quads = targetsOf qs := by
        rw [hq3, targetsOf_append, fa.targets, List.nil_append]
      refine ⟨?_, ?_, ?_⟩
      · intro l hl
        rw [htgt] at hl
        rcases r3 l hl with h1 | ⟨h1, h2⟩
        · exact Or.inl (h1.trans fs.leave.symm)
        · refine Or.inr ⟨by rw [hlab]; exact h1, ?_⟩
          intro q hq hlq
          rw [hq3, List.mem_append] at hq
          rcases hq with hq | hq
          · have := labels_nil_of_labelsOf fa.labels q hq
            rw [this] at hlq
            exact absurd hlq (List.not_mem_nil _)
          · exact h2 q hq hlq
      · rw [hlab]; exact r2
      · rw [hlab, fs.leave]; exact r1
  · intro stmts c c' hl hs
    obtain ⟨qs, f⟩ := StmtNode.to3ACList_frame stmts c c' hs
    obtain ⟨r1, r2, r3⟩ := f.resolved hl
    exact ⟨qs, f.quads, f.leave, r1, r2, r3⟩

/-- C3 at a function with a loop, a nested if-else and two returns, lowered
into an empty module. -/
theorem fnBody_labels_witness :
    ∃ prog', Example.loopFn.to3AC IRProgram.create = .ok prog' ∧
      ∃ proc, prog'.procs = IRProgram.create.procs ++ [proc] ∧ proc.LabelsResolved :=
  ⟨_, rfl, (fnBody_labels Example.foo [some Example.x] Example.loopBody IRProgram.create _ rfl).1⟩

/-- C4, refuted as stated: in `foo(x, x + y)` the two instructions right
before `Call(foo)` are the `BinOp` of the second argument and `SetArg(2, t0)`,
not `SetArg(1, x)` and `SetArg(2, t0)`. -/
theorem setArgs_not_contiguous :
    ¬ SetArgsRightBeforeCall Example.foo
      [.IDNode (some Example.x),
       .BinaryExpNode .PlusNode (.IDNode (some Example.x)) (.IDNode (some Example.y))]
      Example.fresh := by
  intro h
  obtain ⟨pre, tail, ht, hq⟩ := h _ _ _ rfl rfl
  have hq' : [Quad.new (.SetArgQuad 1 (some (Opd.SymOpd Example.x 8))),
         Quad.new (.BinOpQuad (some (Opd.AuxOpd 0 8)) .ADD64
           (some (Opd.SymOpd Example.x 8)) (some (Opd.SymOpd Example.y 8))),
         Quad.new (.SetArgQuad 2 (some (Opd.AuxOpd 0 8))),
         Quad.new (.CallQuad Example.foo),
         Quad.new (.GetRetQuad (some (Opd.AuxOpd 1 8)))]
      = pre ++ [Quad.new (.SetArgQuad 1 (some (Opd.SymOpd Example.x 8))),
          Quad.new (.SetArgQuad 2 (some (Opd.AuxOpd 0 8)))] ++
          [Quad.new (.CallQuad Example.foo)] ++ tail := hq
  have hlen := congrArg List.length hq'
  rcases ht with rfl | ⟨t, rfl⟩
  · rcases pre with _ | ⟨a, _ | ⟨b, _ | ⟨d, rest⟩⟩⟩
    · simp [Quad.new] at hq'
    · simp [Quad.new] at hq'
    · simp [Quad.new] at hq'
    · simp at hlen
  · rcases pre with _ | ⟨a, _ | ⟨b, _ | ⟨d, rest⟩⟩⟩
    · simp [Quad.new] at hq'
    · simp [Quad.new] at hq'
    · simp at hlen
    · simp at hlen

/-- C4, amended: when a call's arguments flatten, the instructions before
`Call(callee)` are, for each argument in order, its instructions followed by
its `SetArg(i, vi)`; and when every argument after the first is a literal or
an identifier, the `n` instructions right before `Call(callee)` are
`SetArg(1, v1), ..., SetArg(n, vn)`, with `vi` the operand of argument `i`. -/
theorem setArgs_before_call (callee : SemSymbol) (args : List ExpNode) (c cA : Ctx)
    (hA : ExpNode.flattenArgs args 1 c = .ok cA) :
    ∃ vs r c' qs,
      ExpNode.argOpds args 1 c = .ok vs ∧ vs.length = args.length ∧
      (ExpNode.CallExpNode callee args).flatten c = .ok (r, c') ∧
      ArgsEmit args 1 c cA qs ∧
      c'.proc.quads = c.proc.quads ++
        (qs ++ [Quad.new (.CallQuad callee)] ++
          (if callee.isVoid then [] else [Quad.new (.GetRetQuad r)])) ∧
      ((∀ a ∈ args.tail, a.isLeaf = true) → ∃ pre, qs = pre ++ setArgQuads 1 vs) := by
  obtain ⟨vs, hvs, hlen⟩ := ExpNode.argOpds_of_flattenArgs args 1 c cA hA
  obtain ⟨qs, hs, hq⟩ := ExpNode.flattenArgs_emit args 1 c cA hA
  have hcall := ExpNode.flatten_call callee hA
  have hleaf : (∀ a ∈ args.tail, a.isLeaf = true) → ∃ pre, qs = pre ++ setArgQuads 1 vs := by
    intro hl
    cases args with
    | nil =>
      simp only [ExpNode.argOpds, Except.ok.injEq] at hvs
      subst hvs
      exact ⟨qs, by simp [setArgQuads]⟩
    | cons a rest =>
      simp only [ExpNode.flattenArgs] at hA
      simp only [ExpNode.argOpds] at hvs
      split at hA
      · exact absurd hA (by simp)
      · rename_i v c1 h1
        simp only [h1] at hvs
        split at hvs
        · exact absurd hvs (by simp)
        · rename_i ws hws
          simp only [Except.ok.injEq] at hvs
          subst hvs
          obtain ⟨qa, fa⟩ := ExpNode.flatten_frame a c v c1 h1
          have hr := ExpNode.flattenArgs_leaves rest 2 _ cA ws hl hA hws
          refine ⟨qa, ?_⟩
          refine @List.append_cancel_left _ c.proc.quads _ _ ?_
          rw [← hq, hr, Ctx.addQuad_quads, fa.quads]
          simp [setArgQuads]
  cases hv : callee.isVoid with
  | true =>
    rw [hv] at hcall
    exact ⟨vs, none, _, qs, hvs, hlen, hcall, hs, by simp [hq], hleaf⟩
  | false =>
    rw [hv] at hcall
    exact ⟨vs, _, _, qs, hvs, hlen, hcall, hs, by simp [hq], hleaf⟩

/-- C4 amended, at `foo(x + y, x)` in a fresh procedure: the compound
argument comes first, and the two instructions before the call are the
`SetArg`s. -/
theorem setArgs_before_call_witness :
    ∃ c', (ExpNode.CallExpNode Example.foo
        [.BinaryExpNode .PlusNode (.IDNode (some Example.x)) (.IDNode (some Example.y)),
         .IDNode (some Example.x)]).flatten Example.fresh
        = .ok (some (Opd.AuxOpd 1 8), c') ∧
      c'.proc.quads =
        [Quad.new (.BinOpQuad (some (Opd.AuxOpd 0 8)) .ADD64
           (some (Opd.SymOpd Example.x 8)) (some (Opd.SymOpd Example.y 8)))] ++
        setArgQuads 1 [some (Opd.AuxOpd 0 8), some (Opd.SymOpd Example.x 8)] ++
        [Quad.new (.CallQuad Example.foo), Quad.new (.GetRetQuad (some (Opd.AuxOpd 1 8)))] := by
  obtain ⟨vs, r, c', qs, -, -, hf, -, -, -⟩ := setArgs_before_call Example.foo
    [.BinaryExpNode .PlusNode (.IDNode (some Example.x)) (.IDNode (some Example.y)),
     .IDNode (some Example.x)] Example.fresh _ rfl
  have hf' := hf
  rw [show (ExpNode.CallExpNode Example.foo
        [.BinaryExpNode .PlusNode (.IDNode (some Example.x)) (.IDNode (some Example.y)),
         .IDNode (some Example.x)]).flatten Example.fresh = .ok (some (Opd.AuxOpd 1 8), _)
      from rfl] at hf'
  simp only [Except.ok.injEq, Prod.mk.injEq] at hf'
  obtain ⟨-, rfl⟩ := hf'
  exact ⟨_, rfl, rfl⟩

/-- C5 on the code: a call statement whose callee is void never lowers.  When
its arguments flatten, `CallExpNode::flatten` returns null and the statement
stops at `assert(callExp != nullptr)`, in the context that flattening the call
left, with `Call(callee)` appended; otherwise it fails as the arguments
do. -/
theorem callStmt_void_fails (callee : SemSymbol) (args : List ExpNode) (c : Ctx)
    (hv : callee.isVoid = true) :
    (∀ c', (StmtNode.CallStmtNode callee args).to3AC c ≠ .ok c') ∧
    (∀ cA, ExpNode.flattenArgs args 1 c = .ok cA →
      (ExpNode.CallExpNode callee args).flatten c
        = .ok (none, cA.addQuad (Quad.new (.CallQuad callee))) ∧
      (StmtNode.CallStmtNode callee args).to3AC c
        = .error ((cA.addQuad (Quad.new (.CallQuad callee))).fail
            (.AssertFailed "callExp != nullptr"))) := by
  constructor
  · intro c' h
    obtain ⟨cA, -, hnv, -⟩ := StmtNode.callStmt_ok h
    rw [hv] at hnv
    exact absurd hnv (by simp)
  · intro cA hA
    have hcall := ExpNode.flatten_call callee hA
    rw [hv] at hcall
    exact ⟨hcall, by simp only [StmtNode.to3AC, hcall]; rfl⟩

/-- C5 at `bar();` with `bar` void, in a fresh procedure: the assertion
fails. -/
theorem callStmt_void_fails_witness :
    Example.bar.isVoid = true ∧
    (StmtNode.CallStmtNode Example.bar []).to3AC Example.fresh
      = .error ((Example.fresh.addQuad (Quad.new (.CallQuad Example.bar))).fail
          (.AssertFailed "callExp != nullptr")) :=
  ⟨rfl, ((callStmt_void_fails Example.bar [] Example.fresh rfl).2 Example.fresh rfl).2⟩

/-- C6: a call statement whose callee is not void and whose arguments flatten
lowers; its net effect on the instruction sequence is to append the
arguments' instructions with their `SetArg`s followed by `Call(callee)` as
last instruction, and what `popQuad` removed is exactly the `GetReturn(tmp)`
that flattening the call had appended.  For `foo(a, b);` the appended sequence
is `SetArg(1, a), SetArg(2, b), Call(foo)`, in every procedure state. -/
theorem callStmt_nonvoid (callee : SemSymbol) (args : List ExpNode) (c cA : Ctx)
    (hv : callee.isVoid = false) (hA : ExpNode.flattenArgs args 1 c = .ok cA) :
    (∃ qa tmp cF c',
      ArgsEmit args 1 c cA qa ∧
      (ExpNode.CallExpNode callee args).flatten c = .ok (some tmp, cF) ∧
      (StmtNode.CallStmtNode callee args).to3AC c = .ok c' ∧
      c' = cF.popQuad ∧
      cF.proc.quads = c'.proc.quads ++ [Quad.new (.GetRetQuad (some tmp))] ∧
      c'.proc.quads = c.proc.quads ++ (qa ++ [Quad.new (.CallQuad callee)])) ∧
    (∀ (foo a b : SemSymbol) (s : Ctx), foo.isVoid = false → ∃ s',
      (Scenario.callStmt foo a b).to3AC s = .ok s' ∧
      s'.proc.quads = s.proc.quads ++
        [Quad.new (.SetArgQuad 1 (some (s.getSymOpd a).fst)),
         Quad.new (.SetArgQuad 2 (some ((s.getSymOpd a).snd.getSymOpd b).fst)),
         Quad.new (.CallQuad foo)]) := by
  constructor
  · obtain ⟨qa, hs, hq⟩ := ExpNode.flattenArgs_emit args 1 c cA hA
    have hcall := ExpNode.flatten_call callee hA
    rw [hv] at hcall
    simp only [Bool.false_eq_true, if_false] at hcall
    refine ⟨qa, _, _, _, hs, hcall, by simp only [StmtNode.to3AC, hcall], rfl, ?_, ?_⟩
    · simp
    · simp [hq]
  · intro foo a b s hnv
    have hA : ExpNode.flattenArgs [.IDNode (some a), .IDNode (some b)] 1 s
        = .ok ((((s.getSymOpd a).snd.addQuad
            (Quad.new (.SetArgQuad 1 (some (s.getSymOpd a).fst)))).getSymOpd b).snd.addQuad
            (Quad.new (.SetArgQuad 2 (some (((s.getSymOpd a).snd.addQuad
            (Quad.new (.SetArgQuad 1 (some (s.getSymOpd a).fst)))).getSymOpd b).fst)))) := by
      simp only [ExpNode.flattenArgs, ExpNode.flatten]
    have hcall := ExpNode.flatten_call foo hA
    rw [hnv] at hcall
    simp only [Bool.false_eq_true, if_false] at hcall
    refine ⟨_, by simp only [Scenario.callStmt, StmtNode.to3AC, hcall]; rfl, ?_⟩
    simp

/-- C6 at `foo(x, y);` in a fresh procedure. -/
theorem callStmt_nonvoid_witness :
    ∃ s', (Scenario.callStmt Example.foo Example.x Example.y).to3AC Example.fresh = .ok s' ∧
      s'.proc.quads =
        [Quad.new (.SetArgQuad 1 (some (Opd.SymOpd Example.x 8))),
         Quad.new (.SetArgQuad 2 (some (Opd.SymOpd Example.y 8))),
         Quad.new (.CallQuad Example.foo)] :=
  (callStmt_nonvoid Example.foo [.IDNode (some Example.x), .IDNode (some Example.y)]
    Example.fresh _ rfl rfl).2 Example.foo Example.x Example.y Example.fresh rfl

/-- C7: flattening a call whose arguments flatten appends, for each argument
in order, its instructions followed by `SetArg(i, vi)` with `i` counted from 1,
then `Call(callee)`, and then `GetReturn(tmp)` for a temporary of width 8
allocated after the call instruction exactly when the callee is not void; the
result is null for a void callee and `tmp` otherwise. -/
theorem callExp_flatten (callee : SemSymbol) (args : List ExpNode) (c cA : Ctx)
    (hA : ExpNode.flattenArgs args 1 c = .ok cA) :
    ∃ qs, ArgsEmit args 1 c cA qs ∧ cA.proc.quads = c.proc.quads ++ qs ∧
      (callee.isVoid = true → ∃ c',
        (ExpNode.CallExpNode callee args).flatten c = .ok (none, c') ∧
        c'.proc.quads = c.proc.quads ++ (qs ++ [Quad.new (.CallQuad callee)]) ∧
        c'.proc.maxTmp = cA.proc.maxTmp) ∧
      (callee.isVoid = false → ∃ c',
        (ExpNode.CallExpNode callee args).flatten c
          = .ok (some (Opd.AuxOpd cA.proc.maxTmp 8), c') ∧
        c'.proc.quads = c.proc.quads ++
          (qs ++ [Quad.new (.CallQuad callee),
                  Quad.new (.GetRetQuad (some (Opd.AuxOpd cA.proc.maxTmp 8)))]) ∧
        c'.proc.maxTmp = cA.proc.maxTmp + 1) := by
  obtain ⟨qs, hs, hq⟩ := ExpNode.flattenArgs_emit args 1 c cA hA
  refine ⟨qs, hs, hq, ?_, ?_⟩
  · intro hv
    refine ⟨cA.addQuad (Quad.new (.CallQuad callee)), ?_, ?_, rfl⟩
    · rw [ExpNode.flatten_call callee hA, hv]; rfl
    · simp [hq]
  · intro hv
    refine ⟨((cA.addQuad (Quad.new (.CallQuad callee))).makeTmp 8).snd.addQuad
      (Quad.new (.GetRetQuad (some (Opd.AuxOpd cA.proc.maxTmp 8)))), ?_, ?_, rfl⟩
    · rw [ExpNode.flatten_call callee hA, hv]; rfl
    · simp [hq]

/-- C7 at `foo(x, x + y)` in a fresh procedure. -/
theorem callExp_flatten_witness :
    ∃ c', (ExpNode.CallExpNode Example.foo
        [.IDNode (some Example.x),
         .BinaryExpNode .PlusNode (.IDNode (some Example.x)) (.IDNode (some Example.y))]).flatten
        Example.fresh = .ok (some (Opd.AuxOpd 1 8), c') ∧
      c'.proc.quads =
        [Quad.new (.SetArgQuad 1 (some (Opd.SymOpd Example.x 8))),
         Quad.new (.BinOpQuad (some (Opd.AuxOpd 0 8)) .ADD64
           (some (Opd.SymOpd Example.x 8)) (some (Opd.SymOpd Example.y 8))),
         Quad.new (.SetArgQuad 2 (some (Opd.AuxOpd 0 8))),
         Quad.new (.CallQuad Example.foo),
         Quad.new (.GetRetQuad (some (Opd.AuxOpd 1 8)))] := by
  obtain ⟨qs, -, hq, -, h⟩ := callExp_flatten Example.foo
    [.IDNode (some Example.x),
     .BinaryExpNode .PlusNode (.IDNode (some Example.x)) (.IDNode (some Example.y))]
    Example.fresh _ rfl
  obtain ⟨c', h1, h2, -⟩ := h rfl
  refine ⟨c', h1, ?_⟩
  rw [h2]
  have : qs = [Quad.new (.SetArgQuad 1 (some (Opd.SymOpd Example.x 8))),
         Quad.new (.BinOpQuad (some (Opd.AuxOpd 0 8)) .ADD64
           (some (Opd.SymOpd Example.x 8)) (some (Opd.SymOpd Example.y 8))),
         Quad.new (.SetArgQuad 2 (some (Opd.AuxOpd 0 8)))] :=
    List.append_cancel_left hq.symm
  rw [this]
  rfl

/-- C8: flattening a binary expression whose operands flatten appends the
instructions of the left operand, then those of the right operand, then the
single `BinOp(tmp, opcode, l, r)`, where `tmp` is the temporary allocated
after both operands and is the returned operand, and the opcode is the one of
the node class; no jump is emitted, so the right operand of and/or is never
skipped. -/
theorem binary_flatten (k : BinaryKind) (myExp1 myExp2 : ExpNode) (c c1 c2 : Ctx)
    (l r : Option Opd)
    (h1 : myExp1.flatten c = .ok (l, c1)) (h2 : myExp2.flatten c1 = .ok (r, c2)) :
    (∃ ql qr c',
      c1.proc.quads = c.proc.quads ++ ql ∧
      c2.proc.quads = c1.proc.quads ++ qr ∧
      (ExpNode.BinaryExpNode k myExp1 myExp2).flatten c
        = .ok (some (Opd.AuxOpd c2.proc.maxTmp 8), c') ∧
      c'.proc.quads = c.proc.quads ++
        (ql ++ qr ++
          [Quad.new (.BinOpQuad (some (Opd.AuxOpd c2.proc.maxTmp 8)) k.opcode l r)]) ∧
      c'.proc.maxTmp = c2.proc.maxTmp + 1 ∧
      targetsOf (ql ++ qr ++
          [Quad.new (.BinOpQuad (some (Opd.AuxOpd c2.proc.maxTmp 8)) k.opcode l r)]) = []) ∧
    [BinaryKind.PlusNode, .MinusNode, .TimesNode, .DivideNode, .AndNode, .OrNode,
      .EqualsNode, .NotEqualsNode, .LessNode, .GreaterNode, .LessEqNode,
      .GreaterEqNode].map BinaryKind.opcode
      = [BinOp.ADD64, .SUB64, .MULT64, .DIV64, .AND64, .OR64, .EQ64, .NEQ64, .LT64, .GT64,
          .LTE64, .GTE64] := by
  refine ⟨?_, rfl⟩
  obtain ⟨ql, f1⟩ := ExpNode.flatten_frame _ _ _ _ h1
  obtain ⟨qr, f2⟩ := ExpNode.flatten_frame _ _ _ _ h2
  refine ⟨ql, qr, _, f1.quads, f2.quads, by simp only [ExpNode.flatten, h1, h2]; rfl, ?_, rfl,
    ?_⟩
  · simp [f2.quads, f1.quads]
  · simp [f1.targets, f2.targets, Quad.targets]

/-- C8 at `foo() and (x < y)` in a fresh procedure: the call of the left
operand, then the comparison, then the `AND64`. -/
theorem binary_flatten_witness :
    ∃ c', (ExpNode.BinaryExpNode .AndNode (.CallExpNode Example.foo [])
        (.BinaryExpNode .LessNode (.IDNode (some Example.x)) (.IDNode (some Example.y)))).flatten
        Example.fresh = .ok (some (Opd.AuxOpd 2 8), c') ∧
      c'.proc.quads =
        [Quad.new (.CallQuad Example.foo),
         Quad.new (.GetRetQuad (some (Opd.AuxOpd 0 8))),
         Quad.new (.BinOpQuad (some (Opd.AuxOpd 1 8)) .LT64
           (some (Opd.SymOpd Example.x 8)) (some (Opd.SymOpd Example.y 8))),
         Quad.new (.BinOpQuad (some (Opd.AuxOpd 2 8)) .AND64
           (some (Opd.AuxOpd 0 8)) (some (Opd.AuxOpd 1 8)))] := by
  obtain ⟨⟨ql, qr, c', hl, hr, hf, hq, -, -⟩, -⟩ := binary_flatten .AndNode
    (.CallExpNode Example.foo [])
    (.BinaryExpNode .LessNode (.IDNode (some Example.x)) (.IDNode (some Example.y)))
    Example.fresh _ _ _ _ rfl rfl
  refine ⟨c', hf, ?_⟩
  have e1 : ql = [Quad.new (.CallQuad Example.foo),
      Quad.new (.GetRetQuad (some (Opd.AuxOpd 0 8)))] :=
    List.append_cancel_left hl.symm
  have e2 : qr = [Quad.new (.BinOpQuad (some (Opd.AuxOpd 1 8)) .LT64
      (some (Opd.SymOpd Example.x 8)) (some (Opd.SymOpd Example.y 8)))] :=
    List.append_cancel_left hr.symm
  rw [hq, e1, e2]
  rfl

/-- C9: a return statement whose value flattens appends the value's
instructions, `SetReturn(value)` and `Goto(L)`; a return without value appends
exactly `Goto(L)`; in both cases `L` is the leave label of the procedure, and
lowering any statements leaves the leave label unchanged, so all returns of a
body jump to the same label. -/
theorem return_lowering (myExp : ExpNode) (c c1 : Ctx) (exp : Option Opd)
    (he : myExp.flatten c = .ok (exp, c1)) :
    (∃ qe c',
      c1.proc.quads = c.proc.quads ++ qe ∧
      (StmtNode.ReturnStmtNode (some myExp)).to3AC c = .ok c' ∧
      c'.proc.quads = c.proc.quads ++
        (qe ++ [Quad.new (.SetRetQuad exp), Quad.new (.GotoQuad c.proc.leave)]) ∧
      c'.proc.leave = c.proc.leave) ∧
    (∀ s : Ctx, ∃ s',
      (StmtNode.ReturnStmtNode none).to3AC s = .ok s' ∧
      s'.proc.quads = s.proc.quads ++ [Quad.new (.GotoQuad s.proc.leave)] ∧
      s'.proc.leave = s.proc.leave) ∧
    (∀ (stmts : List StmtNode) (s s' : Ctx),
      StmtNode.to3ACList stmts s = .ok s' → s'.proc.leave = s.proc.leave) := by
  refine ⟨?_, ?_, ?_⟩
  · obtain ⟨qe, fe⟩ := ExpNode.flatten_frame _ _ _ _ he
    refine ⟨qe, _, fe.quads, by simp only [StmtNode.to3AC, he]; rfl, ?_, ?_⟩
    · simp [fe.quads, Ctx.getLeaveLabel, Procedure.getLeaveLabel, fe.leave]
    · simp [fe.leave]
  · intro s
    exact ⟨_, rfl, rfl, rfl⟩
  · intro stmts s s' h
    obtain ⟨qs, f⟩ := StmtNode.to3ACList_frame stmts s s' h
    exact f.leave

/-- C9 at `return x + 1;` in a fresh procedure, whose leave label is 0. -/
theorem return_lowering_witness :
    ∃ c', (StmtNode.ReturnStmtNode (some
        (.BinaryExpNode .PlusNode (.IDNode (some Example.x)) (.IntLitNode 1)))).to3AC
        Example.fresh = .ok c' ∧
      c'.proc.quads =
        [Quad.new (.BinOpQuad (some (Opd.AuxOpd 0 8)) .ADD64
           (some (Opd.SymOpd Example.x 8)) (some (Opd.LitOpd "1" 8))),
         Quad.new (.SetRetQuad (some (Opd.AuxOpd 0 8))),
         Quad.new (.GotoQuad ⟨0⟩)] := by
  obtain ⟨⟨qe, c', hq, hf, -, -⟩, -, -⟩ := return_lowering
    (.BinaryExpNode .PlusNode (.IDNode (some Example.x)) (.IntLitNode 1))
    Example.fresh _ _ rfl
  have hf' := hf
  rw [show (StmtNode.ReturnStmtNode (some
        (.BinaryExpNode .PlusNode (.IDNode (some Example.x)) (.IntLitNode 1)))).to3AC
        Example.fresh = .ok _ from rfl] at hf'
  simp only [Except.ok.injEq] at hf'
  subst hf'
  exact ⟨_, rfl, rfl⟩

/-- C10: when a top-level declaration list lowers, the module's procedures
are, in order, one per function declaration and named after its symbol; the
global set contains the symbol of every function and variable declaration of
the list; and a variable declaration alone leaves the module's procedures, and
with them every instruction sequence, as they were. -/
theorem program_lowering (myGlobals : List DeclNode) (prog : IRProgram)
    (h : ProgramNode.to3AC myGlobals = .ok prog) :
    prog.procs.map (fun p => p.name) = myGlobals.filterMap DeclNode.procName ∧
    (∀ d ∈ myGlobals, ∀ s, d.declSymbol = some s → s ∈ prog.globals) ∧
    (∀ (symbol : Option SemSymbol) (g g' : IRProgram),
      (DeclNode.VarDeclNode symbol).to3AC g = .ok g' →
        g'.procs = g.procs ∧ ∃ s, symbol = some s ∧ s ∈ g'.globals) := by
  obtain ⟨r1, -, r3⟩ := ProgramNode.globalsTo3AC_spec myGlobals IRProgram.create prog h
  refine ⟨by simpa [IRProgram.create] using r1, r3, ?_⟩
  intro symbol g g' hv
  cases symbol with
  | none => simp [DeclNode.to3AC] at hv
  | some sym =>
    simp only [DeclNode.to3AC, Except.ok.injEq] at hv
    subst hv
    exact ⟨IRProgram.gatherGlobal_procs _ _, sym, rfl, IRProgram.mem_gatherGlobal _ _⟩

/-- C10 at the program `y; foo(x) { ... }`: one procedure `foo`, and both `y`
and `foo` are globals. -/
theorem program_lowering_witness :
    ∃ prog, ProgramNode.to3AC [Example.globalY, Example.loopFn] = .ok prog ∧
      prog.procs.map (fun p => p.name) = ["foo"] ∧
      Example.y ∈ prog.globals ∧ Example.foo ∈ prog.globals := by
  refine ⟨_, rfl, ?_⟩
  obtain ⟨h1, h2, -⟩ := program_lowering [Example.globalY, Example.loopFn] _ rfl
  exact ⟨h1, h2 Example.globalY (by simp) Example.y rfl,
    h2 Example.loopFn (by simp) Example.foo rfl⟩

/-- C11: lowering a formal declaration at module scope aborts with the internal
error "Formal at a global scope" in every module state, and the module at the
abort is the module at entry: no procedure was made and no global registered.
Lowering a function declaration at procedure scope aborts with the internal
error "FnDecl at a local scope" in every procedure state, and the procedure and
the module at the abort are those at entry: no instruction was appended, no
label or temporary allocated, no formal or local registered.  Hence a
statement list in which a function declaration occurs at any depth does not
lower, and neither does the function declaration enclosing it. -/
theorem wrongScope_fails (body : List StmtNode) (hn : StmtNode.hasFnDeclList body = true) :
    (∀ (symbol : Option SemSymbol) (prog : IRProgram),
      ∃ f, (DeclNode.FormalDeclNode symbol).to3AC prog = .error f ∧
        f.error = .InternalError "Formal at a global scope" ∧
        f.proc = none ∧ f.prog = prog ∧
        f.prog.procs = prog.procs ∧ f.prog.globals = prog.globals ∧
        f.prog.strings = prog.strings) ∧
    (∀ (symbol : SemSymbol) (formals : List (Option SemSymbol)) (stmts : List StmtNode)
        (c : Ctx),
      ∃ f, (StmtNode.FnDeclNode symbol formals stmts).to3AC c = .error f ∧
        f.error = .InternalError "FnDecl at a local scope" ∧
        f.proc = some c.proc ∧ f.prog = c.prog ∧
        (∀ p, f.proc = some p →
          p.quads = c.proc.quads ∧ p.formals = c.proc.formals ∧
          p.locals = c.proc.locals ∧ p.maxLabel = c.proc.maxLabel ∧
          p.maxTmp = c.proc.maxTmp)) ∧
    (∀ c c', StmtNode.to3ACList body c ≠ .ok c') ∧
    (∀ (symbol : SemSymbol) (formals : List (Option SemSymbol)) (prog prog' : IRProgram),
      (DeclNode.FnDeclNode symbol formals body).to3AC prog ≠ .ok prog') := by
  refine ⟨fun _ prog => ⟨_, rfl, rfl, rfl, rfl, rfl, rfl, rfl⟩,
    fun _ _ _ c => ⟨_, rfl, rfl, rfl, rfl, ?_⟩, ?_, ?_⟩
  · intro p hp
    simp only [Ctx.fail, Option.some.injEq] at hp
    subst hp
    exact ⟨rfl, rfl, rfl, rfl, rfl⟩
  · intro c c'
    exact StmtNode.to3ACList_fails_of_hasFnDecl body c c' hn
  · intro symbol formals prog prog' h
    obtain ⟨c2, c3, -, -, -, h3, -, -⟩ := DeclNode.fnDecl_ok h
    exact StmtNode.to3ACList_fails_of_hasFnDecl body c2 c3 hn h3

/-- C11 at a function whose loop body holds a function declaration: lowering
it into an empty module aborts with the internal error, and does not return a
module. -/
theorem wrongScope_fails_witness :
    (∃ f, Example.nestedFn.to3AC IRProgram.create = .error f ∧
        f.error = .InternalError "FnDecl at a local scope") ∧
      ∀ prog', Example.nestedFn.to3AC IRProgram.create ≠ .ok prog' :=
  ⟨⟨_, rfl, rfl⟩, fun prog' => (wrongScope_fails
    [.WhileStmtNode (.IDNode (some Example.x)) [.FnDeclNode Example.bar [] []]] rfl).2.2.2
    Example.foo [some Example.x] IRProgram.create prog'⟩

/-- C12: lowering an if statement without else whose condition and body lower
appends the condition's instructions, `IfZero(c, L)`, the body's instructions
and a `Nop` carrying exactly `L`, where `L` is the one label the statement
allocates, after the condition was flattened. -/
theorem if_lowering (myCond : ExpNode) (myBody : List StmtNode) (c c1 c3 : Ctx)
    (exp : Option Opd)
    (hc : myCond.flatten c = .ok (exp, c1))
    (hb : StmtNode.to3ACList myBody
        (c1.makeLabel.snd.addQuad (Quad.new (.IfzQuad exp c1.makeLabel.fst))) = .ok c3) :
    ∃ qc qb c',
      c1.proc.quads = c.proc.quads ++ qc ∧
      c3.proc.quads = c1.proc.quads ++ [Quad.new (.IfzQuad exp c1.makeLabel.fst)] ++ qb ∧
      (StmtNode.IfStmtNode myCond myBody).to3AC c = .ok c' ∧
      c'.proc.quads = c.proc.quads ++
        (qc ++ [Quad.new (.IfzQuad exp c1.makeLabel.fst)] ++ qb ++
          [(⟨[c1.makeLabel.fst], .NopQuad⟩ : Quad)]) ∧
      c1.makeLabel.fst = ⟨c.proc.maxLabel⟩ ∧
      c'.proc.maxLabel = c3.proc.maxLabel ∧
      c1.makeLabel.snd.proc.maxLabel = c.proc.maxLabel + 1 := by
  obtain ⟨qc, fc⟩ := ExpNode.flatten_frame _ _ _ _ hc
  obtain ⟨qb, fb⟩ := StmtNode.to3ACList_frame _ _ _ hb
  refine ⟨qc, qb, _, fc.quads, ?_, ?_, (StmtFrame.ifThen fc fb).quads, ?_, ?_, ?_⟩
  · simpa using fb.quads
  · simp only [StmtNode.to3AC, hc, hb]
  · simp [fc.maxLabel]
  · simp
  · simp [fc.maxLabel]

/-- C12 at `if (x) { give x; }` in a fresh procedure. -/
theorem if_lowering_witness :
    ∃ c', (StmtNode.IfStmtNode (.IDNode (some Example.x))
        [.GiveStmtNode (.IDNode (some Example.x))]).to3AC Example.fresh = .ok c' ∧
      c'.proc.quads =
        [Quad.new (.IfzQuad (some (Opd.SymOpd Example.x 8)) ⟨1⟩),
         Quad.new (.WriteQuad (some (Opd.SymOpd Example.x 8))),
         ⟨[⟨1⟩], .NopQuad⟩] := by
  obtain ⟨qc, qb, c', -, -, hf, -, -⟩ := if_lowering (.IDNode (some Example.x))
    [.GiveStmtNode (.IDNode (some Example.x))] Example.fresh _ _ _ rfl rfl
  have hf' := hf
  rw [show (StmtNode.IfStmtNode (.IDNode (some Example.x))
        [.GiveStmtNode (.IDNode (some Example.x))]).to3AC Example.fresh = .ok _ from rfl] at hf'
  simp only [Except.ok.injEq] at hf'
  subst hf'
  exact ⟨_, rfl, rfl⟩

/-- C13: an assignment whose two sides flatten appends the instructions of the
right-hand side, then those of the left-hand side, and then runs the last two
lines of `AssignStmtNode::to3AC` on the two operands.  On a target operand `d`
those lines append the single `Assign(d, s)`; on a null target operand they
stop at `assert(dst != nullptr)`, in whatever procedure state and for whatever
source operand, and the procedure at the abort is the one they were entered
with, so no `Assign` was appended.  The only location node of the lowering
source is the identifier, whose result is never null. -/
theorem assign_lowering (myDst : LocNode) (mySrc : ExpNode) (c c1 c2 : Ctx)
    (src dst : Option Opd)
    (hs : mySrc.flatten c = .ok (src, c1)) (hd : myDst.flatten c1 = .ok (dst, c2)) :
    ∃ qs qd,
      c1.proc.quads = c.proc.quads ++ qs ∧
      c2.proc.quads = c1.proc.quads ++ qd ∧
      (∀ d, dst = some d → ∃ c',
        (StmtNode.AssignStmtNode myDst mySrc).to3AC c = .ok c' ∧
        c'.proc.quads = c.proc.quads ++
          (qs ++ qd ++ [Quad.new (.AssignQuad (some d) src)])) ∧
      (dst = none →
        (StmtNode.AssignStmtNode myDst mySrc).to3AC c
          = .error (c2.fail (.AssertFailed "dst != nullptr"))) ∧
      (∃ d, dst = some d) ∧
      (StmtNode.AssignStmtNode myDst mySrc).to3AC c = AssignStmtNode.emit dst src c2 ∧
      (∀ (s : Option Opd) (k : Ctx),
        ∃ f, AssignStmtNode.emit none s k = .error f ∧
          f.error = .AssertFailed "dst != nullptr" ∧
          f.proc = some k.proc ∧ f.prog = k.prog) ∧
      (∀ (d : Opd) (s : Option Opd) (k : Ctx),
        ∃ k', AssignStmtNode.emit (some d) s k = .ok k' ∧
          k'.proc.quads = k.proc.quads ++ [Quad.new (.AssignQuad (some d) s)]) := by
  obtain ⟨qs, fs⟩ := ExpNode.flatten_frame _ _ _ _ hs
  obtain ⟨qd, fd⟩ := ExpNode.flatten_frame _ _ _ _ hd
  refine ⟨qs, qd, fs.quads, fd.quads, ?_, ?_, ?_, ?_, fun _ _ => ⟨_, rfl, rfl, rfl, rfl⟩,
    fun _ _ _ => ⟨_, rfl, rfl⟩⟩
  · intro d hdst
    subst hdst
    refine ⟨c2.addQuad (Quad.new (.AssignQuad (some d) src)), ?_, ?_⟩
    · simp only [StmtNode.to3AC, hs, hd]
      rfl
    · simp [fd.quads, fs.quads]
  · intro hdst
    subst hdst
    simp only [StmtNode.to3AC, hs, hd]
    rfl
  · cases myDst with
    | IDNode symbol =>
      cases symbol with
      | none => simp [LocNode.flatten, LocNode.toExp, ExpNode.flatten] at hd
      | some s =>
        simp only [LocNode.flatten, LocNode.toExp, ExpNode.flatten, Except.ok.injEq,
          Prod.mk.injEq] at hd
        exact ⟨_, hd.1.symm⟩
  · simp only [StmtNode.to3AC, hs, hd]

/-- C13 at `x = y + 1;` in a fresh procedure. -/
theorem assign_lowering_witness :
    ∃ c', (StmtNode.AssignStmtNode (.IDNode (some Example.x))
        (.BinaryExpNode .PlusNode (.IDNode (some Example.y)) (.IntLitNode 1))).to3AC
        Example.fresh = .ok c' ∧
      c'.proc.quads =
        [Quad.new (.BinOpQuad (some (Opd.AuxOpd 0 8)) .ADD64
           (some (Opd.SymOpd Example.y 8)) (some (Opd.LitOpd "1" 8))),
         Quad.new (.AssignQuad (some (Opd.SymOpd Example.x 8)) (some (Opd.AuxOpd 0 8)))] := by
  obtain ⟨qs, qd, -, -, h, -, -⟩ := assign_lowering (.IDNode (some Example.x))
    (.BinaryExpNode .PlusNode (.IDNode (some Example.y)) (.IntLitNode 1))
    Example.fresh _ _ _ _ rfl rfl
  obtain ⟨c', hf, -⟩ := h _ rfl
  have hf' := hf
  rw [show (StmtNode.AssignStmtNode (.IDNode (some Example.x))
        (.BinaryExpNode .PlusNode (.IDNode (some Example.y)) (.IntLitNode 1))).to3AC
        Example.fresh = .ok _ from rfl] at hf'
  simp only [Except.ok.injEq] at hf'
  subst hf'
  exact ⟨_, rfl, rfl⟩

/-- C14: a post-increment (post-decrement) whose location flattens to `d`
appends, after the location's own instructions, exactly the one instruction
`BinOp(d, ADD64, d, lit)` (`SUB64`), whose second source is the literal `"1"`
of width 8; the location is flattened once and the statement allocates no
temporary and no label of its own. -/
theorem postIncDec_lowering (myLoc : LocNode) (c c1 : Ctx) (dst : Option Opd)
    (hl : myLoc.flatten c = .ok (dst, c1)) :
    ∃ ql ci cd,
      c1.proc.quads = c.proc.quads ++ ql ∧
      (StmtNode.PostIncStmtNode myLoc).to3AC c = .ok ci ∧
      ci.proc.quads = c.proc.quads ++
        (ql ++ [Quad.new (.BinOpQuad dst .ADD64 dst (some (Opd.LitOpd "1" 8)))]) ∧
      (StmtNode.PostDecStmtNode myLoc).to3AC c = .ok cd ∧
      cd.proc.quads = c.proc.quads ++
        (ql ++ [Quad.new (.BinOpQuad dst .SUB64 dst (some (Opd.LitOpd "1" 8)))]) ∧
      ci.proc.maxTmp = c1.proc.maxTmp ∧ cd.proc.maxTmp = c1.proc.maxTmp ∧
      ci.proc.maxLabel = c1.proc.maxLabel ∧ cd.proc.maxLabel = c1.proc.maxLabel := by
  obtain ⟨ql, fl⟩ := ExpNode.flatten_frame _ _ _ _ hl
  refine ⟨ql, c1.addQuad (Quad.new (.BinOpQuad dst .ADD64 dst (some (Opd.LitOpd "1" 8)))),
    c1.addQuad (Quad.new (.BinOpQuad dst .SUB64 dst (some (Opd.LitOpd "1" 8)))),
    fl.quads, ?_, ?_, ?_, ?_, rfl, rfl, rfl, rfl⟩
  · simp only [StmtNode.to3AC, hl]
  · simp [fl.quads]
  · simp only [StmtNode.to3AC, hl]
  · simp [fl.quads]

/-- C14 at `x++;` in a fresh procedure: one instruction, no temporary. -/
theorem postIncDec_lowering_witness :
    ∃ c', (StmtNode.PostIncStmtNode (.IDNode (some Example.x))).to3AC Example.fresh = .ok c' ∧
      c'.proc.quads =
        [Quad.new (.BinOpQuad (some (Opd.SymOpd Example.x 8)) .ADD64
           (some (Opd.SymOpd Example.x 8)) (some (Opd.LitOpd "1" 8)))] ∧
      c'.proc.maxTmp = 0 := by
  obtain ⟨ql, ci, cd, -, hf, -, -, -, -, -, -, -⟩ :=
    postIncDec_lowering (.IDNode (some Example.x)) Example.fresh _ _ rfl
  have hf' := hf
  rw [show (StmtNode.PostIncStmtNode (.IDNode (some Example.x))).to3AC Example.fresh
      = .ok _ from rfl] at hf'
  simp only [Except.ok.injEq] at hf'
  subst hf'
  exact ⟨_, rfl, rfl, rfl⟩

/-- C15: flattening a literal emits no instruction and allocates nothing, the
context stays as it is: an integer literal `n` yields the literal operand of
the decimal rendering of `n` with width 8, `true` yields `("1", 8)` and
`false` yields `("0", 8)`.  Every operand of every instruction that statements
or an expression append to a procedure with a well-typed symbol cache has
width 8, as has the operand an expression returns; and so has every operand of
every procedure of a lowered module. -/
theorem literal_widths (stmts : List StmtNode) (c c' : Ctx) (hw : c.proc.CacheWF)
    (h : StmtNode.to3ACList stmts c = .ok c') :
    (∀ (n : Int) (s : Ctx),
      (ExpNode.IntLitNode n).flatten s = .ok (some (Opd.LitOpd (toString n) 8), s)) ∧
    (∀ s : Ctx, ExpNode.TrueNode.flatten s = .ok (some (Opd.LitOpd "1" 8), s)) ∧
    (∀ s : Ctx, ExpNode.FalseNode.flatten s = .ok (some (Opd.LitOpd "0" 8), s)) ∧
    (∃ qs, c'.proc.quads = c.proc.quads ++ qs ∧ WidthsOK qs) ∧
    (∀ (e : ExpNode) (s s' : Ctx) (r : Option Opd), s.proc.CacheWF →
      e.flatten s = .ok (r, s') →
      (∀ x, r = some x → x.width = 8) ∧
        ∃ qs, s'.proc.quads = s.proc.quads ++ qs ∧ WidthsOK qs) ∧
    (∀ (decls : List DeclNode) (prog : IRProgram), ProgramNode.to3AC decls = .ok prog →
      ∀ p ∈ prog.procs, WidthsOK p.quads) := by
  refine ⟨fun _ _ => rfl, fun _ => rfl, fun _ => rfl, ?_, ?_, ?_⟩
  · obtain ⟨qs, hq, f⟩ := StmtNode.to3ACList_opds stmts c c' hw h
    exact ⟨qs, hq, f.widths⟩
  · intro e s s' r hs he
    obtain ⟨qs, hq, f, w, -⟩ := ExpNode.flatten_opds e s r s' hs he
    exact ⟨w, qs, hq, f.widths⟩
  · intro decls prog hp p hpm
    exact (ProgramNode.globalsTo3AC_widths decls IRProgram.create prog hp
      (by intro p hp; simp [IRProgram.create] at hp) p hpm).1

/-- C15 at `give 42 + (-7);` in a fresh procedure: the literals are rendered
in decimal, and they and the temporary have width 8. -/
theorem literal_widths_witness :
    ∃ c', StmtNode.to3ACList
        [.GiveStmtNode (.BinaryExpNode .PlusNode (.IntLitNode 42) (.IntLitNode (-7)))]
        Example.fresh = .ok c' ∧
      c'.proc.quads =
        [Quad.new (.BinOpQuad (some (Opd.AuxOpd 0 8)) .ADD64
           (some (Opd.LitOpd "42" 8)) (some (Opd.LitOpd "-7" 8))),
         Quad.new (.WriteQuad (some (Opd.AuxOpd 0 8)))] ∧
      ∃ qs, c'.proc.quads = Example.fresh.proc.quads ++ qs ∧ WidthsOK qs :=
  ⟨_, rfl, by decide, (literal_widths
    [.GiveStmtNode (.BinaryExpNode .PlusNode (.IntLitNode 42) (.IntLitNode (-7)))]
    Example.fresh _ (by intro e he; simp [Example.fresh, IRProgram.makeProc, Procedure.create] at he)
    rfl).2.2.2.1⟩

/-- C16: flattening an identifier reference to `s` appends no instruction and
returns the procedure's symbol operand for `s`, which is then its cached
binding (a fresh `SymOpd` of width 8 when `s` was not bound before); after
any statements or any expression lowered in between, a second reference to
`s` returns the same operand and leaves the context, cache included, as it
is. -/
theorem idNode_flatten (s : SemSymbol) (c : Ctx) (stmts : List StmtNode) (c2 : Ctx)
    (h : StmtNode.to3ACList stmts (c.getSymOpd s).snd = .ok c2) :
    (ExpNode.IDNode (some s)).flatten c
      = .ok (some (c.getSymOpd s).fst, (c.getSymOpd s).snd) ∧
    (c.getSymOpd s).snd.proc.quads = c.proc.quads ∧
    (c.getSymOpd s).snd.proc.symOpds.lookup s = some (c.getSymOpd s).fst ∧
    (c.proc.symOpds.lookup s = none → (c.getSymOpd s).fst = Opd.SymOpd s 8) ∧
    (∀ o, c.proc.symOpds.lookup s = some o → c.getSymOpd s = (o, c)) ∧
    (ExpNode.IDNode (some s)).flatten c2 = .ok (some (c.getSymOpd s).fst, c2) ∧
    (∀ (e : ExpNode) (r : Option Opd) (c3 : Ctx),
      e.flatten (c.getSymOpd s).snd = .ok (r, c3) →
      (ExpNode.IDNode (some s)).flatten c3 = .ok (some (c.getSymOpd s).fst, c3)) := by
  refine ⟨rfl, by simp, Ctx.lookup_getSymOpd c s, ?_, ?_, ?_, ?_⟩
  · intro hn
    simp [Ctx.getSymOpd, Procedure.getSymOpd, hn]
  · intro o ho
    exact Ctx.getSymOpd_of_lookup ho
  · have hl := (StmtNode.to3ACList_state stmts _ _ h).cache s _ (Ctx.lookup_getSymOpd c s)
    simp only [ExpNode.flatten, Ctx.getSymOpd_of_lookup hl]
  · intro e r c3 he
    have hl := (ExpNode.flatten_state e _ _ _ he).cache s _ (Ctx.lookup_getSymOpd c s)
    simp only [ExpNode.flatten, Ctx.getSymOpd_of_lookup hl]

/-- C16 at `x`, then `y = x + 1;`, then `x` again, in a fresh procedure: both
references yield the same operand and the second leaves the context as it
is. -/
theorem idNode_flatten_witness :
    ∃ c2, StmtNode.to3ACList
        [.AssignStmtNode (.IDNode (some Example.y))
          (.BinaryExpNode .PlusNode (.IDNode (some Example.x)) (.IntLitNode 1))]
        (Example.fresh.getSymOpd Example.x).snd = .ok c2 ∧
      (ExpNode.IDNode (some Example.x)).flatten Example.fresh
        = .ok (some (Opd.SymOpd Example.x 8), (Example.fresh.getSymOpd Example.x).snd) ∧
      (ExpNode.IDNode (some Example.x)).flatten c2 = .ok (some (Opd.SymOpd Example.x 8), c2) :=
  ⟨_, rfl, rfl, (idNode_flatten Example.x Example.fresh
    [.AssignStmtNode (.IDNode (some Example.y))
      (.BinaryExpNode .PlusNode (.IDNode (some Example.x)) (.IntLitNode 1))] _ rfl).2.2.2.2.2.1⟩

/-- C17: flattening a string literal with text `t` appends no instruction and
returns the module's pooled operand for `t`; the pool gains the one entry `t`
when `t` was not pooled and nothing otherwise, and stays free of duplicates.
In every later context of the module, of the same or of another procedure,
whose pool extends the pool reached then, flattening a literal with text `t`
returns the same operand and leaves the pool as it is; and pools are only
ever extended, by statements and by top-level declarations alike. -/
theorem strLit_flatten (t : String) (c d : Ctx) (ext : List String)
    (hd : d.prog.strings = (c.makeString t).snd.prog.strings ++ ext) :
    (ExpNode.StrLitNode t).flatten c
      = .ok (some (c.makeString t).fst, (c.makeString t).snd) ∧
    (c.makeString t).snd.proc = c.proc ∧
    (c.makeString t).fst
      = Opd.StrOpd ((c.makeString t).snd.prog.strings.indexOf t) 8 ∧
    (t ∈ c.prog.strings → (c.makeString t).snd = c) ∧
    (t ∉ c.prog.strings → (c.makeString t).snd.prog.strings = c.prog.strings ++ [t]) ∧
    (c.prog.strings.Nodup → (c.makeString t).snd.prog.strings.Nodup ∧
      (c.makeString t).snd.prog.strings.count t = 1) ∧
    (ExpNode.StrLitNode t).flatten d = .ok (some (c.makeString t).fst, d) ∧
    (∀ (stmts : List StmtNode) (a b : Ctx), StmtNode.to3ACList stmts a = .ok b →
      ∃ more, b.prog.strings = a.prog.strings ++ more) ∧
    (∀ (decls : List DeclNode) (g g' : IRProgram), ProgramNode.globalsTo3AC decls g = .ok g' →
      ∃ more, g'.strings = g.strings ++ more) := by
  have hmem : t ∈ (c.makeString t).snd.prog.strings := IRProgram.mem_makeString c.prog t
  refine ⟨rfl, rfl, IRProgram.makeString_fst c.prog t, ?_, ?_, ?_, ?_, ?_, ?_⟩
  · intro ht
    simp [Ctx.makeString, IRProgram.makeString, ht]
  · intro ht
    simp [Ctx.makeString, IRProgram.makeString, ht]
  · intro hn
    have h2 := (StateFrame.after_makeString c t).stringsNodup hn
    exact ⟨h2, List.count_eq_one_of_mem h2 hmem⟩
  · have hdm : t ∈ d.prog.strings := by rw [hd]; exact List.mem_append_left _ hmem
    simp only [ExpNode.flatten, Ctx.makeString_of_mem hdm]
    rw [hd, List.indexOf_append_of_mem hmem]
    have := IRProgram.makeString_fst c.prog t
    simp only [Ctx.makeString] at this ⊢
    rw [this]
  · intro stmts a b hs
    exact (StmtNode.to3ACList_state stmts a b hs).strings
  · intro decls g g' hg
    exact ProgramNode.globalsTo3AC_strings decls g g' hg

/-- C17 at two functions that each print `"hi"`: the module's pool is the one
entry `"hi"`, and a literal `"hi"` flattened in the second procedure, whose
pool is the one left by the first, yields the pooled entry 0 again. -/
theorem strLit_flatten_witness :
    (∃ prog, ProgramNode.to3AC [Example.hiFoo, Example.hiBar] = .ok prog ∧
      prog.strings = ["hi"] ∧
      prog.procs.map (fun p => p.quads)
        = [[Quad.new (.WriteQuad (some (Opd.StrOpd 0 8)))],
           [Quad.new (.WriteQuad (some (Opd.StrOpd 0 8)))]]) ∧
    (ExpNode.StrLitNode "hi").flatten
        ⟨Procedure.create "bar", ((IRProgram.create.makeProc "foo").makeString "hi").snd.prog⟩
      = .ok (some (Opd.StrOpd 0 8),
        ⟨Procedure.create "bar", ((IRProgram.create.makeProc "foo").makeString "hi").snd.prog⟩) :=
  ⟨⟨_, rfl, rfl, rfl⟩,
    (strLit_flatten "hi" (IRProgram.create.makeProc "foo")
      ⟨Procedure.create "bar", ((IRProgram.create.makeProc "foo").makeString "hi").snd.prog⟩ []
      rfl).2.2.2.2.2.2.1⟩

/-- C18: when a function declaration with formals `f1..fn` lowers at module
scope, all formals have a symbol, they are registered in the new procedure in
declaration order, and the procedure's instructions are exactly
`GetArg(1, opd(f1)), ..., GetArg(n, opd(fn))` followed by the instructions of
the body, where `opd(fi)` is the symbol operand the procedure binds `fi`
to. -/
theorem fnDecl_getArgs (symbol : SemSymbol) (formals : List (Option SemSymbol))
    (body : List StmtNode) (prog prog' : IRProgram)
    (h : (DeclNode.FnDeclNode symbol formals body).to3AC prog = .ok prog') :
    ∃ syms c2 c3 bodyQuads extra,
      formals = syms.map some ∧
      c2.proc.formals = syms ∧
      c2.proc.quads = getArgQuadsOf 1 syms ∧
      StmtNode.to3ACList body c2 = .ok c3 ∧
      c3.proc.quads = c2.proc.quads ++ bodyQuads ∧
      prog'.procs = prog.procs ++ [c3.proc] ∧
      c3.proc.quads = getArgQuadsOf 1 syms ++ bodyQuads ∧
      c3.proc.formals = syms ++ extra ∧
      ∀ f ∈ syms, c3.proc.symOpds.lookup f = some (Opd.SymOpd f 8) := by
  obtain ⟨syms, c2, c3, qs, extra, h1, -, h2, h3, h4, h5, h6, h7, h8, h9⟩ :=
    DeclNode.fnDecl_spec symbol formals body prog prog' h
  exact ⟨syms, c2, c3, qs, extra, h1, h2, h3, h4, h5, h6, h7, h8, h9⟩

/-- C18 at `foo(x, y) { give x; }` lowered into an empty module. -/
theorem fnDecl_getArgs_witness :
    ∃ prog', Example.twoFormals.to3AC IRProgram.create = .ok prog' ∧
      prog'.procs.map (fun p => p.formals) = [[Example.x, Example.y]] ∧
      prog'.procs.map (fun p => p.quads) =
        [[Quad.new (.GetArgQuad 1 (some (Opd.SymOpd Example.x 8))),
          Quad.new (.GetArgQuad 2 (some (Opd.SymOpd Example.y 8))),
          Quad.new (.WriteQuad (some (Opd.SymOpd Example.x 8)))]] := by
  obtain ⟨syms, c2, c3, bodyQuads, extra, -, -, -, -, -, hp, -, -, -⟩ :=
    fnDecl_getArgs Example.foo [some Example.x, some Example.y]
      [.GiveStmtNode (.IDNode (some Example.x))] IRProgram.create _ rfl
  exact ⟨_, rfl, rfl, rfl⟩

/-- C19: when statements lower into a procedure whose symbol cache is
well-typed and whose instructions mention no temporary, then in the resulting
sequence every temporary an instruction reads is written by an instruction
strictly before it and by exactly one instruction of the sequence.  Every
temporary whose `GetReturn` a call statement retracted, the call statement at
any depth of the list, was allocated during the lowering and is neither read
nor written anywhere in the sequence; for a call statement that temporary is
the one flattening its call returned.  The procedure a function declaration
adds to the module has the same property. -/
theorem tmps_defined_before_use (stmts : List StmtNode) (c c' : Ctx) (hw : c.proc.CacheWF)
    (hs : srcTmpsOf c.proc.quads = []) (hd : dstTmpsOf c.proc.quads = [])
    (h : StmtNode.to3ACList stmts c = .ok c') :
    TmpsDefinedBeforeUse c'.proc.quads ∧
    (∀ n ∈ StmtNode.retractedList stmts c,
      n ∉ srcTmpsOf c'.proc.quads ∧ n ∉ dstTmpsOf c'.proc.quads ∧
      c.proc.maxTmp ≤ n ∧ n < c'.proc.maxTmp) ∧
    (∀ (callee : SemSymbol) (args : List ExpNode) (k kF : Ctx) (n w : Nat),
      (ExpNode.CallExpNode callee args).flatten k = .ok (some (Opd.AuxOpd n w), kF) →
      (StmtNode.CallStmtNode callee args).retracted k = [n] ∧
      (StmtNode.CallStmtNode callee args).to3AC k = .ok kF.popQuad ∧
      kF.proc.quads = kF.popQuad.proc.quads ++
        [Quad.new (.GetRetQuad (some (Opd.AuxOpd n w)))]) ∧
    (∀ (before after : List StmtNode) (callee : SemSymbol) (args : List ExpNode)
        (c1 cF : Ctx) (n w : Nat),
      stmts = before ++ StmtNode.CallStmtNode callee args :: after →
      StmtNode.to3ACList before c = .ok c1 →
      (ExpNode.CallExpNode callee args).flatten c1 = .ok (some (Opd.AuxOpd n w), cF) →
      n ∉ srcTmpsOf c'.proc.quads ∧ n ∉ dstTmpsOf c'.proc.quads) ∧
    (∀ (symbol : SemSymbol) (formals : List (Option SemSymbol)) (body : List StmtNode)
        (prog prog' : IRProgram),
      (DeclNode.FnDeclNode symbol formals body).to3AC prog = .ok prog' →
      ∃ proc, prog'.procs = prog.procs ++ [proc] ∧ TmpsDefinedBeforeUse proc.quads) := by
  obtain ⟨s1, s2, -, -⟩ := StmtNode.to3ACList_scoped hw (Scoped.of_no_reads _ _ hs)
    (by rw [hd]; simp) (by rw [hd]; simp) h
  refine ⟨TmpsDefinedBeforeUse.of_scoped s1 s2, ?_, ?_, ?_, ?_⟩
  · intro n hn
    obtain ⟨d1, d2, d3⟩ := StmtNode.to3ACList_retracted stmts c c' hw h n hn
    have hdst : n ∉ dstTmpsOf c'.proc.quads := d3 (by rw [hd]; simp)
    refine ⟨fun hm => ?_, hdst, d1, d2⟩
    have := Scoped.src_subset _ _ s1 n hm
    simp only [List.nil_append] at this
    exact hdst this
  · intro callee args k kF n w hfl
    have hst : (StmtNode.CallStmtNode callee args).to3AC k = .ok kF.popQuad := by
      simp only [StmtNode.to3AC, hfl]
    refine ⟨StmtNode.retracted_call hfl, hst, ?_⟩
    obtain ⟨cA, hA, hv, -⟩ := StmtNode.callStmt_ok hst
    have hfl2 := ExpNode.flatten_call callee hA
    rw [hv, hfl] at hfl2
    simp only [Bool.false_eq_true, if_false, Except.ok.injEq, Prod.mk.injEq,
      Option.some.injEq, Opd.AuxOpd.injEq] at hfl2
    obtain ⟨⟨hn, hw8⟩, hc⟩ := hfl2
    subst hc
    simp [hn, hw8]
  · intro before after callee args c1 cF n w hst hb hfl
    subst hst
    obtain ⟨c1b, hb2, hrest⟩ := StmtNode.to3ACList_append _ _ _ _ h
    rw [hb] at hb2
    simp only [Except.ok.injEq] at hb2
    subst hb2
    simp only [StmtNode.to3ACList] at hrest
    split at hrest
    · exact absurd hrest (by simp)
    · rename_i c2 hcall
      obtain ⟨cA, hA, hv, rfl⟩ := StmtNode.callStmt_ok hcall
      have hfl2 := ExpNode.flatten_call callee hA
      rw [hv, hfl] at hfl2
      simp only [Bool.false_eq_true, if_false, Except.ok.injEq, Prod.mk.injEq,
        Option.some.injEq, Opd.AuxOpd.injEq] at hfl2
      obtain ⟨⟨hn, -⟩, -⟩ := hfl2
      have hw1 := (StmtNode.to3ACList_state _ _ _ hb).cacheWF hw
      obtain ⟨q1, hq1, f1⟩ := StmtNode.to3ACList_opds _ _ _ hw hb
      obtain ⟨qa, hqa, fa⟩ := ExpNode.flattenArgs_opds args 1 _ cA hw1 hA
      have hw2 := (StmtNode.to3AC_state _ _ _ hcall).cacheWF hw1
      obtain ⟨q3, hq3, f3⟩ := StmtNode.to3ACList_opds _ _ _ hw2 hrest
      simp only [Ctx.popQuad_maxTmp, Ctx.addQuad_maxTmp, Ctx.makeTmp_maxTmp,
        Ctx.popQuad_addQuad_quads, Ctx.addQuad_quads, Ctx.makeTmp_quads] at f3 hq3
      have hdst : n ∉ dstTmpsOf c'.proc.quads := by
        rw [hq3, hqa, hq1]
        simp only [dstTmpsOf_append, hd, List.nil_append, dstTmpsOf_cons, dstTmpsOf_nil,
          List.append_nil, List.mem_append, not_or]
        refine ⟨⟨⟨?_, ?_⟩, ?_⟩, ?_⟩
        · intro hm
          have := f1.dst_hi n hm
          have := fa.le
          omega
        · intro hm
          have := fa.dst_hi n hm
          omega
        · simp [Quad.dstTmps, Quad.new]
        · intro hm
          have := f3.dst_lo n hm
          omega
      refine ⟨?_, hdst⟩
      intro hm
      have := Scoped.src_subset _ _ s1 n hm
      simp only [List.nil_append] at this
      exact hdst this
  · intro symbol formals body prog prog' hf
    obtain ⟨proc, hp, -, ht⟩ := DeclNode.fnDecl_opds hf
    exact ⟨proc, hp, ht⟩

/-- C19 at `while (x) { if (y) { foo(x, y); } } give x + y;` in a fresh
procedure: the call statement two levels deep retracts temporary 0, which is
neither read nor written in the sequence; temporary 1 is written by the
`BinOp` and read by the `Write` after it. -/
theorem tmps_defined_before_use_witness :
    ∃ c', StmtNode.to3ACList Example.nestedCall Example.fresh = .ok c' ∧
      c'.proc.quads =
        [⟨[⟨1⟩], .NopQuad⟩,
         Quad.new (.IfzQuad (some (Opd.SymOpd Example.x 8)) ⟨2⟩),
         Quad.new (.IfzQuad (some (Opd.SymOpd Example.y 8)) ⟨3⟩),
         Quad.new (.SetArgQuad 1 (some (Opd.SymOpd Example.x 8))),
         Quad.new (.SetArgQuad 2 (some (Opd.SymOpd Example.y 8))),
         Quad.new (.CallQuad Example.foo),
         ⟨[⟨3⟩], .NopQuad⟩,
         Quad.new (.GotoQuad ⟨1⟩),
         ⟨[⟨2⟩], .NopQuad⟩,
         Quad.new (.BinOpQuad (some (Opd.AuxOpd 1 8)) .ADD64
           (some (Opd.SymOpd Example.x 8)) (some (Opd.SymOpd Example.y 8))),
         Quad.new (.WriteQuad (some (Opd.AuxOpd 1 8)))] ∧
      StmtNode.retractedList Example.nestedCall Example.fresh = [0] ∧
      TmpsDefinedBeforeUse c'.proc.quads ∧
      0 ∉ srcTmpsOf c'.proc.quads ∧ 0 ∉ dstTmpsOf c'.proc.quads := by
  obtain ⟨h1, h2, -⟩ := tmps_defined_before_use Example.nestedCall Example.fresh _
    (by intro e he; simp [Example.fresh, IRProgram.makeProc, Procedure.create] at he)
    rfl rfl rfl
  have hr : StmtNode.retractedList Example.nestedCall Example.fresh = [0] := rfl
  have h3 := h2 0 (by rw [hr]; exact List.mem_singleton_self 0)
  exact ⟨_, rfl, rfl, rfl, h1, h3.1, h3.2.1⟩

/-- C20: when a statement lowers, the instruction sequence before it is an
initial segment of the sequence after it and neither counter decreases; the
same holds for statement lists.  For a call statement the sequence after it is
the one before it followed by the arguments' instructions and the call, so
`popQuad` removed nothing that was there before the statement. -/
theorem stmt_appendOnly (stmt : StmtNode) (c c' : Ctx) (h : stmt.to3AC c = .ok c') :
    (∃ qs, c'.proc.quads = c.proc.quads ++ qs) ∧
    c.proc.maxTmp ≤ c'.proc.maxTmp ∧ c.proc.maxLabel ≤ c'.proc.maxLabel ∧
    (∀ (stmts : List StmtNode) (s s' : Ctx), StmtNode.to3ACList stmts s = .ok s' →
      (∃ qs, s'.proc.quads = s.proc.quads ++ qs) ∧
      s.proc.maxTmp ≤ s'.proc.maxTmp ∧ s.proc.maxLabel ≤ s'.proc.maxLabel) ∧
    (∀ (callee : SemSymbol) (args : List ExpNode) (s s' : Ctx),
      (StmtNode.CallStmtNode callee args).to3AC s = .ok s' →
      ∃ qa, s'.proc.quads = s.proc.quads ++ (qa ++ [Quad.new (.CallQuad callee)])) := by
  obtain ⟨qs, f⟩ := StmtNode.to3AC_frame stmt c c' h
  refine ⟨⟨qs, f.quads⟩, f.maxTmp, f.maxLabel, ?_, ?_⟩
  · intro stmts s s' hs
    obtain ⟨qs', f'⟩ := StmtNode.to3ACList_frame stmts s s' hs
    exact ⟨⟨qs', f'.quads⟩, f'.maxTmp, f'.maxLabel⟩
  · intro callee args s s' hs
    obtain ⟨cA, hA, -, rfl⟩ := StmtNode.callStmt_ok hs
    obtain ⟨qa, fa⟩ := ExpNode.flattenArgs_frame _ _ _ _ hA
    exact ⟨qa, (StmtFrame.callStmt fa).quads⟩

/-- C20 at `foo(x, y);` lowered after `give x;`: the `Write` stays in front. -/
theorem stmt_appendOnly_witness :
    ∃ c', (Scenario.callStmt Example.foo Example.x Example.y).to3AC
        ((Example.fresh.getSymOpd Example.x).snd.addQuad
          (Quad.new (.WriteQuad (some (Opd.SymOpd Example.x 8))))) = .ok c' ∧
      ∃ qs, c'.proc.quads = [Quad.new (.WriteQuad (some (Opd.SymOpd Example.x 8)))] ++ qs :=
  ⟨_, rfl, (stmt_appendOnly (Scenario.callStmt Example.foo Example.x Example.y)
    ((Example.fresh.getSymOpd Example.x).snd.addQuad
      (Quad.new (.WriteQuad (some (Opd.SymOpd Example.x 8))))) _ rfl).1⟩

end DrewnoMars
